import Mathlib

/-!
# pdbg: the RAM engine and the POWER10 thread controls

A shallow embedding of `libpdbg/chip.c` (opcode encoders, `ram_instructions`,
the typed register accessors, `ram_getregs`) and of `libpdbg/p10chip.c`
(thread state, start, sreset).

Conventions.
* `uint64_t` values are natural numbers; a shift that can leave 64 bits is
  reduced modulo `2^64`, a conversion to `uint32_t` modulo `2^32`.
* `int` values (return codes, the loop counter `i`, `len`) are integers.
* The hooks of `struct thread` (`ram_setup`, `ram_instruction`, `ram_destroy`,
  `getxer`) and the bus primitives (`pib_read`, `pib_write`) are external: they
  are functions on an explicit state, and every call made to them is appended
  to a log, so that the order and the number of calls can be stated.
* `CHECK_ERR(x)` (operations.h) evaluates `x` once and, when the value is not
  zero, returns that value from the enclosing function.
* `PR_ERROR` and `PR_DEBUG` only write a log line.
-/

namespace Pdbg

/-! ## Opcode encoders (chip.c, lines 31-109) -/

/-- Instruction base words of chip.h. The header is not among the sources, so
the words are parameters of the encoders. -/
structure chip_h where
  MFSPR_OPCODE : Nat
  MTSPR_OPCODE : Nat
  MFOCRF_OPCODE : Nat
  MFNIA_OPCODE : Nat
  MFMSR_OPCODE : Nat
  MTOCRF_OPCODE : Nat
  MTNIA_OPCODE : Nat
  MTMSR_OPCODE : Nat
  LD_OPCODE : Nat

/-- Reduction of a value to `uint64_t`. -/
def u64 (n : Nat) : Nat := n % 2 ^ 64

/-- Reduction of a value to `uint32_t`. -/
def u32 (n : Nat) : Nat := n % 2 ^ 32

/-- Encoder `mfspr(reg, spr)`; the range check only logs. -/
def mfspr (K : chip_h) (reg spr : Nat) : Nat :=
  K.MFSPR_OPCODE ||| u64 (reg <<< 21) ||| ((spr &&& 0x1f) <<< 16) ||| ((spr &&& 0x3e0) <<< 6)

/-- Encoder `mtspr(spr, reg)`; the range check only logs. -/
def mtspr (K : chip_h) (spr reg : Nat) : Nat :=
  K.MTSPR_OPCODE ||| u64 (reg <<< 21) ||| ((spr &&& 0x1f) <<< 16) ||| ((spr &&& 0x3e0) <<< 6)

/-- Encoder `mfocrf(reg, cr)`; `1U << (12 + cr)` is a 32-bit shift. -/
def mfocrf (K : chip_h) (reg cr : Nat) : Nat :=
  K.MFOCRF_OPCODE ||| u64 (reg <<< 21) ||| u32 (1 <<< (12 + cr))

/-- Encoder `mfnia(reg)`. -/
def mfnia (K : chip_h) (reg : Nat) : Nat :=
  K.MFNIA_OPCODE ||| u64 (reg <<< 21)

/-- Encoder `mfmsr(reg)`. -/
def mfmsr (K : chip_h) (reg : Nat) : Nat :=
  K.MFMSR_OPCODE ||| u64 (reg <<< 21)

/-! ## Threads and their hooks -/

/-- Sleep state of a thread (`PDBG_THREAD_STATE_*`). -/
inductive sleep_state_t where
  | RUN
  | STOP
  deriving DecidableEq, Repr

/-- SMT mode of a core (`PDBG_SMT_*`). -/
inductive smt_state_t where
  | SMT_UNKNOWN
  | SMT_1
  | SMT_2
  | SMT_4
  deriving DecidableEq, Repr

/-- The record `struct thread_state`. -/
structure thread_state where
  quiesced : Bool
  active : Bool
  sleep_state : sleep_state_t
  smt_state : smt_state_t
  deriving DecidableEq, Repr

/-- The fields of `struct thread` that the embedded functions use, together
with the state `hw` of everything the external hooks and the bus act on. -/
structure thread (σ : Type) where
  id : Nat
  status : thread_state
  ram_is_setup : Bool
  hw : σ

/-- What a session hook (`ram_setup`, `ram_destroy`) gives back. -/
structure hook_result (σ : Type) where
  rc : Int
  thread : thread σ

/-- What a hook with an in/out `uint64_t *` argument gives back. -/
structure ram_result (σ : Type) where
  rc : Int
  scratch : Nat
  thread : thread σ

/-- The function pointers of `struct thread` used by chip.c. -/
structure thread_hooks (σ : Type) where
  ram_setup : thread σ → hook_result σ
  ram_instruction : thread σ → Nat → Nat → ram_result σ
  ram_destroy : thread σ → hook_result σ
  getxer : thread σ → Nat → ram_result σ

/-- One call of the `ram_instruction` hook: the value of the loop counter `i`
of the iteration that made it, what went in and what came out. -/
structure ram_call where
  iter : Int
  opcode : Nat
  scratch_in : Nat
  rc : Int
  scratch_out : Nat
  deriving DecidableEq, Repr

/-- One logged hook call. -/
inductive hook_call where
  | setup (rc : Int)
  | instruction (c : ram_call)
  | destroy (rc : Int)
  | getxer (rc : Int)
  deriving DecidableEq, Repr

/-- The transport calls of a log, in order. -/
def ram_calls : List hook_call → List ram_call
  | [] => []
  | hook_call.instruction c :: l => c :: ram_calls l
  | _ :: l => ram_calls l

/-- The return code recorded in a logged call. -/
def hook_call.rc : hook_call → Int
  | hook_call.setup rc => rc
  | hook_call.instruction c => c.rc
  | hook_call.destroy rc => rc
  | hook_call.getxer rc => rc

/-! ## The sequencer `ram_instructions` (chip.c, lines 119-175) -/

/-- Local variables of `ram_instructions`, the thread and the call log. -/
structure ram_locals (σ : Type) where
  thread : thread σ
  results : List Nat
  opcode : Nat
  r0 : Nat
  r1 : Nat
  scratch : Nat
  exception : Int
  log : List hook_call

/-- Lines 134-151: the choice of `opcode` and `scratch` for iteration `i`. -/
def ram_select {σ : Type} (K : chip_h) (opcodes : List Nat) (len i : Int)
    (st : ram_locals σ) : ram_locals σ :=
  if i = -2 then { st with opcode := mtspr K 277 1 }
  else if i = -1 then { st with opcode := mtspr K 277 0 }
  else if i < len then
    { st with scratch := st.results.getD i.toNat 0, opcode := opcodes.getD i.toNat 0 }
  else if i = len then { st with scratch := st.r0, opcode := mfspr K 0 277 }
  else if i = len + 1 then { st with scratch := st.r1, opcode := mfspr K 1 277 }
  else st

/-- Line 153: the call `thread->ram_instruction(thread, opcode, &scratch)`;
the first component is its return value. The counter `i` only goes to the log. -/
def ram_issue {σ : Type} (H : thread_hooks σ) (i : Int) (st : ram_locals σ) :
    Int × ram_locals σ :=
  let r := H.ram_instruction st.thread st.opcode st.scratch
  (r.rc, { st with
    thread := r.thread
    scratch := r.scratch
    log := st.log ++ [hook_call.instruction ⟨i, st.opcode, st.scratch, r.rc, r.scratch⟩] })

/-- Lines 163-168: where the scratch value is kept after iteration `i`. -/
def ram_store {σ : Type} (len i : Int) (st : ram_locals σ) : ram_locals σ :=
  if i = -2 then { st with r1 := st.scratch }
  else if i = -1 then { st with r0 := st.scratch }
  else if i < len then { st with results := st.results.set i.toNat st.scratch }
  else st

/-- Lines 133-169: the loop `for (i = -2; i < len + 2; i++)`, entered at `i`. -/
def ram_loop {σ : Type} (K : chip_h) (H : thread_hooks σ) (opcodes : List Nat) (len : Int)
    (i : Int) (st : ram_locals σ) : ram_locals σ :=
  if h : i < len + 2 then
    let r := ram_issue H i (ram_select K opcodes len i st)
    if r.1 ≠ 0 then
      if h2 : 0 ≤ i ∧ i < len then
        -- i = len - 1, then the store of lines 163-168 and the i++ of the loop
        ram_loop K H opcodes len (len - 1 + 1)
          (ram_store len (len - 1) { r.2 with exception := 1 })
      else
        { r.2 with exception := 1 }
    else
      ram_loop K H opcodes len (i + 1) (ram_store len i r.2)
  else st
termination_by (len + 2 - i).toNat
decreasing_by
  all_goals simp_wf
  all_goals omega

/-- What `ram_instructions` leaves behind: its return value, the result array,
the thread and the hook calls it made. -/
structure ram_outcome (σ : Type) where
  rc : Int
  results : List Nat
  thread : thread σ
  log : List hook_call

/-- Lines 122-125: the locals of `ram_instructions` on entry of the loop. -/
def ram_entry {σ : Type} (th : thread σ) (results : List Nat) (log : List hook_call) :
    ram_locals σ :=
  { thread := th, results := results, opcode := 0, r0 := 0, r1 := 0, scratch := 0,
    exception := 0, log := log }

/-- The function `ram_instructions(thread, opcodes, results, len, lpar)`; the
argument `lpar` is not used by the body. -/
def ram_instructions {σ : Type} (K : chip_h) (H : thread_hooks σ) (th : thread σ)
    (opcodes results : List Nat) (len : Int) : ram_outcome σ :=
  if th.ram_is_setup = false then
    let s := H.ram_setup th
    if s.rc ≠ 0 then
      { rc := s.rc, results := results, thread := s.thread, log := [hook_call.setup s.rc] }
    else
      -- did_setup = true
      let fin := ram_loop K H opcodes len (-2)
        (ram_entry s.thread results [hook_call.setup s.rc])
      let d := H.ram_destroy fin.thread
      if d.rc ≠ 0 then
        { rc := d.rc, results := fin.results, thread := d.thread,
          log := fin.log ++ [hook_call.destroy d.rc] }
      else
        { rc := fin.exception, results := fin.results, thread := d.thread,
          log := fin.log ++ [hook_call.destroy d.rc] }
  else
    let fin := ram_loop K H opcodes len (-2) (ram_entry th results [])
    { rc := fin.exception, results := fin.results, thread := fin.thread, log := fin.log }

/-- The transport call made by iteration `i` of the loop from the locals `st`. -/
def ram_made {σ : Type} (K : chip_h) (H : thread_hooks σ) (opcodes : List Nat) (len i : Int)
    (st : ram_locals σ) : ram_call :=
  let s := ram_select K opcodes len i st
  let r := H.ram_instruction s.thread s.opcode s.scratch
  ⟨i, s.opcode, s.scratch, r.rc, r.scratch⟩

/-! ## Typed register accessors (chip.c, lines 180-277) -/

/-- What an accessor with an out-parameter leaves behind; `value` is the
content of `*value` after the call. -/
structure accessor_outcome (σ : Type) where
  rc : Int
  value : Nat
  thread : thread σ
  log : List hook_call

/-- What an accessor without out-parameter leaves behind. -/
structure put_outcome (σ : Type) where
  rc : Int
  thread : thread σ
  log : List hook_call

/-- The function `ram_getgpr(thread, gpr, value)`; the last argument is the
content of `*value` before the call, kept when `CHECK_ERR` returns early. -/
def ram_getgpr {σ : Type} (K : chip_h) (H : thread_hooks σ) (gpr : Nat) (th : thread σ)
    (value : Nat) : accessor_outcome σ :=
  let r := ram_instructions K H th [mtspr K 277 gpr] [0] 1
  if r.rc ≠ 0 then { rc := r.rc, value := value, thread := r.thread, log := r.log }
  else { rc := 0, value := r.results.getD 0 0, thread := r.thread, log := r.log }

/-- The function `ram_putgpr(thread, gpr, value)`. -/
def ram_putgpr {σ : Type} (K : chip_h) (H : thread_hooks σ) (gpr : Nat) (th : thread σ)
    (value : Nat) : put_outcome σ :=
  let r := ram_instructions K H th [mfspr K gpr 277] [value] 1
  if r.rc ≠ 0 then { rc := r.rc, thread := r.thread, log := r.log }
  else { rc := 0, thread := r.thread, log := r.log }

/-- The function `ram_getnia(thread, value)`. -/
def ram_getnia {σ : Type} (K : chip_h) (H : thread_hooks σ) (th : thread σ)
    (value : Nat) : accessor_outcome σ :=
  let r := ram_instructions K H th [mfnia K 0, mtspr K 277 0] [0, 0] 2
  if r.rc ≠ 0 then { rc := r.rc, value := value, thread := r.thread, log := r.log }
  else { rc := 0, value := r.results.getD 1 0, thread := r.thread, log := r.log }

/-- The function `ram_getspr(thread, spr, value)`. -/
def ram_getspr {σ : Type} (K : chip_h) (H : thread_hooks σ) (spr : Nat) (th : thread σ)
    (value : Nat) : accessor_outcome σ :=
  let r := ram_instructions K H th [mfspr K 0 spr, mtspr K 277 0] [0, 0] 2
  if r.rc ≠ 0 then { rc := r.rc, value := value, thread := r.thread, log := r.log }
  else { rc := 0, value := r.results.getD 1 0, thread := r.thread, log := r.log }

/-- The function `ram_getmsr(thread, value)`. -/
def ram_getmsr {σ : Type} (K : chip_h) (H : thread_hooks σ) (th : thread σ)
    (value : Nat) : accessor_outcome σ :=
  let r := ram_instructions K H th [mfmsr K 0, mtspr K 277 0] [0, 0] 2
  if r.rc ≠ 0 then { rc := r.rc, value := value, thread := r.thread, log := r.log }
  else { rc := 0, value := r.results.getD 1 0, thread := r.thread, log := r.log }

/-- The opcode array of `ram_getcr` (lines 260-263). -/
def ram_getcr_opcodes (K : chip_h) : List Nat :=
  [mfocrf K 0 0, mtspr K 277 0, mfocrf K 0 1, mtspr K 277 0,
   mfocrf K 0 2, mtspr K 277 0, mfocrf K 0 3, mtspr K 277 0,
   mfocrf K 0 4, mtspr K 277 0, mfocrf K 0 5, mtspr K 277 0,
   mfocrf K 0 6, mtspr K 277 0, mfocrf K 0 7, mtspr K 277 0]

/-- One pass of the body of lines 270-272 for the index `i`: `cr_field` is
`results[i]` converted to `uint32_t`, the mask `0xf << 2*(i-1)` is taken as a
32-bit word. -/
def ram_getcr_body (results : List Nat) (cr i : Nat) : Nat :=
  cr ||| (u32 (results.getD i 0) &&& u32 (0xf <<< (2 * (i - 1))))

/-- Lines 269-273: the loop `for (i = 1; i < 16; i += 2)`, from `cr = 0`. -/
def ram_getcr_loop (results : List Nat) : Nat :=
  [1, 3, 5, 7, 9, 11, 13, 15].foldl (ram_getcr_body results) 0

/-- The function `ram_getcr(thread, value)`; `*value` is a `uint32_t`. -/
def ram_getcr {σ : Type} (K : chip_h) (H : thread_hooks σ) (th : thread σ)
    (value : Nat) : accessor_outcome σ :=
  let r := ram_instructions K H th (ram_getcr_opcodes K) (List.replicate 16 0) 16
  if r.rc ≠ 0 then { rc := r.rc, value := value, thread := r.thread, log := r.log }
  else { rc := 0, value := ram_getcr_loop r.results, thread := r.thread, log := r.log }

/-! ## The full snapshot `ram_getregs` (chip.c, lines 321-386) -/

/-- SPR numbers of sprs.h. The header is not among the sources, so the
numbers are parameters. -/
structure sprs_h where
  SPR_CFAR : Nat
  SPR_LR : Nat
  SPR_CTR : Nat
  SPR_LPCR : Nat
  SPR_PTCR : Nat
  SPR_LPIDR : Nat
  SPR_PIDR : Nat
  SPR_HFSCR : Nat
  SPR_HDSISR : Nat
  SPR_HDAR : Nat
  SPR_HEIR : Nat
  SPR_HID : Nat
  SPR_HSRR0 : Nat
  SPR_HSRR1 : Nat
  SPR_HDEC : Nat
  SPR_HSPRG0 : Nat
  SPR_HSPRG1 : Nat
  SPR_FSCR : Nat
  SPR_DSISR : Nat
  SPR_DAR : Nat
  SPR_SRR0 : Nat
  SPR_SRR1 : Nat
  SPR_DEC : Nat
  SPR_TB : Nat
  SPR_SPRG0 : Nat
  SPR_SPRG1 : Nat
  SPR_SPRG2 : Nat
  SPR_SPRG3 : Nat
  SPR_PPR : Nat

/-- The record `struct thread_regs`, with the fields that `ram_getregs`
writes; `gprs` is the array of the 32 general registers. -/
structure thread_regs where
  nia : Nat
  cfar : Nat
  msr : Nat
  lr : Nat
  ctr : Nat
  tar : Nat
  cr : Nat
  xer : Nat
  gprs : List Nat
  lpcr : Nat
  ptcr : Nat
  lpidr : Nat
  pidr : Nat
  hfscr : Nat
  hdsisr : Nat
  hdar : Nat
  heir : Nat
  hid : Nat
  hsrr0 : Nat
  hsrr1 : Nat
  hdec : Nat
  hsprg0 : Nat
  hsprg1 : Nat
  fscr : Nat
  dsisr : Nat
  dar : Nat
  srr0 : Nat
  srr1 : Nat
  dec : Nat
  tb : Nat
  sprg0 : Nat
  sprg1 : Nat
  sprg2 : Nat
  sprg3 : Nat
  ppr : Nat

/-- The thread and the log in the middle of `ram_getregs`. -/
structure session (σ : Type) where
  thread : thread σ
  log : List hook_call

/-- A statement `acc(thread, ..., &dst);` whose return value is not looked at:
the content of `dst` after the call, and the session after the call. -/
def read_into {σ : Type} (acc : thread σ → Nat → accessor_outcome σ) (w : session σ)
    (dst : Nat) : Nat × session σ :=
  ((acc w.thread dst).value,
    { thread := (acc w.thread dst).thread, log := w.log ++ (acc w.thread dst).log })

/-- Line 340: `thread->getxer(thread, &regs->xer);`, return value not looked at. -/
def read_xer {σ : Type} (H : thread_hooks σ) (w : session σ) (dst : Nat) : Nat × session σ :=
  ((H.getxer w.thread dst).scratch,
    { thread := (H.getxer w.thread dst).thread,
      log := w.log ++ [hook_call.getxer (H.getxer w.thread dst).rc] })

/-- Lines 342-343: `for (i = 0; i < 32; i++) ram_getgpr(thread, i, &regs->gprs[i]);`
entered at `i = 32 - n`. -/
def read_gprs {σ : Type} (K : chip_h) (H : thread_hooks σ) :
    Nat → List Nat × session σ → List Nat × session σ
  | 0, a => a
  | n + 1, a =>
    read_gprs K H n
      (a.1.set (32 - (n + 1)) (read_into (ram_getgpr K H (32 - (n + 1))) a.2
          (a.1.getD (32 - (n + 1)) 0)).1,
        (read_into (ram_getgpr K H (32 - (n + 1))) a.2 (a.1.getD (32 - (n + 1)) 0)).2)

/-- Lines 332-379 of `ram_getregs`: every read, in order; each name below is
the pair of the value left in the destination and the session after that
statement. The local `value` starts at 0; the narrow fields `hdsisr`, `heir`
and `dsisr` are assigned from it, so the read of `heir` starts from the value
left by the read of `hdsisr`, and the read of `dsisr` from the one of `heir`. -/
def ram_getregs_reads {σ : Type} (K : chip_h) (S : sprs_h) (H : thread_hooks σ)
    (w : session σ) (regs : thread_regs) : thread_regs × session σ :=
  let nia := read_into (ram_getnia K H) w regs.nia
  let cfar := read_into (ram_getspr K H S.SPR_CFAR) nia.2 regs.cfar
  let msr := read_into (ram_getmsr K H) cfar.2 regs.msr
  let lr := read_into (ram_getspr K H S.SPR_LR) msr.2 regs.lr
  let ctr := read_into (ram_getspr K H S.SPR_CTR) lr.2 regs.ctr
  let tar := read_into (ram_getspr K H 815) ctr.2 regs.tar
  let cr := read_into (ram_getcr K H) tar.2 regs.cr
  let xer := read_xer H cr.2 regs.xer
  let gprs := read_gprs K H 32 (regs.gprs, xer.2)
  let lpcr := read_into (ram_getspr K H S.SPR_LPCR) gprs.2 regs.lpcr
  let ptcr := read_into (ram_getspr K H S.SPR_PTCR) lpcr.2 regs.ptcr
  let lpidr := read_into (ram_getspr K H S.SPR_LPIDR) ptcr.2 regs.lpidr
  let pidr := read_into (ram_getspr K H S.SPR_PIDR) lpidr.2 regs.pidr
  let hfscr := read_into (ram_getspr K H S.SPR_HFSCR) pidr.2 regs.hfscr
  let hdsisr := read_into (ram_getspr K H S.SPR_HDSISR) hfscr.2 0
  let hdar := read_into (ram_getspr K H S.SPR_HDAR) hdsisr.2 regs.hdar
  let heir := read_into (ram_getspr K H S.SPR_HEIR) hdar.2 hdsisr.1
  let hid := read_into (ram_getspr K H S.SPR_HID) heir.2 regs.hid
  let hsrr0 := read_into (ram_getspr K H S.SPR_HSRR0) hid.2 regs.hsrr0
  let hsrr1 := read_into (ram_getspr K H S.SPR_HSRR1) hsrr0.2 regs.hsrr1
  let hdec := read_into (ram_getspr K H S.SPR_HDEC) hsrr1.2 regs.hdec
  let hsprg0 := read_into (ram_getspr K H S.SPR_HSPRG0) hdec.2 regs.hsprg0
  let hsprg1 := read_into (ram_getspr K H S.SPR_HSPRG1) hsprg0.2 regs.hsprg1
  let fscr := read_into (ram_getspr K H S.SPR_FSCR) hsprg1.2 regs.fscr
  let dsisr := read_into (ram_getspr K H S.SPR_DSISR) fscr.2 heir.1
  let dar := read_into (ram_getspr K H S.SPR_DAR) dsisr.2 regs.dar
  let srr0 := read_into (ram_getspr K H S.SPR_SRR0) dar.2 regs.srr0
  let srr1 := read_into (ram_getspr K H S.SPR_SRR1) srr0.2 regs.srr1
  let dec := read_into (ram_getspr K H S.SPR_DEC) srr1.2 regs.dec
  let tb := read_into (ram_getspr K H S.SPR_TB) dec.2 regs.tb
  let sprg0 := read_into (ram_getspr K H S.SPR_SPRG0) tb.2 regs.sprg0
  let sprg1 := read_into (ram_getspr K H S.SPR_SPRG1) sprg0.2 regs.sprg1
  let sprg2 := read_into (ram_getspr K H S.SPR_SPRG2) sprg1.2 regs.sprg2
  let sprg3 := read_into (ram_getspr K H S.SPR_SPRG3) sprg2.2 regs.sprg3
  let ppr := read_into (ram_getspr K H S.SPR_PPR) sprg3.2 regs.ppr
  ({ nia := nia.1, cfar := cfar.1, msr := msr.1, lr := lr.1, ctr := ctr.1, tar := tar.1,
     cr := cr.1, xer := xer.1, gprs := gprs.1, lpcr := lpcr.1, ptcr := ptcr.1,
     lpidr := lpidr.1, pidr := pidr.1, hfscr := hfscr.1, hdsisr := u32 hdsisr.1,
     hdar := hdar.1, heir := u32 heir.1, hid := hid.1, hsrr0 := hsrr0.1, hsrr1 := hsrr1.1,
     hdec := hdec.1, hsprg0 := hsprg0.1, hsprg1 := hsprg1.1, fscr := fscr.1,
     dsisr := u32 dsisr.1, dar := dar.1, srr0 := srr0.1, srr1 := srr1.1, dec := dec.1,
     tb := tb.1, sprg0 := sprg0.1, sprg1 := sprg1.1, sprg2 := sprg2.1, sprg3 := sprg3.1,
     ppr := ppr.1 }, ppr.2)

/-- What `ram_getregs` leaves behind. -/
structure getregs_outcome (σ : Type) where
  rc : Int
  regs : thread_regs
  thread : thread σ
  log : List hook_call

/-- The function `ram_getregs(thread, regs)`; `regs` is the content of the
record written to (the caller's, or the local `_regs`) before the call.
`thread_print_regs` only prints. -/
def ram_getregs {σ : Type} (K : chip_h) (S : sprs_h) (H : thread_hooks σ) (th : thread σ)
    (regs : thread_regs) : getregs_outcome σ :=
  let s := H.ram_setup th
  if s.rc ≠ 0 then
    { rc := s.rc, regs := regs, thread := s.thread, log := [hook_call.setup s.rc] }
  else
    let a := ram_getregs_reads K S H { thread := s.thread, log := [hook_call.setup s.rc] } regs
    let d := H.ram_destroy a.2.thread
    if d.rc ≠ 0 then
      { rc := d.rc, regs := a.1, thread := d.thread, log := a.2.log ++ [hook_call.destroy d.rc] }
    else
      { rc := 0, regs := a.1, thread := d.thread, log := a.2.log ++ [hook_call.destroy d.rc] }

/-- The number of runs of `ram_instructions` seen in a log: each run either
logs a failed `ram_setup` or makes the transport call of iteration `-2`. -/
def sequencer_runs : List hook_call → Nat
  | [] => 0
  | hook_call.setup rc :: l => (if rc ≠ 0 then 1 else 0) + sequencer_runs l
  | hook_call.instruction c :: l => (if c.iter = -2 then 1 else 0) + sequencer_runs l
  | _ :: l => sequencer_runs l

/-- A property of logs kept by every read of the snapshot: the log only
grows at its end, and `k` more runs of the sequencer are seen. -/
def grows_by (k : Nat) (a b : List hook_call) : Prop :=
  (∃ l, b = a ++ l) ∧ sequencer_runs b = sequencer_runs a + k

/-- The condition register as the spec words it: the OR over the eight fields
`k` of (capture `k` AND `0xF << 4k`), truncated to 32 bits; capture `k` is
result slot `2k + 1`. -/
def cr_of_captures (results : List Nat) : Nat :=
  u32 ((List.range 8).foldl
    (fun acc k => acc ||| (results.getD (2 * k + 1) 0 &&& (0xf <<< (4 * k)))) 0)

/-! ## POWER10 thread controls (p10chip.c) -/

/-- Register address `P10_CORE_THREAD_STATE`. -/
def P10_CORE_THREAD_STATE : Nat := 0x28412

/-- Register address `P10_THREAD_INFO`. -/
def P10_THREAD_INFO : Nat := 0x28413

/-- Register address `P10_DIRECT_CONTROL`. -/
def P10_DIRECT_CONTROL : Nat := 0x28449

/-- Register address `P10_RAS_STATUS`. -/
def P10_RAS_STATUS : Nat := 0x28454

/-- The bit macros of bitutils.h. The header is not among the sources, so the
macros are parameters. -/
structure bitutils_h where
  PPC_BIT : Nat → Nat
  PPC_BITMASK : Nat → Nat → Nat
  GETFIELD : Nat → Nat → Nat

/-- What `pib_read` gives back; `data` is the content of `*data` after the
call. -/
structure read_result (σ : Type) where
  rc : Int
  data : Nat
  hw : σ

/-- What `pib_write` gives back. -/
structure write_result (σ : Type) where
  rc : Int
  hw : σ

/-- The bus primitives, applied to the core of the thread (`thread_read` and
`thread_write`, lines 45-57, pass the parent core on). -/
structure pib (σ : Type) where
  pib_read : σ → Nat → read_result σ
  pib_write : σ → Nat → Nat → write_result σ

/-- One logged bus access, or one call of `usleep`. -/
inductive bus_op where
  | read (addr : Nat) (rc : Int) (data : Nat)
  | write (addr : Nat) (data : Nat) (rc : Int)
  | sleep (usec : Nat)
  deriving DecidableEq, Repr

/-- What `p10_thread_state` leaves behind. -/
structure state_outcome (σ : Type) where
  state : thread_state
  thread : thread σ
  ops : List bus_op

/-- The function `p10_thread_state(thread)` (lines 59-98): three bus reads,
whose return codes are not looked at. -/
def p10_thread_state {σ : Type} (U : bitutils_h) (B : pib σ) (th : thread σ) : state_outcome σ :=
  let r1 := B.pib_read th.hw P10_RAS_STATUS
  let quiesced : Bool :=
    U.GETFIELD (U.PPC_BITMASK (1 + 8 * th.id) (3 + 8 * th.id)) r1.data == 0x7
  let r2 := B.pib_read r1.hw P10_THREAD_INFO
  let active : Bool := (r2.data &&& U.PPC_BIT th.id) != 0
  let smt_mode : Nat := U.GETFIELD (U.PPC_BITMASK 8 9) r2.data % 2 ^ 8
  let smt_state : smt_state_t :=
    if smt_mode = 0 then smt_state_t.SMT_1
    else if smt_mode = 2 then smt_state_t.SMT_2
    else if smt_mode = 3 then smt_state_t.SMT_4
    else smt_state_t.SMT_UNKNOWN
  let r3 := B.pib_read r2.hw P10_CORE_THREAD_STATE
  let sleep_state : sleep_state_t :=
    if (r3.data &&& U.PPC_BIT (56 + th.id)) ≠ 0 then sleep_state_t.STOP else sleep_state_t.RUN
  { state := { quiesced := quiesced, active := active, sleep_state := sleep_state,
               smt_state := smt_state },
    thread := { th with hw := r3.hw },
    ops := [bus_op.read P10_RAS_STATUS r1.rc r1.data, bus_op.read P10_THREAD_INFO r2.rc r2.data,
            bus_op.read P10_CORE_THREAD_STATE r3.rc r3.data] }

/-- What a control function leaves behind. -/
structure control_outcome (σ : Type) where
  rc : Int
  thread : thread σ
  ops : List bus_op

/-- The function `p10_thread_start(thread)` (lines 120-137); the hook
`thread->state` of a POWER10 thread is `p10_thread_state`. -/
def p10_thread_start {σ : Type} (U : bitutils_h) (B : pib σ) (th : thread σ) :
    control_outcome σ :=
  if th.status.quiesced = false then { rc := 1, thread := th, ops := [] }
  else
    let data : Nat :=
      if th.status.active = false ∨ th.status.sleep_state = sleep_state_t.STOP then
        -- Inactive or active and stopped: Clear Maint
        U.PPC_BIT (3 + 8 * th.id)
      else
        -- Active and not stopped: Start
        U.PPC_BIT (6 + 8 * th.id)
    let w := B.pib_write th.hw P10_DIRECT_CONTROL data
    let s := p10_thread_state U B { th with hw := w.hw }
    { rc := 0, thread := { s.thread with status := s.state },
      ops := bus_op.write P10_DIRECT_CONTROL data w.rc :: s.ops }

/-- The function `p10_thread_sreset(thread)` (lines 156-167). -/
def p10_thread_sreset {σ : Type} (U : bitutils_h) (B : pib σ) (th : thread σ) :
    control_outcome σ :=
  if th.status.quiesced = false then { rc := 1, thread := th, ops := [] }
  else
    let w := B.pib_write th.hw P10_DIRECT_CONTROL (U.PPC_BIT (4 + 8 * th.id))
    let s := p10_thread_state U B { th with hw := w.hw }
    { rc := 0, thread := { s.thread with status := s.state },
      ops := bus_op.write P10_DIRECT_CONTROL (U.PPC_BIT (4 + 8 * th.id)) w.rc :: s.ops }

/-- Whether a logged bus access is a write. -/
def bus_op.is_write : bus_op → Bool
  | bus_op.write _ _ _ => true
  | _ => false

/-- Macro `NUM_CORES_PER_EQ`. -/
def NUM_CORES_PER_EQ : Int := 4

/-- Macro `EQ0_CHIPLET_ID`. -/
def EQ0_CHIPLET_ID : Int := 0x20

/-- The function `p10_core_translate(c, addr)` (lines 241-268); the first
argument is `pdbg_target_index(&c->target)`, an `int`. Division and remainder
truncate as in C; `x & 0x3F` and `x & 0xF` on an `int` are the remainders
modulo 64 and 16 of the two's complement value. -/
def p10_core_translate (chip_unitnum : Int) (addr : Nat) : Nat :=
  let chiplet_id : Int := EQ0_CHIPLET_ID + chip_unitnum.tdiv NUM_CORES_PER_EQ
  let region : Int :=
    if chip_unitnum.tmod NUM_CORES_PER_EQ = 0 then 8
    else if chip_unitnum.tmod NUM_CORES_PER_EQ = 1 then 4
    else if chip_unitnum.tmod NUM_CORES_PER_EQ = 2 then 2
    else if chip_unitnum.tmod NUM_CORES_PER_EQ = 3 then 1
    else 0
  let addr1 := addr &&& 0xFFFFFFFFC0FFFFFF
  let addr2 := addr1 ||| u64 ((chiplet_id % 64).toNat <<< 24)
  let addr3 := addr2 &&& 0xFFFFFFFFFFFF0FFF
  addr3 ||| u64 ((region % 16).toNat <<< 12)

/-- Macro `RAS_STATUS_TIMEOUT` (line 42, commented `100ms`). -/
def RAS_STATUS_TIMEOUT : Nat := 100

/-- Lines 144-150 of `p10_thread_stop`: the loop
`while (!(thread->state(thread).quiesced))`, entered with the counter `i`;
the test `i++ > RAS_STATUS_TIMEOUT` compares the value before the increment.
The result is the thread and the log of bus accesses and sleeps. -/
def p10_stop_loop {σ : Type} (U : bitutils_h) (B : pib σ) (i : Nat) (th : thread σ)
    (ops : List bus_op) : thread σ × List bus_op :=
  let s := p10_thread_state U B th
  if s.state.quiesced = false then
    -- usleep(1000), then the test of `i++`
    if _h : i > RAS_STATUS_TIMEOUT then
      (s.thread, ops ++ s.ops ++ [bus_op.sleep 1000])
    else
      p10_stop_loop U B (i + 1) s.thread (ops ++ s.ops ++ [bus_op.sleep 1000])
  else (s.thread, ops ++ s.ops)
termination_by RAS_STATUS_TIMEOUT + 1 - i
decreasing_by
  all_goals simp_wf
  all_goals omega

/-- The function `p10_thread_stop(thread)` (lines 139-154). -/
def p10_thread_stop {σ : Type} (U : bitutils_h) (B : pib σ) (th : thread σ) :
    control_outcome σ :=
  let w := B.pib_write th.hw P10_DIRECT_CONTROL (U.PPC_BIT (7 + 8 * th.id))
  let l := p10_stop_loop U B 0 { th with hw := w.hw }
    [bus_op.write P10_DIRECT_CONTROL (U.PPC_BIT (7 + 8 * th.id)) w.rc]
  let s := p10_thread_state U B l.1
  { rc := 0, thread := { s.thread with status := s.state }, ops := l.2 ++ s.ops }

/-- Whether a logged event is a bus read of the register `addr`. -/
def bus_op.reads (addr : Nat) : bus_op → Bool
  | bus_op.read a _ _ => a == addr
  | _ => false

/-- Whether a logged event is a call of `usleep`. -/
def bus_op.is_sleep : bus_op → Bool
  | bus_op.sleep _ => true
  | _ => false

/-! ## The remaining encoders and the error path of all nine (chip.c, lines 31-109) -/

/-- Encoder `mtnia(reg)`; the range check only logs. -/
def mtnia (K : chip_h) (reg : Nat) : Nat :=
  K.MTNIA_OPCODE ||| u64 (reg <<< 21)

/-- Encoder `mtmsr(reg)`; the range check only logs. -/
def mtmsr (K : chip_h) (reg : Nat) : Nat :=
  K.MTMSR_OPCODE ||| u64 (reg <<< 21)

/-- Encoder `ld(rt, ds, ra)`; the range check only logs. -/
def ld (K : chip_h) (rt ds ra : Nat) : Nat :=
  K.LD_OPCODE ||| u64 (rt <<< 21) ||| u64 (ra <<< 16) ||| u64 (ds <<< 2)

/-- What one call of an encoder does: the messages it gives to `PR_ERROR`, and
the word it returns to its caller, `none` when it called `exit(1)` instead of
returning. -/
structure encoder_run where
  errors : List String
  word : Option Nat
  deriving DecidableEq, Repr

/-- Lines 31-37: `mfspr` with its range check. -/
def mfspr_run (K : chip_h) (reg spr : Nat) : encoder_run :=
  { errors := if reg > 31 then ["Invalid register specified for mfspr\n"] else [],
    word := some (mfspr K reg spr) }

/-- Lines 39-45: `mtspr` with its range check. -/
def mtspr_run (K : chip_h) (spr reg : Nat) : encoder_run :=
  { errors := if reg > 31 then ["Invalid register specified for mtspr\n"] else [],
    word := some (mtspr K spr reg) }

/-- Lines 47-55: `mfocrf` with its two range checks. -/
def mfocrf_run (K : chip_h) (reg cr : Nat) : encoder_run :=
  { errors := (if reg > 31 then ["Invalid register specified for mfocrf\n"] else [])
      ++ (if cr > 7 then ["Invalid CR field specified\n"] else []),
    word := some (mfocrf K reg cr) }

/-- Lines 57-69: `mtocrf`, the one encoder whose range checks call `exit(1)`. -/
def mtocrf_run (K : chip_h) (cr reg : Nat) : encoder_run :=
  if reg > 31 then
    { errors := ["Invalid register specified for mfocrf\n"], word := none }
  else if cr > 7 then
    { errors := ["Invalid CR field specified\n"], word := none }
  else
    { errors := [],
      word := some (K.MTOCRF_OPCODE ||| u64 (reg <<< 21) ||| u32 (1 <<< (12 + cr))) }

/-- Encoder `mtocrf(cr, reg)`: the word returned, `none` when the call exits. -/
def mtocrf (K : chip_h) (cr reg : Nat) : Option Nat :=
  (mtocrf_run K cr reg).word

/-- Lines 71-77: `mfnia` with its range check. -/
def mfnia_run (K : chip_h) (reg : Nat) : encoder_run :=
  { errors := if reg > 31 then ["Invalid register specified for mfnia\n"] else [],
    word := some (mfnia K reg) }

/-- Lines 79-85: `mtnia` with its range check. -/
def mtnia_run (K : chip_h) (reg : Nat) : encoder_run :=
  { errors := if reg > 31 then ["Invalid register specified for mtnia\n"] else [],
    word := some (mtnia K reg) }

/-- Lines 87-93: `mfmsr` with its range check. -/
def mfmsr_run (K : chip_h) (reg : Nat) : encoder_run :=
  { errors := if reg > 31 then ["Invalid register specified for mfmsr\n"] else [],
    word := some (mfmsr K reg) }

/-- Lines 95-101: `mtmsr` with its range check. -/
def mtmsr_run (K : chip_h) (reg : Nat) : encoder_run :=
  { errors := if reg > 31 then ["Invalid register specified for mtmsr\n"] else [],
    word := some (mtmsr K reg) }

/-- Lines 103-109: `ld` with its range check. -/
def ld_run (K : chip_h) (rt ds ra : Nat) : encoder_run :=
  { errors := if rt > 31 ∨ ra > 31 ∨ ds > 0x3fff then ["Invalid register specified\n"] else [],
    word := some (ld K rt ds ra) }

/-! ## The remaining accessors and the arrays each accessor passes (chip.c, lines 180-307) -/

/-- The function `ram_putnia(thread, value)` (lines 216-227). -/
def ram_putnia {σ : Type} (K : chip_h) (H : thread_hooks σ) (th : thread σ) (value : Nat) :
    put_outcome σ :=
  let r := ram_instructions K H th
    [mfspr K 1 8, mfspr K 0 277, mtspr K 8 0, mtnia K 0, mtspr K 8 1] [0, value, 0, 0, 0] 5
  if r.rc ≠ 0 then { rc := r.rc, thread := r.thread, log := r.log }
  else { rc := 0, thread := r.thread, log := r.log }

/-- The function `ram_putspr(thread, spr, value)`. -/
def ram_putspr {σ : Type} (K : chip_h) (H : thread_hooks σ) (spr : Nat) (th : thread σ)
    (value : Nat) : put_outcome σ :=
  let r := ram_instructions K H th [mfspr K 0 277, mtspr K spr 0] [value, 0] 2
  if r.rc ≠ 0 then { rc := r.rc, thread := r.thread, log := r.log }
  else { rc := 0, thread := r.thread, log := r.log }

/-- The function `ram_putmsr(thread, value)`. -/
def ram_putmsr {σ : Type} (K : chip_h) (H : thread_hooks σ) (th : thread σ) (value : Nat) :
    put_outcome σ :=
  let r := ram_instructions K H th [mfspr K 0 277, mtmsr K 0] [value, 0] 2
  if r.rc ≠ 0 then { rc := r.rc, thread := r.thread, log := r.log }
  else { rc := 0, thread := r.thread, log := r.log }

/-- The opcode array of `ram_putcr` (lines 281-283), `none` if one of the
calls of `mtocrf` exits. -/
def ram_putcr_opcodes (K : chip_h) : Option (List Nat) := do
  let c0 ← mtocrf K 0 0
  let c1 ← mtocrf K 1 0
  let c2 ← mtocrf K 2 0
  let c3 ← mtocrf K 3 0
  let c4 ← mtocrf K 4 0
  let c5 ← mtocrf K 5 0
  let c6 ← mtocrf K 6 0
  let c7 ← mtocrf K 7 0
  pure [mfspr K 0 277, c0, c1, c2, c3, c4, c5, c6, c7]

/-- The function `ram_putcr(thread, value)` (lines 279-288); the array
`results` is `{value}`, the count is `ARRAY_SIZE(opcodes)`. Reading a slot that
`results` does not have gives 0 here and writing one is dropped (`List.getD`,
`List.set`); in C these accesses are outside the array. -/
def ram_putcr {σ : Type} (K : chip_h) (H : thread_hooks σ) (th : thread σ) (value : Nat) :
    Option (put_outcome σ) :=
  match ram_putcr_opcodes K with
  | none => none
  | some opcodes =>
    let r := ram_instructions K H th opcodes [u32 value] opcodes.length
    if r.rc ≠ 0 then some { rc := r.rc, thread := r.thread, log := r.log }
    else some { rc := 0, thread := r.thread, log := r.log }

/-- The function `ram_getmem(thread, addr, value)`. -/
def ram_getmem {σ : Type} (K : chip_h) (H : thread_hooks σ) (th : thread σ) (addr : Nat)
    (value : Nat) : accessor_outcome σ :=
  let r := ram_instructions K H th [mfspr K 0 277, mfspr K 1 277, ld K 0 0 1, mtspr K 277 0]
    [0xdeaddeaddeaddead, addr, 0, 0] 4
  if r.rc ≠ 0 then { rc := r.rc, value := value, thread := r.thread, log := r.log }
  else { rc := 0, value := r.results.getD 3 0, thread := r.thread, log := r.log }

/-- The three arguments an accessor hands to `ram_instructions` besides the
thread: the arrays `opcodes` and `results`, and the count. -/
structure ram_args where
  opcodes : List Nat
  results : List Nat
  len : Int
  deriving DecidableEq, Repr

/-- That a call with the outcome `rc`, `thread`, `log` is the call of
`ram_instructions` on the arguments `a`, seen through `CHECK_ERR`. -/
def hands_over {σ : Type} (K : chip_h) (H : thread_hooks σ) (th : thread σ) (a : ram_args)
    (rc : Int) (after : thread σ) (log : List hook_call) : Prop :=
  rc = (ram_instructions K H th a.opcodes a.results a.len).rc
    ∧ after = (ram_instructions K H th a.opcodes a.results a.len).thread
    ∧ log = (ram_instructions K H th a.opcodes a.results a.len).log

/-- Arrays and count of `ram_getgpr` (lines 181-184). -/
def ram_getgpr_args (K : chip_h) (gpr : Nat) : ram_args := ⟨[mtspr K 277 gpr], [0], 1⟩

/-- Arrays and count of `ram_putgpr` (lines 191-194). -/
def ram_putgpr_args (K : chip_h) (gpr value : Nat) : ram_args := ⟨[mfspr K gpr 277], [value], 1⟩

/-- Arrays and count of `ram_getnia` (lines 200-203). -/
def ram_getnia_args (K : chip_h) : ram_args := ⟨[mfnia K 0, mtspr K 277 0], [0, 0], 2⟩

/-- Arrays and count of `ram_putnia` (lines 218-225). -/
def ram_putnia_args (K : chip_h) (value : Nat) : ram_args :=
  ⟨[mfspr K 1 8, mfspr K 0 277, mtspr K 8 0, mtnia K 0, mtspr K 8 1], [0, value, 0, 0, 0], 5⟩

/-- Arrays and count of `ram_getspr` (lines 231-234). -/
def ram_getspr_args (K : chip_h) (spr : Nat) : ram_args :=
  ⟨[mfspr K 0 spr, mtspr K 277 0], [0, 0], 2⟩

/-- Arrays and count of `ram_putspr` (lines 241-244). -/
def ram_putspr_args (K : chip_h) (spr value : Nat) : ram_args :=
  ⟨[mfspr K 0 277, mtspr K spr 0], [value, 0], 2⟩

/-- Arrays and count of `ram_getmsr` (lines 250-253). -/
def ram_getmsr_args (K : chip_h) : ram_args := ⟨[mfmsr K 0, mtspr K 277 0], [0, 0], 2⟩

/-- Arrays and count of `ram_putmsr` (lines 292-295). -/
def ram_putmsr_args (K : chip_h) (value : Nat) : ram_args :=
  ⟨[mfspr K 0 277, mtmsr K 0], [value, 0], 2⟩

/-- Arrays and count of `ram_getcr` (lines 260-268). -/
def ram_getcr_args (K : chip_h) : ram_args := ⟨ram_getcr_opcodes K, List.replicate 16 0, 16⟩

/-- Arrays and count of `ram_putcr` (lines 281-286): nine opcodes, the one
result slot `{value}`, the count `ARRAY_SIZE(opcodes)`. -/
def ram_putcr_args (K : chip_h) (value : Nat) : Option ram_args :=
  (ram_putcr_opcodes K).map fun opcodes => ⟨opcodes, [u32 value], opcodes.length⟩

/-- Arrays and count of `ram_getmem` (lines 301-304). -/
def ram_getmem_args (K : chip_h) (addr : Nat) : ram_args :=
  ⟨[mfspr K 0 277, mfspr K 1 277, ld K 0 0 1, mtspr K 277 0], [0xdeaddeaddeaddead, addr, 0, 0], 4⟩

/-! ## The SBE FIFO operation (libsbefifo/operation.c) -/

/-- Error numbers of the system header errno.h, taken as parameters. -/
structure errno_h where
  ENOMEM : Int
  EIO : Int
  EPROTO : Int

/-- What a system call gives back: `-1` with `errno` set, or its value. -/
inductive sys_result (α : Type) where
  | error (errno : Int)
  | ok (a : α)

/-- Everything outside `sbefifo_operation` that a run depends on: whether the
two calls of `malloc` give memory, the byte count returned by `write`, and the
bytes `read` has for the caller. -/
structure fifo_env where
  buf_alloc : Bool
  write : sys_result Nat
  read : sys_result (List Nat)
  out_alloc : Bool

/-- The function `sbefifo_write` (lines 41-55): its return value, `none` when
the assertion `buflen > 0` fails. -/
def sbefifo_write (E : errno_h) (w : sys_result Nat) (buflen : Nat) : Option Int :=
  if buflen = 0 then none
  else match w with
    | sys_result.error errno => some errno
    | sys_result.ok n => if n ≠ buflen then some E.EIO else some 0

/-- The function `sbefifo_read` (lines 27-39): its return value, `*buflen`
after the call and the bytes of `buf` that were received (`read` gives at most
`*buflen` bytes); `none` when the assertion `*buflen > 0` fails. -/
def sbefifo_read (r : sys_result (List Nat)) (buflen : Nat) : Option (Int × Nat × List Nat) :=
  if buflen = 0 then none
  else match r with
    | sys_result.error errno => some (errno, buflen, [])
    | sys_result.ok data => some (0, (data.take buflen).length, data.take buflen)

/-- The expression `be32toh(*(uint32_t *) &buf[i])`; `none` when the received
bytes do not include the four bytes at `i`. -/
def be32_at (buf : List Nat) (i : Nat) : Option Nat :=
  if i + 4 ≤ buf.length then
    some ((buf.getD i 0 % 256) * 2 ^ 24 + (buf.getD (i + 1) 0 % 256) * 2 ^ 16
      + (buf.getD (i + 2) 0 % 256) * 2 ^ 8 + buf.getD (i + 3) 0 % 256)
  else none

/-- The content of `*out` after the call. -/
inductive out_ptr where
  | untouched
  | null
  | bytes (b : List Nat)
  deriving DecidableEq, Repr

/-- One call of `sbefifo_ffdc_set(sctx, status, buf + offset, len)`. -/
structure ffdc_call where
  status : Nat
  offset : Nat
  len : Nat
  deriving DecidableEq, Repr

/-- What a returning call of `sbefifo_operation` leaves behind. -/
structure fifo_outcome where
  rc : Int
  out : out_ptr
  out_len : Nat
  ffdc : Option ffdc_call
  deriving DecidableEq, Repr

/-- A run of `sbefifo_operation`: it returns, or an assertion fails, or it
reads a word at a byte offset at which no four received bytes lie. -/
inductive fifo_run where
  | returned (o : fifo_outcome)
  | aborted
  | outside (offset : Nat)
  deriving DecidableEq, Repr

/-- Line 76: `(*out_len + 0x2000 + 3) & ~(uint32_t)3`. -/
def fifo_buflen (out_len : Nat) : Nat :=
  u32 (u32 out_len + 0x2000 + 3) &&& 0xFFFFFFFC

/-- Lines 95-150 of `sbefifo_operation`: the reply in `buf`, of `buflen` bytes,
is taken apart. `offset` is a `uint32_t`, `buflen` a `size_t`. -/
def sbefifo_reply (E : errno_h) (out_alloc : Bool) (cmd out_len buflen : Nat) (buf : List Nat) :
    fifo_run :=
  if buflen < 3 * 4 then
    fifo_run.returned ⟨E.EPROTO, out_ptr.untouched, out_len, none⟩
  else
    match be32_at buf (buflen - 4) with
    | none => fifo_run.outside (buflen - 4)
    | some offset_word =>
      let offset := u32 (u64 (buflen + 2 ^ 64 - u32 (offset_word * 4)))
      match be32_at buf offset with
      | none => fifo_run.outside offset
      | some header_word =>
        match be32_at buf (u32 (offset + 4)) with
        | none => fifo_run.outside (u32 (offset + 4))
        | some status_word =>
          if header_word ≠ (0xc0de0000 ||| cmd) then
            fifo_run.returned ⟨E.EPROTO, out_ptr.untouched, offset, none⟩
          else if status_word ≠ 0 then
            fifo_run.returned ⟨201, out_ptr.untouched, offset,
              some ⟨status_word, u32 (u32 (offset + 4) + 4),
                u64 (buflen + 2 ^ 65 - u32 (u32 (offset + 4) + 4) - 4)⟩⟩
          else if offset > 0 then
            if out_alloc = false then
              fifo_run.returned ⟨E.ENOMEM, out_ptr.null, offset, none⟩
            else
              fifo_run.returned ⟨0, out_ptr.bytes (buf.take offset), offset, none⟩
          else
            fifo_run.returned ⟨0, out_ptr.null, offset, none⟩

/-- The function `sbefifo_operation(sctx, msg, msg_len, cmd, out, out_len)`
(lines 57-150); `cmd` is a `uint16_t`, `out_len` the content of `*out_len`
before the call, a `uint32_t`. -/
def sbefifo_operation (E : errno_h) (env : fifo_env) (msg_len cmd out_len : Nat) : fifo_run :=
  if msg_len = 0 then fifo_run.aborted
  else if env.buf_alloc = false then
    fifo_run.returned ⟨E.ENOMEM, out_ptr.untouched, u32 out_len, none⟩
  else
    match sbefifo_write E env.write msg_len with
    | none => fifo_run.aborted
    | some wrc =>
      if wrc ≠ 0 then fifo_run.returned ⟨wrc, out_ptr.untouched, u32 out_len, none⟩
      else
        match sbefifo_read env.read (fifo_buflen out_len) with
        | none => fifo_run.aborted
        | some (rrc, buflen, buf) =>
          if rrc ≠ 0 then fifo_run.returned ⟨rrc, out_ptr.untouched, u32 out_len, none⟩
          else sbefifo_reply E env.out_alloc (cmd % 2 ^ 16) (u32 out_len) buflen buf

/-! ## Release of a POWER10 core (p10chip.c, lines 110-118 and 208-236) -/

/-- Bus address `QME_SPWU_FSP` (line 40). -/
def QME_SPWU_FSP : Nat := 0xE8834

/-- Modelled from the spec: "Status is one of {unprobed, enabled, disabled,
released}". The type `enum pdbg_target_status` is declared in a header that is
not among the sources; `p10_core_release` compares with `PDBG_TARGET_RELEASED`
and `PDBG_TARGET_ENABLED` only. -/
inductive pdbg_target_status where
  | PDBG_TARGET_UNKNOWN
  | PDBG_TARGET_ENABLED
  | PDBG_TARGET_DISABLED
  | PDBG_TARGET_RELEASED
  deriving DecidableEq, Repr

/-- A thread target below a core: the lifecycle status of the target and the
fields `id` and `status` of its `struct thread`. -/
structure thread_target where
  target_status : pdbg_target_status
  id : Nat
  status : thread_state
  deriving DecidableEq, Repr

/-- The fields of `struct core` that the release uses: the flag
`release_spwkup`, the state of the bus, and the thread targets below the core
in the order of `pdbg_for_each_target`. -/
structure core (σ : Type) where
  release_spwkup : Bool
  hw : σ
  threads : List thread_target

/-- The function `p10_thread_release(target)` (lines 110-118): the value of
`core->release_spwkup` of the parent core after the call. -/
def p10_thread_release (release_spwkup : Bool) (t : thread_target) : Bool :=
  if t.status.quiesced = true then false else release_spwkup

/-- Modelled from the spec: "release transitions enabled → released and may run
class-specific teardown"; the teardown of a thread target is
`p10_thread_release`. The result is the flag of the parent core and the
target. -/
def pdbg_target_release (release_spwkup : Bool) (t : thread_target) : Bool × thread_target :=
  if t.target_status = pdbg_target_status.PDBG_TARGET_ENABLED then
    (p10_thread_release release_spwkup t,
      { t with target_status := pdbg_target_status.PDBG_TARGET_RELEASED })
  else (release_spwkup, t)

/-- What the loop of `p10_core_release` did with one child. -/
inductive sweep_event where
  | was_released (t : thread_target)
  | skipped (t : thread_target)
  | released (t : thread_target)
  deriving DecidableEq, Repr

/-- The cached `quiesced` of the child of an event, for the children that are
or were released; a skipped child never counts. -/
def sweep_event.quiesced : sweep_event → Bool
  | sweep_event.was_released t => t.status.quiesced
  | sweep_event.skipped _ => false
  | sweep_event.released t => t.status.quiesced

/-- What the loop of `p10_core_release` leaves behind. -/
structure sweep_result (σ : Type) where
  release_spwkup : Bool
  hw : σ
  threads : List thread_target
  events : List sweep_event

/-- Lines 216-230: the loop `pdbg_for_each_target("thread", target, child)`
over the children still to visit. The function `pdbg_target_probe` is not
among the sources: `probe` stands for it, it gives the child as the probe
leaves it (whose status is the value returned) and the state of the bus. -/
def p10_core_sweep {σ : Type} (probe : σ → thread_target → thread_target × σ) :
    List thread_target → Bool → σ → sweep_result σ
  | [], release_spwkup, hw => ⟨release_spwkup, hw, [], []⟩
  | child :: rest, release_spwkup, hw =>
    if child.target_status = pdbg_target_status.PDBG_TARGET_RELEASED then
      let r := p10_core_sweep probe rest release_spwkup hw
      ⟨r.release_spwkup, r.hw, child :: r.threads, sweep_event.was_released child :: r.events⟩
    else
      let p := probe hw child
      if p.1.target_status ≠ pdbg_target_status.PDBG_TARGET_ENABLED then
        let r := p10_core_sweep probe rest release_spwkup p.2
        ⟨r.release_spwkup, r.hw, p.1 :: r.threads, sweep_event.skipped p.1 :: r.events⟩
      else
        let d := pdbg_target_release release_spwkup p.1
        let r := p10_core_sweep probe rest d.1 p.2
        ⟨r.release_spwkup, r.hw, d.2 :: r.threads, sweep_event.released p.1 :: r.events⟩

/-- What `p10_core_release` leaves behind: the core, the bus accesses of its
own body and what the loop did with each child. -/
structure core_outcome (σ : Type) where
  core : core σ
  ops : List bus_op
  events : List sweep_event

/-- The function `p10_core_release(target)` (lines 208-236). -/
def p10_core_release {σ : Type} (B : pib σ) (probe : σ → thread_target → thread_target × σ)
    (c : core σ) : core_outcome σ :=
  let r := p10_core_sweep probe c.threads c.release_spwkup c.hw
  if r.release_spwkup = false then
    { core := ⟨r.release_spwkup, r.hw, r.threads⟩, ops := [], events := r.events }
  else
    let w := B.pib_write r.hw QME_SPWU_FSP 0
    { core := ⟨r.release_spwkup, w.hw, r.threads⟩,
      ops := [bus_op.write QME_SPWU_FSP 0 w.rc], events := r.events }

/-! ## Test doubles used by the witnesses -/

/-- A scripted thread: the state counts the transport calls made so far, and
call number `n` answers with entry `n` of the script (return code, scratch
output); past the script a call succeeds and leaves the scratch as it is.
The session hooks return fixed codes and keep `ram_is_setup` up to date. -/
def scripted_hooks (setup_rc destroy_rc : Int) (script : List (Int × Nat)) : thread_hooks Nat where
  ram_setup th := ⟨setup_rc, { th with ram_is_setup := (setup_rc == 0) || th.ram_is_setup }⟩
  ram_instruction th _ sc :=
    match script[th.hw]? with
    | some (rc, out) => ⟨rc, out, { th with hw := th.hw + 1 }⟩
    | none => ⟨0, sc, { th with hw := th.hw + 1 }⟩
  ram_destroy th := ⟨destroy_rc, { th with ram_is_setup := false }⟩
  getxer th v := ⟨0, v, th⟩

/-- A cached status used for the threads of the witnesses. -/
def idle_status : thread_state := ⟨true, true, sleep_state_t.RUN, smt_state_t.SMT_1⟩

/-- A thread with no session open and no transport call made yet. -/
def fresh_thread : thread Nat := ⟨0, idle_status, false, 0⟩

/-- The Power ISA base words, used where a witness needs concrete encodings. -/
def power_isa : chip_h :=
  { MFSPR_OPCODE := 0x7c0002a6, MTSPR_OPCODE := 0x7c0003a6, MFOCRF_OPCODE := 0x7c100026,
    MFNIA_OPCODE := 0x00000004, MFMSR_OPCODE := 0x7c0000a6, MTOCRF_OPCODE := 0x7c100120,
    MTNIA_OPCODE := 0x00000002, MTMSR_OPCODE := 0x7c000124, LD_OPCODE := 0xe8000000 }

/-- A thread whose transport fails on every call with the code `e`, while the
session hooks succeed and keep `ram_is_setup` up to date. -/
def stuck_hooks (e : Int) : thread_hooks Nat where
  ram_setup th := ⟨0, { th with ram_is_setup := true }⟩
  ram_instruction th _ sc := ⟨e, sc, { th with hw := th.hw + 1 }⟩
  ram_destroy th := ⟨0, { th with ram_is_setup := false }⟩
  getxer th v := ⟨0, v, th⟩

/-- The Power ISA numbers of the special registers read by the snapshot. -/
def power_sprs : sprs_h :=
  { SPR_CFAR := 0x01c, SPR_LR := 0x008, SPR_CTR := 0x009, SPR_LPCR := 0x13e, SPR_PTCR := 0x1d0,
    SPR_LPIDR := 0x13f, SPR_PIDR := 0x030, SPR_HFSCR := 0x0be, SPR_HDSISR := 0x132,
    SPR_HDAR := 0x133, SPR_HEIR := 0x153, SPR_HID := 0x3f0, SPR_HSRR0 := 0x13a,
    SPR_HSRR1 := 0x13b, SPR_HDEC := 0x136, SPR_HSPRG0 := 0x130, SPR_HSPRG1 := 0x131,
    SPR_FSCR := 0x099, SPR_DSISR := 0x012, SPR_DAR := 0x013, SPR_SRR0 := 0x01a,
    SPR_SRR1 := 0x01b, SPR_DEC := 0x016, SPR_TB := 0x10c, SPR_SPRG0 := 0x110,
    SPR_SPRG1 := 0x111, SPR_SPRG2 := 0x112, SPR_SPRG3 := 0x113, SPR_PPR := 0x380 }

/-- A register record with every field 0. -/
def zero_regs : thread_regs :=
  { nia := 0, cfar := 0, msr := 0, lr := 0, ctr := 0, tar := 0, cr := 0, xer := 0,
    gprs := List.replicate 32 0, lpcr := 0, ptcr := 0, lpidr := 0, pidr := 0, hfscr := 0,
    hdsisr := 0, hdar := 0, heir := 0, hid := 0, hsrr0 := 0, hsrr1 := 0, hdec := 0, hsprg0 := 0,
    hsprg1 := 0, fscr := 0, dsisr := 0, dar := 0, srr0 := 0, srr1 := 0, dec := 0, tb := 0,
    sprg0 := 0, sprg1 := 0, sprg2 := 0, sprg3 := 0, ppr := 0 }

/-- The script of a thread that reads the condition register `0x12345678`:
two saves, then for each field a field read and a capture whose 60 other
bits are all ones. -/
def garbage_cr_script : List (Int × Nat) :=
  [(0, 0xb), (0, 0xa), (0, 0xdead0000), (0, 0xfffffffffffffff8), (0, 0xdead0001),
   (0, 0xffffffffffffff7f), (0, 0xdead0002), (0, 0xfffffffffffff6ff), (0, 0xdead0003),
   (0, 0xffffffffffff5fff), (0, 0xdead0004), (0, 0xfffffffffff4ffff), (0, 0xdead0005),
   (0, 0xffffffffff3fffff), (0, 0xdead0006), (0, 0xfffffffff2ffffff), (0, 0xdead0007),
   (0, 0xffffffff1fffffff)]

/-- The simulated thread of the register round trip; its state is the file of
general registers. The transport never fails; it executes `mtspr(277, r)` as
`scratch := GPR r` and `mfspr(r, 277)` as `GPR r := scratch`, the register
number being read from bits 21..25 of the opcode; any other opcode leaves
everything as it is. The session hooks succeed. -/
def gpr_sim (K : chip_h) : thread_hooks (Nat → Nat) where
  ram_setup th := ⟨0, { th with ram_is_setup := true }⟩
  ram_instruction th opcode sc :=
    if opcode = mtspr K 277 ((opcode >>> 21) % 32) then
      ⟨0, th.hw ((opcode >>> 21) % 32), th⟩
    else if opcode = mfspr K ((opcode >>> 21) % 32) 277 then
      ⟨0, sc, { th with hw := Function.update th.hw ((opcode >>> 21) % 32) sc }⟩
    else ⟨0, sc, th⟩
  ram_destroy th := ⟨0, { th with ram_is_setup := false }⟩
  getxer th v := ⟨0, v, th⟩

/-- A simulated thread with no session open and the given register file. -/
def gpr_thread (g : Nat → Nat) : thread (Nat → Nat) := ⟨0, idle_status, false, g⟩

/-- The bit macros as IBM bit numbering defines them (bit 0 is the most
significant of 64), used where a witness needs concrete values. -/
def ibm_bits : bitutils_h :=
  { PPC_BIT := fun b => 0x8000000000000000 >>> b,
    PPC_BITMASK := fun bs be =>
      ((0x8000000000000000 >>> bs) - (0x8000000000000000 >>> be)) ||| (0x8000000000000000 >>> bs),
    GETFIELD := fun m v => (v &&& m) / (m &&& (2 ^ 64 - m)) }

/-- A bus whose state is the list of the values written so far; every read
gives all ones. -/
def echo_bus : pib (List Nat) :=
  { pib_read := fun hw _ => ⟨0, 0xFFFFFFFFFFFFFFFF, hw⟩,
    pib_write := fun hw _ v => ⟨0, hw ++ [v]⟩ }

/-- A thread of `echo_bus` that is running: its cached status is not quiesced. -/
def running_thread : thread (List Nat) :=
  ⟨2, ⟨false, true, sleep_state_t.RUN, smt_state_t.SMT_4⟩, false, []⟩

/-- A bus on which every read gives 0, so that no thread is ever seen
quiesced; the state counts the writes. -/
def busy_bus : pib Nat :=
  { pib_read := fun hw _ => ⟨0, 0, hw⟩,
    pib_write := fun hw _ _ => ⟨0, hw + 1⟩ }

/-- The registers of the simulated thread of the program-counter write: the
general registers, the special registers other than the scratch (SPR 8 is the
link register), and the next-instruction address. -/
structure cpu where
  gpr : Nat → Nat
  spr : Nat → Nat
  nia : Nat

/-- Bits 21..25 of an instruction word: the general register operand. -/
def opcode_reg (op : Nat) : Nat := (op >>> 21) % 32

/-- The SPR number of an instruction word, from its two swapped halves. -/
def opcode_spr (op : Nat) : Nat := ((op >>> 16) &&& 0x1f) ||| ((op >>> 6) &&& 0x3e0)

/-- The simulated thread of the program-counter write. The transport never
fails. `mtspr(s, r)` moves GPR `r` to the scratch if `s` is 277 and to SPR `s`
otherwise; `mfspr(r, s)` moves the scratch (if `s` is 277) or SPR `s` to GPR
`r`; `mtnia(r)` loads the next-instruction address from the link register if
`from_lr` is set and from GPR `r` otherwise; any other opcode leaves everything
as it is. The session hooks succeed and keep `ram_is_setup` up to date. -/
def cpu_sim (K : chip_h) (from_lr : Bool) : thread_hooks cpu where
  ram_setup th := ⟨0, { th with ram_is_setup := true }⟩
  ram_instruction th opcode sc :=
    if opcode = mtspr K (opcode_spr opcode) (opcode_reg opcode) then
      if opcode_spr opcode = 277 then ⟨0, th.hw.gpr (opcode_reg opcode), th⟩
      else ⟨0, sc, { th with hw := { th.hw with
        spr := Function.update th.hw.spr (opcode_spr opcode) (th.hw.gpr (opcode_reg opcode)) } }⟩
    else if opcode = mfspr K (opcode_reg opcode) (opcode_spr opcode) then
      ⟨0, sc, { th with hw := { th.hw with
        gpr := Function.update th.hw.gpr (opcode_reg opcode)
          (if opcode_spr opcode = 277 then sc else th.hw.spr (opcode_spr opcode)) } }⟩
    else if opcode = mtnia K (opcode_reg opcode) then
      ⟨0, sc, { th with hw := { th.hw with
        nia := if from_lr = true then th.hw.spr 8 else th.hw.gpr (opcode_reg opcode) } }⟩
    else ⟨0, sc, th⟩
  ram_destroy th := ⟨0, { th with ram_is_setup := false }⟩
  getxer th v := ⟨0, v, th⟩

/-- The Linux values of the three error numbers. -/
def linux_errno : errno_h := { ENOMEM := 12, EIO := 5, EPROTO := 71 }

/-- An environment in which both allocations succeed, `write` takes the whole
request of 8 bytes and `read` gives a reply of 16 bytes: four bytes of data,
the header of command 0xA101, status 0, the trailer 3. -/
def good_env : fifo_env :=
  { buf_alloc := true, write := sys_result.ok 8,
    read := sys_result.ok [0xAA, 0xBB, 0xCC, 0xDD, 0xC0, 0xDE, 0xA1, 0x01, 0, 0, 0, 0, 0, 0, 0, 3],
    out_alloc := true }

/-- A probe that enables a child not probed before and leaves any other child
as it is; the bus is not touched. -/
def enabling_probe {σ : Type} (hw : σ) (t : thread_target) : thread_target × σ :=
  (if t.target_status = pdbg_target_status.PDBG_TARGET_UNKNOWN then
    { t with target_status := pdbg_target_status.PDBG_TARGET_ENABLED } else t, hw)

/-- A cached thread status that is not quiesced. -/
def running_status : thread_state := ⟨false, true, sleep_state_t.RUN, smt_state_t.SMT_4⟩

/-- A probed core of `echo_bus` with one thread that could not be enabled. -/
def core_with_disabled_thread : core (List Nat) :=
  ⟨true, [], [⟨pdbg_target_status.PDBG_TARGET_DISABLED, 0, idle_status⟩]⟩

/-- A probed core of `echo_bus` with four threads: one released before while
running, one enabled and running, one never probed and running, one disabled
and quiesced. -/
def core_with_four_threads : core (List Nat) :=
  ⟨true, [],
    [⟨pdbg_target_status.PDBG_TARGET_RELEASED, 0, running_status⟩,
     ⟨pdbg_target_status.PDBG_TARGET_ENABLED, 1, running_status⟩,
     ⟨pdbg_target_status.PDBG_TARGET_UNKNOWN, 2, running_status⟩,
     ⟨pdbg_target_status.PDBG_TARGET_DISABLED, 3, idle_status⟩]⟩

/-- An environment in which both allocations succeed, `write` takes the whole
request of 8 bytes and `read` gives the bytes `reply`. -/
def reply_env (reply : List Nat) : fifo_env :=
  { buf_alloc := true, write := sys_result.ok 8, read := sys_result.ok reply, out_alloc := true }

/-! # Theorems -/

/-! ## One-step equations of the loop -/

theorem ram_loop_done {σ : Type} (K : chip_h) (H : thread_hooks σ) (opcodes : List Nat)
    (len i : Int) (st : ram_locals σ) (h : ¬ i < len + 2) :
    ram_loop K H opcodes len i st = st := by
  rw [ram_loop]; simp [h]

theorem ram_loop_ok {σ : Type} (K : chip_h) (H : thread_hooks σ) (opcodes : List Nat)
    (len i : Int) (st : ram_locals σ) (h : i < len + 2)
    (hrc : (ram_issue H i (ram_select K opcodes len i st)).1 = 0) :
    ram_loop K H opcodes len i st
      = ram_loop K H opcodes len (i + 1)
          (ram_store len i (ram_issue H i (ram_select K opcodes len i st)).2) := by
  rw [ram_loop]; simp [h, hrc]

theorem ram_loop_user_fail {σ : Type} (K : chip_h) (H : thread_hooks σ) (opcodes : List Nat)
    (len i : Int) (st : ram_locals σ) (h0 : 0 ≤ i) (h1 : i < len)
    (hrc : (ram_issue H i (ram_select K opcodes len i st)).1 ≠ 0) :
    ram_loop K H opcodes len i st
      = ram_loop K H opcodes len len
          (ram_store len (len - 1)
            { (ram_issue H i (ram_select K opcodes len i st)).2 with exception := 1 }) := by
  rw [ram_loop]
  have h : i < len + 2 := by omega
  simp [h, hrc, h0, h1]

theorem ram_loop_break {σ : Type} (K : chip_h) (H : thread_hooks σ) (opcodes : List Nat)
    (len i : Int) (st : ram_locals σ) (h : i < len + 2) (h2 : i < 0 ∨ len ≤ i)
    (hrc : (ram_issue H i (ram_select K opcodes len i st)).1 ≠ 0) :
    ram_loop K H opcodes len i st
      = { (ram_issue H i (ram_select K opcodes len i st)).2 with exception := 1 } := by
  rw [ram_loop]
  have h3 : ¬ (0 ≤ i ∧ i < len) := by omega
  simp [h, hrc, h3]

/-! ## The log of the loop -/

theorem ram_calls_append (a b : List hook_call) :
    ram_calls (a ++ b) = ram_calls a ++ ram_calls b := by
  induction a with
  | nil => rfl
  | cons e a ih => cases e <;> simp [ram_calls, ih]

section
variable {σ : Type} (K : chip_h) (H : thread_hooks σ) (opcodes : List Nat) (len i : Int)
  (st : ram_locals σ)

@[simp] theorem ram_select_log : (ram_select K opcodes len i st).log = st.log := by
  unfold ram_select; split_ifs <;> rfl

@[simp] theorem ram_select_thread : (ram_select K opcodes len i st).thread = st.thread := by
  unfold ram_select; split_ifs <;> rfl

@[simp] theorem ram_select_results : (ram_select K opcodes len i st).results = st.results := by
  unfold ram_select; split_ifs <;> rfl

@[simp] theorem ram_select_exception :
    (ram_select K opcodes len i st).exception = st.exception := by
  unfold ram_select; split_ifs <;> rfl

@[simp] theorem ram_select_r0 : (ram_select K opcodes len i st).r0 = st.r0 := by
  unfold ram_select; split_ifs <;> rfl

@[simp] theorem ram_select_r1 : (ram_select K opcodes len i st).r1 = st.r1 := by
  unfold ram_select; split_ifs <;> rfl

@[simp] theorem ram_store_log : (ram_store len i st).log = st.log := by
  unfold ram_store; split_ifs <;> rfl

@[simp] theorem ram_store_thread : (ram_store len i st).thread = st.thread := by
  unfold ram_store; split_ifs <;> rfl

@[simp] theorem ram_store_exception : (ram_store len i st).exception = st.exception := by
  unfold ram_store; split_ifs <;> rfl

@[simp] theorem ram_store_scratch : (ram_store len i st).scratch = st.scratch := by
  unfold ram_store; split_ifs <;> rfl

@[simp] theorem ram_issue_rc :
    (ram_issue H i (ram_select K opcodes len i st)).1 = (ram_made K H opcodes len i st).rc := rfl

@[simp] theorem ram_issue_log :
    (ram_issue H i (ram_select K opcodes len i st)).2.log
      = st.log ++ [hook_call.instruction (ram_made K H opcodes len i st)] := by
  simp [ram_issue, ram_made]

@[simp] theorem ram_issue_scratch :
    (ram_issue H i (ram_select K opcodes len i st)).2.scratch
      = (ram_made K H opcodes len i st).scratch_out := rfl

@[simp] theorem ram_issue_results :
    (ram_issue H i (ram_select K opcodes len i st)).2.results = st.results := by
  simp [ram_issue]

@[simp] theorem ram_issue_exception :
    (ram_issue H i (ram_select K opcodes len i st)).2.exception = st.exception := by
  simp [ram_issue]

@[simp] theorem ram_issue_r0 :
    (ram_issue H i (ram_select K opcodes len i st)).2.r0 = st.r0 := by
  simp [ram_issue]

@[simp] theorem ram_issue_r1 :
    (ram_issue H i (ram_select K opcodes len i st)).2.r1 = st.r1 := by
  simp [ram_issue]

/-- The loop only appends transport calls to the log. -/
theorem ram_loop_log_ext :
    ∃ l : List ram_call,
      (ram_loop K H opcodes len i st).log = st.log ++ l.map hook_call.instruction := by
  induction i, st using ram_loop.induct K H opcodes len with
  | case1 i st h r hrc h2 ih =>
    obtain ⟨l, hl⟩ := ih
    refine ⟨ram_made K H opcodes len i st :: l, ?_⟩
    rw [ram_loop_user_fail K H opcodes len i st h2.1 h2.2 hrc]
    have : len - 1 + 1 = len := by omega
    rw [this] at hl
    rw [hl]; simp [r]
  | case2 i st h r hrc h2 =>
    refine ⟨[ram_made K H opcodes len i st], ?_⟩
    rw [ram_loop_break K H opcodes len i st h (by omega) hrc]
    simp
  | case3 i st h r hrc ih =>
    obtain ⟨l, hl⟩ := ih
    refine ⟨ram_made K H opcodes len i st :: l, ?_⟩
    have hrc0 : (ram_issue H i (ram_select K opcodes len i st)).1 = 0 := by
      simpa [r] using hrc
    rw [ram_loop_ok K H opcodes len i st h hrc0, hl]; simp [r]
  | case4 i st h =>
    exact ⟨[], by rw [ram_loop_done K H opcodes len i st h]; simp⟩

/-- The call made by an iteration is in the final log, right after the calls
logged before. -/
theorem ram_loop_issued (h : i < len + 2) :
    ∃ l : List ram_call,
      (ram_loop K H opcodes len i st).log
        = st.log ++ (ram_made K H opcodes len i st :: l).map hook_call.instruction := by
  by_cases hrc : (ram_issue H i (ram_select K opcodes len i st)).1 = 0
  · obtain ⟨l, hl⟩ := ram_loop_log_ext K H opcodes len (i + 1)
      (ram_store len i (ram_issue H i (ram_select K opcodes len i st)).2)
    exact ⟨l, by rw [ram_loop_ok K H opcodes len i st h hrc, hl]; simp⟩
  · by_cases h2 : 0 ≤ i ∧ i < len
    · obtain ⟨l, hl⟩ := ram_loop_log_ext K H opcodes len len
        (ram_store len (len - 1)
          { (ram_issue H i (ram_select K opcodes len i st)).2 with exception := 1 })
      exact ⟨l, by rw [ram_loop_user_fail K H opcodes len i st h2.1 h2.2 hrc, hl]; simp⟩
    · exact ⟨[], by rw [ram_loop_break K H opcodes len i st h (by omega) hrc]; simp⟩

end

section
variable {σ : Type} (K : chip_h) (H : thread_hooks σ) (opcodes : List Nat) (len i : Int)
  (st : ram_locals σ)

theorem ram_calls_map_instruction (l : List ram_call) :
    ram_calls (l.map hook_call.instruction) = l := by
  induction l with
  | nil => rfl
  | cons c l ih => simp [ram_calls, ih]

/-- The transport calls of the final log: those logged before, the call of
this iteration, and what follows. -/
theorem ram_calls_issued (h : i < len + 2) :
    ∃ l : List ram_call,
      ram_calls (ram_loop K H opcodes len i st).log
        = ram_calls st.log ++ ram_made K H opcodes len i st :: l := by
  obtain ⟨l, hl⟩ := ram_loop_issued K H opcodes len i st h
  exact ⟨l, by rw [hl, ram_calls_append, ram_calls_map_instruction]⟩

theorem ram_calls_issued_mem (h : i < len + 2) :
    ram_made K H opcodes len i st ∈ ram_calls (ram_loop K H opcodes len i st).log := by
  obtain ⟨l, hl⟩ := ram_calls_issued K H opcodes len i st h
  rw [hl]; simp

theorem ram_calls_issued_get (h : i < len + 2) :
    (ram_calls (ram_loop K H opcodes len i st).log)[(ram_calls st.log).length]?
      = some (ram_made K H opcodes len i st) := by
  obtain ⟨l, hl⟩ := ram_calls_issued K H opcodes len i st h
  rw [hl, List.getElem?_append_right (le_refl _)]; simp

/-- After a successful call the loop goes on with the next iteration. -/
theorem ram_loop_next (h : i < len + 2) (hrc : (ram_made K H opcodes len i st).rc = 0) :
    ram_loop K H opcodes len i st
      = ram_loop K H opcodes len (i + 1)
          (ram_store len i (ram_issue H i (ram_select K opcodes len i st)).2) :=
  ram_loop_ok K H opcodes len i st h (by simpa using hrc)

@[simp] theorem ram_calls_store_issue :
    ram_calls (ram_store len i (ram_issue H i (ram_select K opcodes len i st)).2).log
      = ram_calls st.log ++ [ram_made K H opcodes len i st] := by
  simp [ram_calls_append, ram_calls]

/-! ### The call and the store of each kind of iteration -/

theorem ram_made_save_r1 :
    (ram_made K H opcodes len (-2) st).opcode = mtspr K 277 1
      ∧ (ram_made K H opcodes len (-2) st).scratch_in = st.scratch := by
  simp [ram_made, ram_select]

theorem ram_made_save_r0 :
    (ram_made K H opcodes len (-1) st).opcode = mtspr K 277 0
      ∧ (ram_made K H opcodes len (-1) st).scratch_in = st.scratch := by
  simp [ram_made, ram_select]

theorem ram_made_user (h0 : 0 ≤ i) (h1 : i < len) :
    (ram_made K H opcodes len i st).opcode = opcodes.getD i.toNat 0
      ∧ (ram_made K H opcodes len i st).scratch_in = st.results.getD i.toNat 0 := by
  have a : ¬ i = -2 := by omega
  have b : ¬ i = -1 := by omega
  simp [ram_made, ram_select, a, b, h1]

theorem ram_made_restore_r0 (h0 : 0 ≤ len) :
    (ram_made K H opcodes len len st).opcode = mfspr K 0 277
      ∧ (ram_made K H opcodes len len st).scratch_in = st.r0 := by
  have a : ¬ len = -2 := by omega
  have b : ¬ len = -1 := by omega
  simp [ram_made, ram_select, a, b]

theorem ram_made_restore_r1 (h0 : 0 ≤ len) :
    (ram_made K H opcodes len (len + 1) st).opcode = mfspr K 1 277
      ∧ (ram_made K H opcodes len (len + 1) st).scratch_in = st.r1 := by
  have a : ¬ len + 1 = -2 := by omega
  have b : ¬ len + 1 = -1 := by omega
  simp [ram_made, ram_select, a, b]

theorem ram_store_user (h0 : 0 ≤ i) (h1 : i < len) :
    ram_store len i st = { st with results := st.results.set i.toNat st.scratch } := by
  have a : ¬ i = -2 := by omega
  have b : ¬ i = -1 := by omega
  simp [ram_store, a, b, h1]

theorem ram_store_restore (h0 : 0 ≤ len) (h1 : len ≤ i) : ram_store len i st = st := by
  have a : ¬ i = -2 := by omega
  have b : ¬ i = -1 := by omega
  have c : ¬ i < len := by omega
  simp [ram_store, a, b, c]

/-- The two restore iterations, when both calls succeed: the log gets the two
calls, nothing else changes. -/
theorem ram_loop_restore (h0 : 0 ≤ len)
    (hr : ∀ m c, (ram_calls (ram_loop K H opcodes len len st).log)[(ram_calls st.log).length + m]?
        = some c → c.rc = 0) :
    ∃ c0 c1 : ram_call,
      (ram_loop K H opcodes len len st).log
          = st.log ++ [hook_call.instruction c0, hook_call.instruction c1]
        ∧ c0.opcode = mfspr K 0 277 ∧ c0.scratch_in = st.r0 ∧ c0.rc = 0
        ∧ c1.opcode = mfspr K 1 277 ∧ c1.scratch_in = st.r1 ∧ c1.rc = 0
        ∧ (ram_loop K H opcodes len len st).results = st.results
        ∧ (ram_loop K H opcodes len len st).exception = st.exception := by
  have hl : len < len + 2 := by omega
  have e0 := hr 0 _ (ram_calls_issued_get K H opcodes len len st hl)
  have s0 := ram_loop_next K H opcodes len len st hl e0
  rw [s0] at hr ⊢
  rw [ram_store_restore len len _ h0 (le_refl _)] at hr ⊢
  generalize hst1 : (ram_issue H len (ram_select K opcodes len len st)).2 = st1 at hr ⊢
  have hl1 : len + 1 < len + 2 := by omega
  have hlog1 : st1.log = st.log ++ [hook_call.instruction (ram_made K H opcodes len len st)] := by
    rw [← hst1]; simp
  have hP : (ram_calls st1.log).length = (ram_calls st.log).length + 1 := by
    rw [hlog1]; simp [ram_calls_append, ram_calls]
  have g1 := ram_calls_issued_get K H opcodes len (len + 1) st1 hl1
  rw [hP] at g1
  have e1 := hr 1 _ g1
  have s1 := ram_loop_next K H opcodes len (len + 1) st1 hl1 e1
  rw [s1, ram_store_restore len (len + 1) _ h0 (by omega),
    ram_loop_done K H opcodes len (len + 1 + 1) _ (by omega)]
  refine ⟨ram_made K H opcodes len len st, ram_made K H opcodes len (len + 1) st1, ?_, ?_⟩
  · simp [hlog1]
  · have r1eq : st1.r1 = st.r1 := by rw [← hst1]; simp
    have reseq : st1.results = st.results := by rw [← hst1]; simp
    have exeq : st1.exception = st.exception := by rw [← hst1]; simp
    refine ⟨(ram_made_restore_r0 K H opcodes len st h0).1,
      (ram_made_restore_r0 K H opcodes len st h0).2, e0,
      (ram_made_restore_r1 K H opcodes len st1 h0).1, ?_, e1, ?_, ?_⟩
    · rw [(ram_made_restore_r1 K H opcodes len st1 h0).2, r1eq]
    · simp [reseq]
    · simp [exeq]

end

theorem list_take_succ_set : ∀ (l : List Nat) (j x : Nat), j < l.length →
    (l.set j x).take (j + 1) = l.take j ++ [x]
  | [], _, _, h => by simp at h
  | _ :: _, 0, _, _ => by simp
  | _ :: l, j + 1, x, h => by
    simp [list_take_succ_set l j x (by simpa using h)]

section
variable {σ : Type} (K : chip_h) (H : thread_hooks σ) (opcodes : List Nat)

/-- The user iterations from index `j` on, followed by the two restore
iterations, when every call made from here on succeeds. -/
theorem ram_loop_user_ok (n : Nat) : ∀ (j : Nat) (st : ram_locals σ),
    j + n = opcodes.length → st.results.length = opcodes.length →
    (∀ m c, (ram_calls (ram_loop K H opcodes opcodes.length j st).log)[
        (ram_calls st.log).length + m]? = some c → c.rc = 0) →
    ∃ (U : List ram_call) (c0 c1 : ram_call),
      (ram_loop K H opcodes opcodes.length j st).log
          = st.log ++ (U ++ [c0, c1]).map hook_call.instruction
        ∧ U.map ram_call.opcode = opcodes.drop j
        ∧ U.map ram_call.scratch_in = st.results.drop j
        ∧ (ram_loop K H opcodes opcodes.length j st).results
            = st.results.take j ++ U.map ram_call.scratch_out
        ∧ (∀ c ∈ U, c.rc = 0)
        ∧ c0.opcode = mfspr K 0 277 ∧ c0.scratch_in = st.r0 ∧ c0.rc = 0
        ∧ c1.opcode = mfspr K 1 277 ∧ c1.scratch_in = st.r1 ∧ c1.rc = 0
        ∧ (ram_loop K H opcodes opcodes.length j st).exception = st.exception := by
  induction n with
  | zero =>
    intro j st hj hres hr
    have hjN : j = opcodes.length := by omega
    subst hjN
    obtain ⟨c0, c1, hlog, h1, h2, h3, h4, h5, h6, h7, h8⟩ :=
      ram_loop_restore K H opcodes opcodes.length st (by omega) hr
    refine ⟨[], c0, c1, by simpa using hlog, by simp, ?_, ?_, by simp, h1, h2, h3, h4, h5, h6, h8⟩
    · rw [← hres]; simp
    · rw [h7, ← hres]; simp
  | succ n ih =>
    intro j st hj hres hr
    have hjN : j < opcodes.length := by omega
    have hi : (j : Int) < (opcodes.length : Int) + 2 := by omega
    have hi0 : (0 : Int) ≤ (j : Int) := by omega
    have hi1 : (j : Int) < (opcodes.length : Int) := by omega
    have e0 := hr 0 _ (ram_calls_issued_get K H opcodes opcodes.length j st hi)
    have s0 := ram_loop_next K H opcodes opcodes.length j st hi e0
    rw [s0] at hr ⊢
    have hmade := ram_made_user K H opcodes opcodes.length j st hi0 hi1
    generalize hc : ram_made K H opcodes opcodes.length j st = c at e0 hmade
    have hst1 : ram_store opcodes.length j (ram_issue H j (ram_select K opcodes opcodes.length j st)).2
        = { (ram_issue H j (ram_select K opcodes opcodes.length j st)).2 with
            results := st.results.set j c.scratch_out } := by
      rw [ram_store_user _ _ _ hi0 hi1]; simp [hc]
    generalize hst1g : ram_store opcodes.length j
      (ram_issue H j (ram_select K opcodes opcodes.length j st)).2 = st1 at hr hst1 ⊢
    have hlog1 : st1.log = st.log ++ [hook_call.instruction c] := by
      rw [hst1]; simp [hc]
    have hres1 : st1.results = st.results.set j c.scratch_out := by rw [hst1]
    have hr0 : st1.r0 = st.r0 := by rw [hst1]; simp
    have hr1 : st1.r1 = st.r1 := by rw [hst1]; simp
    have hex : st1.exception = st.exception := by rw [hst1]; simp
    have hP : (ram_calls st1.log).length = (ram_calls st.log).length + 1 := by
      rw [hlog1]; simp [ram_calls_append, ram_calls]
    have hcast : ((j : Int) + 1) = ((j + 1 : Nat) : Int) := by push_cast; ring
    rw [hcast] at hr ⊢
    obtain ⟨U, c0, c1, hlog, hU1, hU2, hU3, hU4, h1, h2, h3, h4, h5, h6, h8⟩ :=
      ih (j + 1) st1 (by omega) (by rw [hres1]; simpa using hres) (by
        intro m c' hm
        apply hr (m + 1) c'
        rw [hP] at hm
        rw [← hm]; congr 1; omega)
    refine ⟨c :: U, c0, c1, ?_, ?_, ?_, ?_, ?_, h1, by rw [h2, hr0], h3, h4, by rw [h5, hr1], h6,
      by rw [h8, hex]⟩
    · rw [hlog, hlog1]; simp
    · rw [List.drop_eq_getElem_cons hjN]
      simp only [List.map_cons, hU1]
      congr 1
      rw [hmade.1]; simp [List.getD_eq_getElem?_getD, hjN]
    · have hjr : j < st.results.length := by omega
      rw [List.drop_eq_getElem_cons hjr]
      simp only [List.map_cons, hU2, hres1]
      congr 1
      · rw [hmade.2]; simp [List.getD_eq_getElem?_getD, hjr]
      · exact List.drop_set_of_lt _ _ (by omega)
    · rw [hU3, hres1, list_take_succ_set _ _ _ (by omega)]; simp
    · intro c' hc'
      rcases List.mem_cons.1 hc' with h | h
      · rw [h]; exact e0
      · exact hU4 c' h

end

section
variable {σ : Type} (K : chip_h) (H : thread_hooks σ) (opcodes : List Nat)

theorem ram_store_save_r1 (len : Int) (st : ram_locals σ) :
    ram_store len (-2) st = { st with r1 := st.scratch } := by
  simp [ram_store]

theorem ram_store_save_r0 (len : Int) (st : ram_locals σ) :
    ram_store len (-1) st = { st with r0 := st.scratch } := by
  simp [ram_store]

/-- The whole loop when every call it makes succeeds: two saves, the user
opcodes, two restores, with the scratch values that go in and come out. -/
theorem ram_loop_all_ok (st : ram_locals σ)
    (hres : st.results.length = opcodes.length)
    (hr : ∀ m c, (ram_calls (ram_loop K H opcodes opcodes.length (-2) st).log)[
        (ram_calls st.log).length + m]? = some c → c.rc = 0) :
    ∃ (s1 s0 : ram_call) (U : List ram_call) (c0 c1 : ram_call),
      (ram_loop K H opcodes opcodes.length (-2) st).log
          = st.log ++ ([s1, s0] ++ U ++ [c0, c1]).map hook_call.instruction
        ∧ s1.opcode = mtspr K 277 1 ∧ s1.scratch_in = st.scratch ∧ s1.rc = 0
        ∧ s0.opcode = mtspr K 277 0 ∧ s0.scratch_in = s1.scratch_out ∧ s0.rc = 0
        ∧ U.map ram_call.opcode = opcodes
        ∧ U.map ram_call.scratch_in = st.results
        ∧ (ram_loop K H opcodes opcodes.length (-2) st).results = U.map ram_call.scratch_out
        ∧ (∀ c ∈ U, c.rc = 0)
        ∧ c0.opcode = mfspr K 0 277 ∧ c0.scratch_in = s0.scratch_out ∧ c0.rc = 0
        ∧ c1.opcode = mfspr K 1 277 ∧ c1.scratch_in = s1.scratch_out ∧ c1.rc = 0
        ∧ (ram_loop K H opcodes opcodes.length (-2) st).exception = st.exception := by
  have hi : (-2 : Int) < (opcodes.length : Int) + 2 := by omega
  have e1 := hr 0 _ (ram_calls_issued_get K H opcodes opcodes.length (-2) st hi)
  have n1 := ram_loop_next K H opcodes opcodes.length (-2) st hi e1
  rw [n1, ram_store_save_r1] at hr ⊢
  have hm1 := ram_made_save_r1 K H opcodes opcodes.length st
  generalize hs1 : ram_made K H opcodes opcodes.length (-2) st = s1 at e1 hm1
  generalize hst1 : ({ (ram_issue H (-2) (ram_select K opcodes opcodes.length (-2) st)).2 with
      r1 := (ram_issue H (-2) (ram_select K opcodes opcodes.length (-2) st)).2.scratch }
        : ram_locals σ) = st1 at hr ⊢
  have l1 : st1.log = st.log ++ [hook_call.instruction s1] := by rw [← hst1]; simp [hs1]
  have r1 : st1.results = st.results := by rw [← hst1]; simp
  have x1 : st1.exception = st.exception := by rw [← hst1]; simp
  have a1 : st1.r1 = s1.scratch_out := by rw [← hst1]; simp [hs1]
  have b1 : st1.scratch = s1.scratch_out := by rw [← hst1]; simp [hs1]
  have p1 : (ram_calls st1.log).length = (ram_calls st.log).length + 1 := by
    rw [l1]; simp [ram_calls_append, ram_calls]
  have hj : (-2 : Int) + 1 = -1 := by norm_num
  rw [hj] at hr ⊢
  have hi2 : (-1 : Int) < (opcodes.length : Int) + 2 := by omega
  have g2 := ram_calls_issued_get K H opcodes opcodes.length (-1) st1 hi2
  rw [p1] at g2
  have e2 := hr 1 _ g2
  have n2 := ram_loop_next K H opcodes opcodes.length (-1) st1 hi2 e2
  rw [n2, ram_store_save_r0] at hr ⊢
  have hm2 := ram_made_save_r0 K H opcodes opcodes.length st1
  generalize hs0 : ram_made K H opcodes opcodes.length (-1) st1 = s0 at e2 hm2
  generalize hst2 : ({ (ram_issue H (-1) (ram_select K opcodes opcodes.length (-1) st1)).2 with
      r0 := (ram_issue H (-1) (ram_select K opcodes opcodes.length (-1) st1)).2.scratch }
        : ram_locals σ) = st2 at hr ⊢
  have l2 : st2.log = st1.log ++ [hook_call.instruction s0] := by rw [← hst2]; simp [hs0]
  have r2 : st2.results = st1.results := by rw [← hst2]; simp
  have x2 : st2.exception = st1.exception := by rw [← hst2]; simp
  have a2 : st2.r1 = st1.r1 := by rw [← hst2]; simp
  have b2 : st2.r0 = s0.scratch_out := by rw [← hst2]; simp [hs0]
  have p2 : (ram_calls st2.log).length = (ram_calls st.log).length + 2 := by
    rw [l2, l1]; simp [ram_calls_append, ram_calls]
  have hj2 : (-1 : Int) + 1 = ((0 : Nat) : Int) := by norm_num
  rw [hj2] at hr ⊢
  obtain ⟨U, c0, c1, hlog, hU1, hU2, hU3, hU4, h1, h2, h3, h4, h5, h6, h8⟩ :=
    ram_loop_user_ok K H opcodes opcodes.length 0 st2 (by omega) (by rw [r2, r1, hres]) (by
      intro m c hm
      apply hr (m + 2) c
      rw [p2] at hm
      rw [← hm]; congr 1; omega)
  refine ⟨s1, s0, U, c0, c1, ?_, hm1.1, hm1.2, e1, hm2.1, by rw [hm2.2, b1], e2, by simpa using hU1,
    by simpa [r2, r1] using hU2, by simpa using hU3, hU4, h1, by rw [h2, b2], h3, h4,
    by rw [h5, a2, a1], h6, by rw [h8, x2, x1]⟩
  rw [hlog, l2, l1]; simp

end

/-! ## The sequencer as a whole -/

theorem mem_ram_calls (c : ram_call) (l : List hook_call) :
    c ∈ ram_calls l ↔ hook_call.instruction c ∈ l := by
  induction l with
  | nil => simp [ram_calls]
  | cons e l ih => cases e <;> simp [ram_calls, ih]

theorem ram_loop_eq {σ : Type} (K : chip_h) (H : thread_hooks σ) (opcodes : List Nat)
    (len i : Int) (st : ram_locals σ) :
    ram_loop K H opcodes len i st =
      if i < len + 2 then
        if (ram_issue H i (ram_select K opcodes len i st)).1 ≠ 0 then
          if 0 ≤ i ∧ i < len then
            ram_loop K H opcodes len (len - 1 + 1)
              (ram_store len (len - 1)
                { (ram_issue H i (ram_select K opcodes len i st)).2 with exception := 1 })
          else { (ram_issue H i (ram_select K opcodes len i st)).2 with exception := 1 }
        else ram_loop K H opcodes len (i + 1)
          (ram_store len i (ram_issue H i (ram_select K opcodes len i st)).2)
      else st := by
  rw [ram_loop]; simp only [dite_eq_ite]

section
variable {σ : Type} (K : chip_h) (H : thread_hooks σ) (th : thread σ)
  (opcodes results : List Nat) (len : Int)

/-- With a session already open the sequencer is the loop alone. -/
theorem ram_instructions_open (h : th.ram_is_setup = true) :
    ram_instructions K H th opcodes results len
      = { rc := (ram_loop K H opcodes len (-2) (ram_entry th results [])).exception,
          results := (ram_loop K H opcodes len (-2) (ram_entry th results [])).results,
          thread := (ram_loop K H opcodes len (-2) (ram_entry th results [])).thread,
          log := (ram_loop K H opcodes len (-2) (ram_entry th results [])).log } := by
  simp [ram_instructions, h]

/-- When `ram_setup` fails its error is returned at once. -/
theorem ram_instructions_refused (h : th.ram_is_setup = false) (hs : (H.ram_setup th).rc ≠ 0) :
    ram_instructions K H th opcodes results len
      = { rc := (H.ram_setup th).rc, results := results, thread := (H.ram_setup th).thread,
          log := [hook_call.setup (H.ram_setup th).rc] } := by
  simp [ram_instructions, h, hs]

/-- When the sequencer opens the session itself: setup, the loop, destroy. -/
theorem ram_instructions_fresh (h : th.ram_is_setup = false) (hs : (H.ram_setup th).rc = 0) :
    (ram_instructions K H th opcodes results len).log
        = (ram_loop K H opcodes len (-2)
            (ram_entry (H.ram_setup th).thread results [hook_call.setup 0])).log
          ++ [hook_call.destroy (H.ram_destroy (ram_loop K H opcodes len (-2)
            (ram_entry (H.ram_setup th).thread results [hook_call.setup 0])).thread).rc]
      ∧ (ram_instructions K H th opcodes results len).results
        = (ram_loop K H opcodes len (-2)
            (ram_entry (H.ram_setup th).thread results [hook_call.setup 0])).results
      ∧ (ram_instructions K H th opcodes results len).rc
        = if (H.ram_destroy (ram_loop K H opcodes len (-2)
            (ram_entry (H.ram_setup th).thread results [hook_call.setup 0])).thread).rc ≠ 0
          then (H.ram_destroy (ram_loop K H opcodes len (-2)
            (ram_entry (H.ram_setup th).thread results [hook_call.setup 0])).thread).rc
          else (ram_loop K H opcodes len (-2)
            (ram_entry (H.ram_setup th).thread results [hook_call.setup 0])).exception := by
  simp only [ram_instructions, h, hs]
  simp only [↓reduceIte, ne_eq, not_true_eq_false]
  split_ifs <;> simp

end

section
variable {σ : Type} (K : chip_h) (H : thread_hooks σ) (th : thread σ)
  (opcodes results : List Nat)

/-- A run of the sequencer in which every hook call succeeds: the transport
calls are two saves, the user opcodes and two restores, with the scratch
values as the code threads them, and the return value is 0. -/
theorem ram_instructions_all_ok (hres : results.length = opcodes.length)
    (hok : ∀ e ∈ (ram_instructions K H th opcodes results opcodes.length).log, e.rc = 0) :
    ∃ (s1 s0 : ram_call) (U : List ram_call) (c0 c1 : ram_call),
      ram_calls (ram_instructions K H th opcodes results opcodes.length).log
          = [s1, s0] ++ U ++ [c0, c1]
        ∧ s1.opcode = mtspr K 277 1 ∧ s0.opcode = mtspr K 277 0
        ∧ U.map ram_call.opcode = opcodes
        ∧ U.map ram_call.scratch_in = results
        ∧ (ram_instructions K H th opcodes results opcodes.length).results
            = U.map ram_call.scratch_out
        ∧ c0.opcode = mfspr K 0 277 ∧ c0.scratch_in = s0.scratch_out
        ∧ c1.opcode = mfspr K 1 277 ∧ c1.scratch_in = s1.scratch_out
        ∧ (ram_instructions K H th opcodes results opcodes.length).rc = 0 := by
  by_cases h : th.ram_is_setup = true
  · rw [ram_instructions_open K H th opcodes results _ h] at hok ⊢
    simp only at hok ⊢
    obtain ⟨s1, s0, U, c0, c1, hlog, a1, -, -, a2, -, -, hU1, hU2, hU3, -, b1, b2, -, b3, b4, -, hx⟩ :=
      ram_loop_all_ok K H opcodes (ram_entry th results []) hres (by
        intro m c hm
        exact hok _ ((mem_ram_calls c _).1 (List.getElem?_mem hm)))
    refine ⟨s1, s0, U, c0, c1, ?_, a1, a2, hU1, hU2, hU3, b1, b2, b3, b4, ?_⟩
    · rw [hlog, ram_calls_append, ram_calls_map_instruction]; simp [ram_entry, ram_calls]
    · rw [hx]; rfl
  · have h : th.ram_is_setup = false := by simpa using h
    have hs : (H.ram_setup th).rc = 0 := by
      by_contra hs
      rw [ram_instructions_refused K H th opcodes results _ h hs] at hok
      exact hs (hok (hook_call.setup _) (by simp))
    obtain ⟨e1, e2, e3⟩ := ram_instructions_fresh K H th opcodes results opcodes.length h hs
    rw [e1] at hok
    rw [e1, e2, e3]
    have hd := hok _ (List.mem_append_right _ (List.mem_singleton_self _))
    simp only [hook_call.rc] at hd
    obtain ⟨s1, s0, U, c0, c1, hlog, a1, -, -, a2, -, -, hU1, hU2, hU3, -, b1, b2, -, b3, b4, -, hx⟩ :=
      ram_loop_all_ok K H opcodes (ram_entry (H.ram_setup th).thread results [hook_call.setup 0])
        hres (by
        intro m c hm
        exact hok _ (List.mem_append_left _ ((mem_ram_calls c _).1 (List.getElem?_mem hm))))
    refine ⟨s1, s0, U, c0, c1, ?_, a1, a2, hU1, hU2, hU3, b1, b2, b3, b4, ?_⟩
    · rw [hlog]
      simp [ram_calls_append, ram_calls_map_instruction, ram_entry, ram_calls]
    · rw [hx, hd]; simp [ram_entry]

/-- C1: in a run of `ram_instructions` in which the session hooks and every
transport call succeed, on `N` opcodes with `N` result slots, the
`ram_instruction` hook is called exactly `N + 4` times, with the opcodes
`mtspr(277,1)`, `mtspr(277,0)`, `opcodes[0..N-1]`, `mfspr(0,277)`,
`mfspr(1,277)` in this order, and the return value is 0. -/
theorem ram_instructions_issues_save_user_restore
    (hres : results.length = opcodes.length)
    (hok : ∀ e ∈ (ram_instructions K H th opcodes results opcodes.length).log, e.rc = 0) :
    (ram_calls (ram_instructions K H th opcodes results opcodes.length).log).map ram_call.opcode
        = [mtspr K 277 1, mtspr K 277 0] ++ opcodes ++ [mfspr K 0 277, mfspr K 1 277]
      ∧ (ram_calls (ram_instructions K H th opcodes results opcodes.length).log).length
        = opcodes.length + 4
      ∧ (ram_instructions K H th opcodes results opcodes.length).rc = 0 := by
  obtain ⟨s1, s0, U, c0, c1, hT, a1, a2, hU1, -, -, b1, -, b3, -, hrc⟩ :=
    ram_instructions_all_ok K H th opcodes results hres hok
  have hlen : U.length = opcodes.length := by rw [← hU1]; simp
  refine ⟨?_, ?_, hrc⟩
  · rw [hT]; simp [a1, a2, hU1, b1, b3]
  · rw [hT]; simp [hlen]

end

/-- Witness of C1: a scripted thread that opens its own session and answers
three user opcodes. -/
theorem ram_instructions_issues_save_user_restore_witness :
    (ram_calls (ram_instructions power_isa (scripted_hooks 0 0 []) fresh_thread
        [5, 6, 7] [0, 0, 0] 3).log).map ram_call.opcode
        = [mtspr power_isa 277 1, mtspr power_isa 277 0, 5, 6, 7,
            mfspr power_isa 0 277, mfspr power_isa 1 277]
      ∧ (ram_calls (ram_instructions power_isa (scripted_hooks 0 0 []) fresh_thread
        [5, 6, 7] [0, 0, 0] 3).log).length = 7
      ∧ (ram_instructions power_isa (scripted_hooks 0 0 []) fresh_thread
        [5, 6, 7] [0, 0, 0] 3).rc = 0 :=
  ram_instructions_issues_save_user_restore power_isa (scripted_hooks 0 0 []) fresh_thread
    [5, 6, 7] [0, 0, 0] rfl (by
      simp [ram_instructions, scripted_hooks, fresh_thread, ram_entry, ram_loop_eq, ram_issue,
        ram_select, ram_store, hook_call.rc])

/-! ## A failing user opcode -/

section
variable {σ : Type} (K : chip_h) (H : thread_hooks σ) (opcodes : List Nat)

/-- The iteration of a failing user opcode: the exception flag is set, the
scratch value lands in the last result slot, and the loop goes on at the
restore iterations. -/
theorem ram_loop_abort (len i : Int) (st : ram_locals σ) (h0 : 0 ≤ i) (h1 : i < len)
    (hrc : (ram_made K H opcodes len i st).rc ≠ 0) :
    ram_loop K H opcodes len i st
      = ram_loop K H opcodes len len
          { (ram_issue H i (ram_select K opcodes len i st)).2 with
            exception := 1
            results := st.results.set (len - 1).toNat
              (ram_made K H opcodes len i st).scratch_out } := by
  rw [ram_loop_user_fail K H opcodes len i st h0 h1 (by simpa using hrc),
    ram_store_user _ _ _ (by omega) (by omega)]
  simp

/-- The user iterations from index `j` on when the call of opcode `j + d` is
the first one to fail and the restore calls succeed. -/
theorem ram_loop_user_fail_at (d : Nat) : ∀ (j : Nat) (st : ram_locals σ),
    j + d < opcodes.length → st.results.length = opcodes.length →
    (∀ m c, (ram_calls (ram_loop K H opcodes opcodes.length j st).log)[
        (ram_calls st.log).length + m]? = some c → (c.rc = 0 ↔ m ≠ d)) →
    ∃ (U : List ram_call) (cf c0 c1 : ram_call),
      (ram_loop K H opcodes opcodes.length j st).log
          = st.log ++ (U ++ [cf] ++ [c0, c1]).map hook_call.instruction
        ∧ U.map ram_call.opcode = (opcodes.drop j).take d
        ∧ U.map ram_call.scratch_in = (st.results.drop j).take d
        ∧ (∀ c ∈ U, c.rc = 0)
        ∧ opcodes[j + d]? = some cf.opcode
        ∧ st.results[j + d]? = some cf.scratch_in
        ∧ cf.rc ≠ 0
        ∧ (ram_loop K H opcodes opcodes.length j st).results
            = (st.results.take j ++ U.map ram_call.scratch_out ++ st.results.drop (j + d)).set
                (opcodes.length - 1) cf.scratch_out
        ∧ c0.opcode = mfspr K 0 277 ∧ c0.scratch_in = st.r0 ∧ c0.rc = 0
        ∧ c1.opcode = mfspr K 1 277 ∧ c1.scratch_in = st.r1 ∧ c1.rc = 0
        ∧ (ram_loop K H opcodes opcodes.length j st).exception = 1 := by
  induction d with
  | zero =>
    intro j st hj hres hr
    have hi : (j : Int) < (opcodes.length : Int) + 2 := by omega
    have hi0 : (0 : Int) ≤ (j : Int) := by omega
    have hi1 : (j : Int) < (opcodes.length : Int) := by omega
    have e0 : (ram_made K H opcodes opcodes.length j st).rc ≠ 0 := by
      intro h0
      exact ((hr 0 _ (ram_calls_issued_get K H opcodes opcodes.length j st hi)).1 h0) rfl
    have s0 := ram_loop_abort K H opcodes opcodes.length j st hi0 hi1 e0
    rw [s0] at hr ⊢
    have hmade := ram_made_user K H opcodes opcodes.length j st hi0 hi1
    generalize hc : ram_made K H opcodes opcodes.length j st = cf at e0 hmade hr ⊢
    generalize hst1 : ({ (ram_issue H j (ram_select K opcodes opcodes.length j st)).2 with
        exception := 1
        results := st.results.set ((opcodes.length : Int) - 1).toNat cf.scratch_out }
          : ram_locals σ) = st1 at hr ⊢
    have hlog1 : st1.log = st.log ++ [hook_call.instruction cf] := by
      rw [← hst1]; simp [hc]
    have hres1 : st1.results = st.results.set (opcodes.length - 1) cf.scratch_out := by
      rw [← hst1]
      have : ((opcodes.length : Int) - 1).toNat = opcodes.length - 1 := by omega
      simp [this]
    have hr0 : st1.r0 = st.r0 := by rw [← hst1]; simp
    have hr1 : st1.r1 = st.r1 := by rw [← hst1]; simp
    have hex : st1.exception = 1 := by rw [← hst1]
    have hP : (ram_calls st1.log).length = (ram_calls st.log).length + 1 := by
      rw [hlog1]; simp [ram_calls_append, ram_calls]
    obtain ⟨c0, c1, hlog, h1, h2, h3, h4, h5, h6, h7, h8⟩ :=
      ram_loop_restore K H opcodes opcodes.length st1 (by omega) (by
        intro m c hm
        rw [hP] at hm
        exact (hr (m + 1) c (by rw [← hm]; congr 1; omega)).2 (by omega))
    have hjr : j < st.results.length := by omega
    refine ⟨[], cf, c0, c1, ?_, by simp, by simp, by simp, ?_, ?_, e0, ?_, h1, by rw [h2, hr0], h3,
      h4, by rw [h5, hr1], h6, by rw [h8, hex]⟩
    · rw [hlog, hlog1]; simp
    · rw [hmade.1]; simp [List.getD_eq_getElem?_getD, hi1]
      have : j < opcodes.length := by omega
      simp [this]
    · rw [hmade.2]; simp [List.getD_eq_getElem?_getD, hjr]
    · rw [h7, hres1]; simp
  | succ d ih =>
    intro j st hj hres hr
    have hjN : j < opcodes.length := by omega
    have hi : (j : Int) < (opcodes.length : Int) + 2 := by omega
    have hi0 : (0 : Int) ≤ (j : Int) := by omega
    have hi1 : (j : Int) < (opcodes.length : Int) := by omega
    have e0 : (ram_made K H opcodes opcodes.length j st).rc = 0 :=
      (hr 0 _ (ram_calls_issued_get K H opcodes opcodes.length j st hi)).2 (by omega)
    have s0 := ram_loop_next K H opcodes opcodes.length j st hi e0
    rw [s0] at hr ⊢
    have hmade := ram_made_user K H opcodes opcodes.length j st hi0 hi1
    generalize hc : ram_made K H opcodes opcodes.length j st = c at e0 hmade
    have hst1 : ram_store opcodes.length j (ram_issue H j (ram_select K opcodes opcodes.length j st)).2
        = { (ram_issue H j (ram_select K opcodes opcodes.length j st)).2 with
            results := st.results.set j c.scratch_out } := by
      rw [ram_store_user _ _ _ hi0 hi1]; simp [hc]
    generalize hst1g : ram_store opcodes.length j
      (ram_issue H j (ram_select K opcodes opcodes.length j st)).2 = st1 at hr hst1 ⊢
    have hlog1 : st1.log = st.log ++ [hook_call.instruction c] := by
      rw [hst1]; simp [hc]
    have hres1 : st1.results = st.results.set j c.scratch_out := by rw [hst1]
    have hr0 : st1.r0 = st.r0 := by rw [hst1]; simp
    have hr1 : st1.r1 = st.r1 := by rw [hst1]; simp
    have hP : (ram_calls st1.log).length = (ram_calls st.log).length + 1 := by
      rw [hlog1]; simp [ram_calls_append, ram_calls]
    have hcast : ((j : Int) + 1) = ((j + 1 : Nat) : Int) := by push_cast; ring
    rw [hcast] at hr ⊢
    obtain ⟨U, cf, c0, c1, hlog, hU1, hU2, hU4, hf1, hf2, hf3, hU3, h1, h2, h3, h4, h5, h6, h8⟩ :=
      ih (j + 1) st1 (by omega) (by rw [hres1]; simpa using hres) (by
        intro m c' hm
        rw [hP] at hm
        have := hr (m + 1) c' (by rw [← hm]; congr 1; omega)
        rw [this]; omega)
    have hjr : j < st.results.length := by omega
    have hidx : j + 1 + d = j + (d + 1) := by omega
    refine ⟨c :: U, cf, c0, c1, ?_, ?_, ?_, ?_, by rw [← hidx]; exact hf1, ?_, hf3, ?_, h1,
      by rw [h2, hr0], h3, h4, by rw [h5, hr1], h6, h8⟩
    · rw [hlog, hlog1]; simp
    · rw [List.drop_eq_getElem_cons hjN]
      simp only [List.map_cons, hU1, List.take_succ_cons]
      congr 1
      rw [hmade.1]; simp [List.getD_eq_getElem?_getD, hjN]
    · rw [List.drop_eq_getElem_cons hjr]
      simp only [List.map_cons, hU2, hres1, List.take_succ_cons]
      congr 1
      · rw [hmade.2]; simp [List.getD_eq_getElem?_getD, hjr]
      · rw [List.drop_set_of_lt _ _ (by omega)]
    · intro c' hc'
      rcases List.mem_cons.1 hc' with h | h
      · rw [h]; exact e0
      · exact hU4 c' h
    · rw [← hidx, ← hf2, hres1, List.getElem?_set_ne (by omega)]
    · rw [hU3, hres1, list_take_succ_set _ _ _ (by omega), List.drop_set_of_lt _ _ (by omega),
        hidx]
      simp

end

section
variable {σ : Type} (K : chip_h) (H : thread_hooks σ) (opcodes : List Nat)

/-- The two save iterations, when both calls succeed: the loop arrives at the
first user opcode with `r1` and `r0` holding the two scratch values. -/
theorem ram_loop_saves (len : Int) (h0 : 0 ≤ len) (st : ram_locals σ)
    (hr : ∀ m c, m < 2 → (ram_calls (ram_loop K H opcodes len (-2) st).log)[
        (ram_calls st.log).length + m]? = some c → c.rc = 0) :
    ∃ (s1 s0 : ram_call) (st2 : ram_locals σ),
      ram_loop K H opcodes len (-2) st = ram_loop K H opcodes len 0 st2
        ∧ st2.log = st.log ++ [hook_call.instruction s1, hook_call.instruction s0]
        ∧ st2.results = st.results ∧ st2.exception = st.exception
        ∧ st2.r1 = s1.scratch_out ∧ st2.r0 = s0.scratch_out
        ∧ s1.opcode = mtspr K 277 1 ∧ s1.scratch_in = st.scratch ∧ s1.rc = 0
        ∧ s0.opcode = mtspr K 277 0 ∧ s0.scratch_in = s1.scratch_out ∧ s0.rc = 0 := by
  have hi : (-2 : Int) < len + 2 := by omega
  have e1 := hr 0 _ (by omega) (ram_calls_issued_get K H opcodes len (-2) st hi)
  have n1 := ram_loop_next K H opcodes len (-2) st hi e1
  rw [n1, ram_store_save_r1] at hr ⊢
  have hm1 := ram_made_save_r1 K H opcodes len st
  generalize hs1 : ram_made K H opcodes len (-2) st = s1 at e1 hm1
  generalize hst1 : ({ (ram_issue H (-2) (ram_select K opcodes len (-2) st)).2 with
      r1 := (ram_issue H (-2) (ram_select K opcodes len (-2) st)).2.scratch }
        : ram_locals σ) = st1 at hr ⊢
  have l1 : st1.log = st.log ++ [hook_call.instruction s1] := by rw [← hst1]; simp [hs1]
  have r1 : st1.results = st.results := by rw [← hst1]; simp
  have x1 : st1.exception = st.exception := by rw [← hst1]; simp
  have a1 : st1.r1 = s1.scratch_out := by rw [← hst1]; simp [hs1]
  have b1 : st1.scratch = s1.scratch_out := by rw [← hst1]; simp [hs1]
  have p1 : (ram_calls st1.log).length = (ram_calls st.log).length + 1 := by
    rw [l1]; simp [ram_calls_append, ram_calls]
  have hj : (-2 : Int) + 1 = -1 := by norm_num
  rw [hj] at hr ⊢
  have hi2 : (-1 : Int) < len + 2 := by omega
  have g2 := ram_calls_issued_get K H opcodes len (-1) st1 hi2
  rw [p1] at g2
  have e2 := hr 1 _ (by omega) g2
  have n2 := ram_loop_next K H opcodes len (-1) st1 hi2 e2
  rw [n2, ram_store_save_r0]
  have hm2 := ram_made_save_r0 K H opcodes len st1
  generalize hs0 : ram_made K H opcodes len (-1) st1 = s0 at e2 hm2
  have hj2 : (-1 : Int) + 1 = 0 := by norm_num
  rw [hj2]
  refine ⟨s1, s0, _, rfl, ?_, ?_, ?_, ?_, ?_, hm1.1, hm1.2, e1, hm2.1, by rw [hm2.2, b1], e2⟩
  · simp [l1, hs0]
  · simp [r1]
  · simp [x1]
  · simp [a1]
  · simp [hs0]

/-- The whole loop when the call of user opcode `k` is the first one to fail
and the two restore calls succeed. -/
theorem ram_loop_fail_at (k : Nat) (st : ram_locals σ) (hk : k < opcodes.length)
    (hres : st.results.length = opcodes.length)
    (hr : ∀ m c, (ram_calls (ram_loop K H opcodes opcodes.length (-2) st).log)[
        (ram_calls st.log).length + m]? = some c → (c.rc = 0 ↔ m ≠ k + 2)) :
    ∃ (s1 s0 : ram_call) (U : List ram_call) (cf c0 c1 : ram_call),
      (ram_loop K H opcodes opcodes.length (-2) st).log
          = st.log ++ ([s1, s0] ++ U ++ [cf] ++ [c0, c1]).map hook_call.instruction
        ∧ s1.opcode = mtspr K 277 1 ∧ s1.scratch_in = st.scratch ∧ s1.rc = 0
        ∧ s0.opcode = mtspr K 277 0 ∧ s0.scratch_in = s1.scratch_out ∧ s0.rc = 0
        ∧ U.map ram_call.opcode = opcodes.take k
        ∧ U.map ram_call.scratch_in = st.results.take k
        ∧ (∀ c ∈ U, c.rc = 0)
        ∧ opcodes[k]? = some cf.opcode
        ∧ st.results[k]? = some cf.scratch_in
        ∧ cf.rc ≠ 0
        ∧ (ram_loop K H opcodes opcodes.length (-2) st).results
            = (U.map ram_call.scratch_out ++ st.results.drop k).set
                (opcodes.length - 1) cf.scratch_out
        ∧ c0.opcode = mfspr K 0 277 ∧ c0.scratch_in = s0.scratch_out ∧ c0.rc = 0
        ∧ c1.opcode = mfspr K 1 277 ∧ c1.scratch_in = s1.scratch_out ∧ c1.rc = 0
        ∧ (ram_loop K H opcodes opcodes.length (-2) st).exception = 1 := by
  obtain ⟨s1, s0, st2, hloop, l2, r2, -, a1, a0, o1, i1, e1, o0, i0, e0⟩ :=
    ram_loop_saves K H opcodes opcodes.length (by omega) st (by
      intro m c hm hc
      exact (hr m c hc).2 (by omega))
  have hz : (0 : Int) = ((0 : Nat) : Int) := by norm_num
  rw [hz] at hloop
  rw [hloop] at hr ⊢
  have p2 : (ram_calls st2.log).length = (ram_calls st.log).length + 2 := by
    rw [l2]; simp [ram_calls_append, ram_calls]
  obtain ⟨U, cf, c0, c1, hlog, hU1, hU2, hU4, hf1, hf2, hf3, hU3, h1, h2, h3, h4, h5, h6, h8⟩ :=
    ram_loop_user_fail_at K H opcodes k 0 st2 (by omega) (by rw [r2, hres]) (by
      intro m c hm
      rw [p2] at hm
      have := hr (m + 2) c (by rw [← hm]; congr 1; omega)
      rw [this]; omega)
  refine ⟨s1, s0, U, cf, c0, c1, ?_, o1, i1, e1, o0, i0, e0, by simpa using hU1,
    by simpa [r2] using hU2, hU4, by simpa using hf1, by simpa [r2] using hf2, hf3,
    by simpa [r2] using hU3, h1, by rw [h2, a0], h3, h4, by rw [h5, a1], h6, h8⟩
  rw [hlog, l2]; simp

end

section
variable {σ : Type} (K : chip_h) (H : thread_hooks σ) (th : thread σ)
  (opcodes results : List Nat)

/-- A run of the sequencer in which the call of user opcode `k` is the only
transport call that fails and the session hooks succeed. -/
theorem ram_instructions_fail_at (k : Nat) (hk : k < opcodes.length)
    (hres : results.length = opcodes.length)
    (hfail : ∀ m c, (ram_calls (ram_instructions K H th opcodes results opcodes.length).log)[m]?
        = some c → (c.rc = 0 ↔ m ≠ k + 2))
    (hsess : ∀ rc, (hook_call.setup rc ∈ (ram_instructions K H th opcodes results opcodes.length).log
        ∨ hook_call.destroy rc ∈ (ram_instructions K H th opcodes results opcodes.length).log)
        → rc = 0) :
    ∃ (s1 s0 : ram_call) (U : List ram_call) (cf c0 c1 : ram_call),
      ram_calls (ram_instructions K H th opcodes results opcodes.length).log
          = [s1, s0] ++ U ++ [cf] ++ [c0, c1]
        ∧ s1.opcode = mtspr K 277 1 ∧ s0.opcode = mtspr K 277 0
        ∧ U.map ram_call.opcode = opcodes.take k
        ∧ U.map ram_call.scratch_in = results.take k
        ∧ opcodes[k]? = some cf.opcode
        ∧ results[k]? = some cf.scratch_in
        ∧ cf.rc ≠ 0
        ∧ (ram_instructions K H th opcodes results opcodes.length).results
            = (U.map ram_call.scratch_out ++ results.drop k).set
                (opcodes.length - 1) cf.scratch_out
        ∧ c0.opcode = mfspr K 0 277 ∧ c0.scratch_in = s0.scratch_out
        ∧ c1.opcode = mfspr K 1 277 ∧ c1.scratch_in = s1.scratch_out
        ∧ (ram_instructions K H th opcodes results opcodes.length).rc = 1 := by
  by_cases h : th.ram_is_setup = true
  · rw [ram_instructions_open K H th opcodes results _ h] at hfail ⊢
    simp only at hfail ⊢
    obtain ⟨s1, s0, U, cf, c0, c1, hlog, a1, -, -, a2, -, -, hU1, hU2, -, f1, f2, f3, hU3, b1, b2,
        -, b3, b4, -, hx⟩ :=
      ram_loop_fail_at K H opcodes k (ram_entry th results []) hk hres (by
        intro m c hm
        exact hfail m c (by simpa [ram_entry, ram_calls] using hm))
    refine ⟨s1, s0, U, cf, c0, c1, ?_, a1, a2, hU1, hU2, f1, f2, f3, hU3, b1, b2, b3, b4, hx⟩
    rw [hlog, ram_calls_append, ram_calls_map_instruction]; simp [ram_entry, ram_calls]
  · have h : th.ram_is_setup = false := by simpa using h
    have hs : (H.ram_setup th).rc = 0 := by
      by_contra hs
      rw [ram_instructions_refused K H th opcodes results _ h hs] at hsess
      exact hs (hsess _ (Or.inl (by simp)))
    obtain ⟨e1, e2, e3⟩ := ram_instructions_fresh K H th opcodes results opcodes.length h hs
    rw [e1] at hsess hfail
    rw [e1, e2, e3]
    have hd := hsess _ (Or.inr (List.mem_append_right _ (List.mem_singleton_self _)))
    obtain ⟨s1, s0, U, cf, c0, c1, hlog, a1, -, -, a2, -, -, hU1, hU2, -, f1, f2, f3, hU3, b1, b2,
        -, b3, b4, -, hx⟩ :=
      ram_loop_fail_at K H opcodes k
        (ram_entry (H.ram_setup th).thread results [hook_call.setup 0]) hk hres (by
        intro m c hm
        apply hfail m c
        rw [ram_calls_append]
        have hz : (ram_calls (ram_entry (H.ram_setup th).thread results
            [hook_call.setup 0]).log).length = 0 := by simp [ram_entry, ram_calls]
        rw [hz, Nat.zero_add] at hm
        rw [List.getElem?_append_left, hm]
        exact (List.getElem?_eq_some_iff.1 hm).1)
    refine ⟨s1, s0, U, cf, c0, c1, ?_, a1, a2, hU1, hU2, f1, f2, f3, hU3, b1, b2, b3, b4, ?_⟩
    · rw [hlog]
      simp [ram_calls_append, ram_calls_map_instruction, ram_entry, ram_calls]
    · rw [hx, hd]; simp

/-- C2: when the transport call of user opcode `k` is the first and only call
to fail in a run of `ram_instructions` (the restore calls and the session
hooks succeed), no user opcode after `k` is issued, both restore opcodes are
still issued, the return value is 1, and the result slots below `k` hold the
scratch values returned by the user steps below `k`. -/
theorem ram_instructions_user_failure (k : Nat) (hk : k < opcodes.length)
    (hres : results.length = opcodes.length)
    (hfail : ∀ m c, (ram_calls (ram_instructions K H th opcodes results opcodes.length).log)[m]?
        = some c → (c.rc = 0 ↔ m ≠ k + 2))
    (hsess : ∀ rc, (hook_call.setup rc ∈ (ram_instructions K H th opcodes results opcodes.length).log
        ∨ hook_call.destroy rc ∈ (ram_instructions K H th opcodes results opcodes.length).log)
        → rc = 0) :
    (ram_calls (ram_instructions K H th opcodes results opcodes.length).log).map ram_call.opcode
        = [mtspr K 277 1, mtspr K 277 0] ++ opcodes.take (k + 1)
            ++ [mfspr K 0 277, mfspr K 1 277]
      ∧ (ram_instructions K H th opcodes results opcodes.length).rc = 1
      ∧ ∀ j, j < k →
          (ram_instructions K H th opcodes results opcodes.length).results[j]?
            = ((ram_calls (ram_instructions K H th opcodes results opcodes.length).log)[j + 2]?).map
                ram_call.scratch_out := by
  obtain ⟨s1, s0, U, cf, c0, c1, hT, a1, a2, hU1, -, f1, -, -, hres2, b1, -, b3, -, hrc⟩ :=
    ram_instructions_fail_at K H th opcodes results k hk hres hfail hsess
  have hlen : U.length = k := by
    have := congrArg List.length hU1
    simp at this; omega
  refine ⟨?_, hrc, ?_⟩
  · rw [hT, List.take_succ, f1]; simp [a1, a2, hU1, b1, b3]
  · intro j hj
    rw [hres2, hT, List.getElem?_set_ne (by omega)]
    have h1 : j < (U.map ram_call.scratch_out).length := by simp; omega
    rw [List.getElem?_append_left h1]
    simp only [List.append_assoc, List.cons_append, List.nil_append]
    simp [List.getElem?_append_left (by omega : j < U.length)]

end

/-- Witness of C2: three opcodes, the scripted transport fails on the second
(`k = 1`, the fourth call). -/
theorem ram_instructions_user_failure_witness :
    (ram_calls (ram_instructions power_isa
        (scripted_hooks 0 0 [(0, 11), (0, 10), (0, 50), (5, 51)]) fresh_thread
        [5, 6, 7] [0, 0, 0] 3).log).map ram_call.opcode
        = [mtspr power_isa 277 1, mtspr power_isa 277 0, 5, 6,
            mfspr power_isa 0 277, mfspr power_isa 1 277]
      ∧ (ram_instructions power_isa
        (scripted_hooks 0 0 [(0, 11), (0, 10), (0, 50), (5, 51)]) fresh_thread
        [5, 6, 7] [0, 0, 0] 3).rc = 1
      ∧ ∀ j, j < 1 →
          (ram_instructions power_isa
            (scripted_hooks 0 0 [(0, 11), (0, 10), (0, 50), (5, 51)]) fresh_thread
            [5, 6, 7] [0, 0, 0] 3).results[j]?
            = ((ram_calls (ram_instructions power_isa
                (scripted_hooks 0 0 [(0, 11), (0, 10), (0, 50), (5, 51)]) fresh_thread
                [5, 6, 7] [0, 0, 0] 3).log)[j + 2]?).map ram_call.scratch_out :=
  ram_instructions_user_failure power_isa
    (scripted_hooks 0 0 [(0, 11), (0, 10), (0, 50), (5, 51)]) fresh_thread
    [5, 6, 7] [0, 0, 0] 1 (by decide) rfl
    (by
      have e : ram_calls (ram_instructions power_isa
          (scripted_hooks 0 0 [(0, 11), (0, 10), (0, 50), (5, 51)]) fresh_thread
          [5, 6, 7] [0, 0, 0] ([5, 6, 7] : List Nat).length).log
          = [⟨-2, mtspr power_isa 277 1, 0, 0, 11⟩, ⟨-1, mtspr power_isa 277 0, 11, 0, 10⟩,
              ⟨0, 5, 0, 0, 50⟩, ⟨1, 6, 0, 5, 51⟩, ⟨3, mfspr power_isa 0 277, 10, 0, 10⟩,
              ⟨4, mfspr power_isa 1 277, 11, 0, 11⟩] := by
        simp [ram_instructions, scripted_hooks, fresh_thread, ram_entry, ram_loop_eq, ram_issue,
          ram_select, ram_store, ram_calls]
      rw [e]
      intro m c hm
      match m, hm with
      | 0, hm => simp at hm; subst hm; simp
      | 1, hm => simp at hm; subst hm; simp
      | 2, hm => simp at hm; subst hm; simp
      | 3, hm => simp at hm; subst hm; simp
      | 4, hm => simp at hm; subst hm; simp
      | 5, hm => simp at hm; subst hm; simp
      | n + 6, hm => simp at hm)
    (by
      intro rc hrc
      simp [ram_instructions, scripted_hooks, fresh_thread, ram_entry, ram_loop_eq, ram_issue,
        ram_select, ram_store] at hrc
      exact hrc)

/-! ## Failing save and restore steps, and the session bracket -/

section
variable {σ : Type} (K : chip_h) (H : thread_hooks σ) (opcodes : List Nat) (len i : Int)
  (st : ram_locals σ)

@[simp] theorem ram_made_iter : (ram_made K H opcodes len i st).iter = i := rfl

theorem getLast?_cons_of_mem {α : Type} (a c : α) (l : List α) (h : c ∈ l)
    (hl : l.getLast? = some c) : (a :: l).getLast? = some c := by
  cases l with
  | nil => simp at h
  | cons b l => simpa [List.getLast?_cons_cons] using hl

/-- A failing call of a save or restore iteration is the last call of the
loop, and the exception flag is then 1. -/
theorem ram_loop_bracket_failure :
    ∃ l : List ram_call,
      (ram_loop K H opcodes len i st).log = st.log ++ l.map hook_call.instruction
        ∧ ∀ c ∈ l, c.rc ≠ 0 → (c.iter < 0 ∨ len ≤ c.iter) →
            l.getLast? = some c ∧ (ram_loop K H opcodes len i st).exception = 1 := by
  induction i, st using ram_loop.induct K H opcodes len with
  | case1 i st h r hrc h2 ih =>
    obtain ⟨l, hl, hq⟩ := ih
    have e : len - 1 + 1 = len := by omega
    rw [e] at hl hq
    rw [ram_loop_user_fail K H opcodes len i st h2.1 h2.2 hrc]
    refine ⟨ram_made K H opcodes len i st :: l, by rw [hl]; simp [r], ?_⟩
    intro c hc hcrc hciter
    rcases List.mem_cons.1 hc with hc | hc
    · subst hc; simp at hciter; omega
    · obtain ⟨q1, q2⟩ := hq c hc hcrc hciter
      exact ⟨getLast?_cons_of_mem _ _ _ hc q1, q2⟩
  | case2 i st h r hrc h2 =>
    rw [ram_loop_break K H opcodes len i st h (by omega) hrc]
    refine ⟨[ram_made K H opcodes len i st], by simp, ?_⟩
    intro c hc _ _
    simp at hc
    simp [hc]
  | case3 i st h r hrc ih =>
    obtain ⟨l, hl, hq⟩ := ih
    have hrc0 : (ram_issue H i (ram_select K opcodes len i st)).1 = 0 := by
      simpa [r] using hrc
    rw [ram_loop_ok K H opcodes len i st h hrc0]
    refine ⟨ram_made K H opcodes len i st :: l, by rw [hl]; simp [r], ?_⟩
    intro c hc hcrc hciter
    rcases List.mem_cons.1 hc with hc | hc
    · subst hc; simp at hrc0; exact absurd hrc0 hcrc
    · obtain ⟨q1, q2⟩ := hq c hc hcrc hciter
      exact ⟨getLast?_cons_of_mem _ _ _ hc q1, q2⟩
  | case4 i st h =>
    exact ⟨[], by rw [ram_loop_done K H opcodes len i st h]; simp, by simp⟩

end

section
variable {σ : Type} (K : chip_h) (H : thread_hooks σ) (th : thread σ)
  (opcodes results : List Nat) (len : Int)

/-- The log of the sequencer: transport calls only when the session was
already open; otherwise one `setup`, the transport calls, one `destroy`, or a
failed `setup` alone. The return value is given with it. -/
theorem ram_instructions_log_shape :
    (th.ram_is_setup = true →
      ∃ l : List ram_call,
        (ram_instructions K H th opcodes results len).log = l.map hook_call.instruction
          ∧ (ram_instructions K H th opcodes results len).rc
              = (ram_loop K H opcodes len (-2) (ram_entry th results [])).exception
          ∧ (ram_loop K H opcodes len (-2) (ram_entry th results [])).log
              = l.map hook_call.instruction)
    ∧ (th.ram_is_setup = false → (H.ram_setup th).rc = 0 →
      ∃ (l : List ram_call) (d : Int),
        (ram_instructions K H th opcodes results len).log
            = hook_call.setup 0 :: l.map hook_call.instruction ++ [hook_call.destroy d]
          ∧ (ram_instructions K H th opcodes results len).rc
              = (if d ≠ 0 then d else (ram_loop K H opcodes len (-2)
                  (ram_entry (H.ram_setup th).thread results [hook_call.setup 0])).exception)
          ∧ (ram_loop K H opcodes len (-2)
                (ram_entry (H.ram_setup th).thread results [hook_call.setup 0])).log
              = hook_call.setup 0 :: l.map hook_call.instruction)
    ∧ (th.ram_is_setup = false → (H.ram_setup th).rc ≠ 0 →
        (ram_instructions K H th opcodes results len).log
            = [hook_call.setup (H.ram_setup th).rc]
          ∧ (ram_instructions K H th opcodes results len).rc = (H.ram_setup th).rc) := by
  refine ⟨?_, ?_, ?_⟩
  · intro h
    obtain ⟨l, hl⟩ := ram_loop_log_ext K H opcodes len (-2) (ram_entry th results [])
    rw [ram_instructions_open K H th opcodes results len h]
    exact ⟨l, by simpa [ram_entry] using hl, rfl, by simpa [ram_entry] using hl⟩
  · intro h hs
    obtain ⟨e1, -, e3⟩ := ram_instructions_fresh K H th opcodes results len h hs
    obtain ⟨l, hl⟩ := ram_loop_log_ext K H opcodes len (-2)
      (ram_entry (H.ram_setup th).thread results [hook_call.setup 0])
    refine ⟨l, _, ?_, e3, by simpa [ram_entry] using hl⟩
    rw [e1, hl]; simp [ram_entry]
  · intro h hs
    rw [ram_instructions_refused K H th opcodes results len h hs]
    exact ⟨rfl, rfl⟩

end

theorem map_instruction_injective (l l2 : List ram_call)
    (h : l.map hook_call.instruction = l2.map hook_call.instruction) : l = l2 := by
  have := congrArg ram_calls h
  simpa [ram_calls_map_instruction] using this

section
variable {σ : Type} (K : chip_h) (H : thread_hooks σ) (th : thread σ)
  (opcodes results : List Nat) (len : Int)

/-- C7 (amended): when the transport call of a save iteration (`i = -2`,
`i = -1`) or of a restore iteration (`i = len`, `i = len + 1`) fails, with
whatever code, it is the last transport call of the run, and the return value
is 1 unless the `ram_destroy` hook fails (then that error is returned). -/
theorem ram_instructions_bracket_failure (c : ram_call)
    (hc : c ∈ ram_calls (ram_instructions K H th opcodes results len).log)
    (hrc : c.rc ≠ 0) (hiter : c.iter < 0 ∨ len ≤ c.iter) :
    (ram_calls (ram_instructions K H th opcodes results len).log).getLast? = some c
      ∧ ((∀ d, hook_call.destroy d ∈ (ram_instructions K H th opcodes results len).log → d = 0)
          → (ram_instructions K H th opcodes results len).rc = 1) := by
  obtain ⟨s1, s2, s3⟩ := ram_instructions_log_shape K H th opcodes results len
  by_cases h : th.ram_is_setup = true
  · obtain ⟨l, hl, hrc1, hF⟩ := s1 h
    obtain ⟨l2, hl2, hq⟩ := ram_loop_bracket_failure K H opcodes len (-2) (ram_entry th results [])
    have e : l2 = l := by
      apply map_instruction_injective
      rw [← hF, hl2]; simp [ram_entry]
    subst e
    rw [hl, ram_calls_map_instruction] at hc ⊢
    obtain ⟨q1, q2⟩ := hq c hc hrc hiter
    exact ⟨q1, fun _ => by rw [hrc1, q2]⟩
  · have h : th.ram_is_setup = false := by simpa using h
    by_cases hs : (H.ram_setup th).rc = 0
    · obtain ⟨l, d, hl, hrc1, hF⟩ := s2 h hs
      obtain ⟨l2, hl2, hq⟩ := ram_loop_bracket_failure K H opcodes len (-2)
        (ram_entry (H.ram_setup th).thread results [hook_call.setup 0])
      have e : l2 = l := by
        apply map_instruction_injective
        rw [hF] at hl2
        simpa [ram_entry] using hl2.symm
      subst e
      have hT : ram_calls (ram_instructions K H th opcodes results len).log = l2 := by
        rw [hl]; simp [ram_calls, ram_calls_append, ram_calls_map_instruction]
      rw [hT] at hc ⊢
      obtain ⟨q1, q2⟩ := hq c hc hrc hiter
      refine ⟨q1, fun hd => ?_⟩
      have hd0 : d = 0 := hd d (by rw [hl]; simp)
      rw [hrc1, hd0, q2]; simp
    · obtain ⟨hl, -⟩ := s3 h hs
      rw [hl] at hc
      simp [ram_calls] at hc

/-- C8: the session bracket of `ram_instructions`. With `ram_is_setup` true on
entry the log holds transport calls only; with it false and `ram_setup`
succeeding the log is one `setup`, then the transport calls, then one
`destroy`, whatever the transport calls returned; when `ram_setup` fails the
log is that call alone and its error is returned. -/
theorem ram_instructions_session_bracket :
    (th.ram_is_setup = true →
      ∃ l : List ram_call,
        (ram_instructions K H th opcodes results len).log = l.map hook_call.instruction)
    ∧ (th.ram_is_setup = false → (H.ram_setup th).rc = 0 →
      ∃ (l : List ram_call) (d : Int),
        (ram_instructions K H th opcodes results len).log
            = hook_call.setup 0 :: l.map hook_call.instruction ++ [hook_call.destroy d])
    ∧ (th.ram_is_setup = false → (H.ram_setup th).rc ≠ 0 →
        (ram_instructions K H th opcodes results len).log
            = [hook_call.setup (H.ram_setup th).rc]
          ∧ (ram_instructions K H th opcodes results len).rc = (H.ram_setup th).rc) := by
  obtain ⟨s1, s2, s3⟩ := ram_instructions_log_shape K H th opcodes results len
  refine ⟨fun h => ?_, fun h hs => ?_, s3⟩
  · obtain ⟨l, hl, -, -⟩ := s1 h
    exact ⟨l, hl⟩
  · obtain ⟨l, d, hl, -, -⟩ := s2 h hs
    exact ⟨l, d, hl⟩

/-- C9: when the log of `ram_instructions` holds a `ram_destroy` call that
returned `d ≠ 0` (the sequencer opened the session itself and the teardown
failed), the return value is `d`, whatever the transport calls returned. -/
theorem ram_instructions_destroy_error (d : Int)
    (hd : hook_call.destroy d ∈ (ram_instructions K H th opcodes results len).log)
    (hne : d ≠ 0) :
    (ram_instructions K H th opcodes results len).rc = d := by
  obtain ⟨s1, s2, s3⟩ := ram_instructions_log_shape K H th opcodes results len
  by_cases h : th.ram_is_setup = true
  · obtain ⟨l, hl, -, -⟩ := s1 h
    rw [hl] at hd
    simp at hd
  · have h : th.ram_is_setup = false := by simpa using h
    by_cases hs : (H.ram_setup th).rc = 0
    · obtain ⟨l, d2, hl, hrc1, -⟩ := s2 h hs
      rw [hl] at hd
      have e : d = d2 := by simpa using hd
      subst e
      rw [hrc1]; simp [hne]
    · obtain ⟨hl, -⟩ := s3 h hs
      rw [hl] at hd
      simp at hd

end

/-- Counterexample to C7 as stated: the save of r1 fails with code 5 on a
scripted thread; it is the only transport call, and the return value is 1,
not 5. -/
theorem ram_instructions_bracket_failure_counterexample :
    ram_calls (ram_instructions power_isa (scripted_hooks 0 0 [(5, 0)]) fresh_thread
        [5, 6, 7] [0, 0, 0] 3).log = [⟨-2, mtspr power_isa 277 1, 0, 5, 0⟩]
      ∧ (ram_instructions power_isa (scripted_hooks 0 0 [(5, 0)]) fresh_thread
        [5, 6, 7] [0, 0, 0] 3).rc = 1
      ∧ (ram_instructions power_isa (scripted_hooks 0 0 [(5, 0)]) fresh_thread
        [5, 6, 7] [0, 0, 0] 3).rc ≠ 5 := by
  simp [ram_instructions, scripted_hooks, fresh_thread, ram_entry, ram_loop_eq, ram_issue,
    ram_select, ram_store, ram_calls]

/-- Witness of C7 (amended): the restore of r0 fails with code 9 after two
user opcodes. -/
theorem ram_instructions_bracket_failure_witness :
    (ram_calls (ram_instructions power_isa
        (scripted_hooks 0 0 [(0, 11), (0, 10), (0, 1), (0, 2), (9, 3)]) fresh_thread
        [5, 6] [0, 0] 2).log).getLast? = some ⟨2, mfspr power_isa 0 277, 10, 9, 3⟩
      ∧ ((∀ d, hook_call.destroy d ∈ (ram_instructions power_isa
          (scripted_hooks 0 0 [(0, 11), (0, 10), (0, 1), (0, 2), (9, 3)]) fresh_thread
          [5, 6] [0, 0] 2).log → d = 0)
          → (ram_instructions power_isa
              (scripted_hooks 0 0 [(0, 11), (0, 10), (0, 1), (0, 2), (9, 3)]) fresh_thread
              [5, 6] [0, 0] 2).rc = 1) :=
  ram_instructions_bracket_failure power_isa
    (scripted_hooks 0 0 [(0, 11), (0, 10), (0, 1), (0, 2), (9, 3)]) fresh_thread
    [5, 6] [0, 0] 2 ⟨2, mfspr power_isa 0 277, 10, 9, 3⟩
    (by
      simp [ram_instructions, scripted_hooks, fresh_thread, ram_entry, ram_loop_eq, ram_issue,
        ram_select, ram_store, ram_calls])
    (by decide) (by decide)

/-- Witness of C8: a thread with an open session, a thread that gets its
session opened, and a thread whose `ram_setup` fails with code 3. -/
theorem ram_instructions_session_bracket_witness :
    (∃ l : List ram_call,
        (ram_instructions power_isa (scripted_hooks 0 0 [])
          ⟨0, idle_status, true, 0⟩ [5] [0] 1).log = l.map hook_call.instruction)
    ∧ (∃ (l : List ram_call) (d : Int),
        (ram_instructions power_isa (scripted_hooks 0 0 [(0, 1), (0, 2), (4, 3)])
          fresh_thread [5] [0] 1).log
            = hook_call.setup 0 :: l.map hook_call.instruction ++ [hook_call.destroy d])
    ∧ ((ram_instructions power_isa (scripted_hooks 3 0 []) fresh_thread [5] [0] 1).log
            = [hook_call.setup 3]
          ∧ (ram_instructions power_isa (scripted_hooks 3 0 []) fresh_thread [5] [0] 1).rc = 3) :=
  ⟨(ram_instructions_session_bracket power_isa (scripted_hooks 0 0 [])
      ⟨0, idle_status, true, 0⟩ [5] [0] 1).1 rfl,
   (ram_instructions_session_bracket power_isa (scripted_hooks 0 0 [(0, 1), (0, 2), (4, 3)])
      fresh_thread [5] [0] 1).2.1 rfl rfl,
   (ram_instructions_session_bracket power_isa (scripted_hooks 3 0 [])
      fresh_thread [5] [0] 1).2.2 rfl (by decide)⟩

/-- Witness of C9: every transport call succeeds and `ram_destroy` fails with
code 7. -/
theorem ram_instructions_destroy_error_witness :
    (ram_instructions power_isa (scripted_hooks 0 7 []) fresh_thread [5, 6] [0, 0] 2).rc = 7 :=
  ram_instructions_destroy_error power_isa (scripted_hooks 0 7 []) fresh_thread [5, 6] [0, 0] 2 7
    (by
      simp [ram_instructions, scripted_hooks, fresh_thread, ram_entry, ram_loop_eq, ram_issue,
        ram_select, ram_store])
    (by decide)

/-! ## The encoders `mfspr` and `mtspr` -/

theorem testBit_of_lt_two_pow (x k j : Nat) (h : x < 2 ^ k) (hj : k ≤ j) : x.testBit j = false :=
  Nat.testBit_lt_two_pow (lt_of_lt_of_le h (Nat.pow_le_pow_right (by norm_num) hj))

theorem testBit_0x1f (j : Nat) : (0x1f : Nat).testBit j = decide (j < 5) := by
  have : (0x1f : Nat) = 2 ^ 5 - 1 := by norm_num
  rw [this, Nat.testBit_two_pow_sub_one]

theorem testBit_0x3e0 (j : Nat) : (0x3e0 : Nat).testBit j = (decide (5 ≤ j) && decide (j < 10)) := by
  have : (0x3e0 : Nat) = (2 ^ 5 - 1) <<< 5 := by decide
  rw [this, Nat.testBit_shiftLeft, Nat.testBit_two_pow_sub_one]
  by_cases h : 5 ≤ j
  · simp [h]; omega
  · simp [h]

theorem testBit_operand_mask (j : Nat) :
    (0x03FFF800 : Nat).testBit j = (decide (11 ≤ j) && decide (j < 26)) := by
  have : (0x03FFF800 : Nat) = (2 ^ 15 - 1) <<< 11 := by decide
  rw [this, Nat.testBit_shiftLeft, Nat.testBit_two_pow_sub_one]
  by_cases h : 11 ≤ j
  · simp [h]; omega
  · simp [h]

/-- The bits of an SPR-form instruction word built on the base word `b`. -/
theorem testBit_spr_form (b reg spr j : Nat) (hb : b &&& 0x03FFF800 = 0)
    (hreg : reg < 32) (hspr : spr < 1024) :
    (b ||| u64 (reg <<< 21) ||| ((spr &&& 0x1f) <<< 16) ||| ((spr &&& 0x3e0) <<< 6)).testBit j
      = if j < 11 ∨ 25 < j then b.testBit j
        else if 21 ≤ j then reg.testBit (j - 21)
        else if 16 ≤ j then spr.testBit (j - 16)
        else spr.testBit (j - 6) := by
  have hbj : 11 ≤ j → j < 26 → b.testBit j = false := by
    intro h1 h2
    have := congrArg (fun x => Nat.testBit x j) hb
    simpa [Nat.testBit_land, testBit_operand_mask, h1, h2] using this
  have hr : ∀ m, 5 ≤ m → reg.testBit m = false :=
    fun m hm => testBit_of_lt_two_pow reg 5 m (by norm_num; omega) hm
  have hs : ∀ m, 10 ≤ m → spr.testBit m = false :=
    fun m hm => testBit_of_lt_two_pow spr 10 m (by norm_num; omega) hm
  simp only [Nat.testBit_lor, u64, Nat.testBit_mod_two_pow, Nat.testBit_shiftLeft,
    Nat.testBit_land, testBit_0x1f, testBit_0x3e0]
  by_cases h1 : j < 11
  · have a : ¬ 21 ≤ j := by omega
    have b1 : ¬ 16 ≤ j := by omega
    have c : ¬ 6 ≤ j ∨ ¬ 5 ≤ j - 6 := by omega
    rcases c with c | c <;> simp [h1, a, b1, c]
  · by_cases h2 : 25 < j
    · have a : reg.testBit (j - 21) = false := hr _ (by omega)
      have b1 : ¬ j - 16 < 5 := by omega
      have c : ¬ j - 6 < 10 := by omega
      simp [h2, a, b1, c]
    · have hb0 := hbj (by omega) (by omega)
      by_cases h3 : 21 ≤ j
      · have b1 : ¬ j - 16 < 5 := by omega
        have c : ¬ j - 6 < 10 := by omega
        have d : j < 64 := by omega
        simp [h1, h2, h3, hb0, b1, c, d]
      · by_cases h4 : 16 ≤ j
        · have b1 : j - 16 < 5 := by omega
          have c : ¬ j - 6 < 10 := by omega
          simp [h1, h2, h3, h4, hb0, b1, c]
        · have c1 : 6 ≤ j := by omega
          have c2 : 5 ≤ j - 6 := by omega
          have c3 : j - 6 < 10 := by omega
          simp [h1, h2, h3, h4, hb0, c1, c2, c3]

/-- Decoding an SPR-form word: the three operand fields and the other bits. -/
theorem spr_form_decode (b reg spr : Nat) (hb : b &&& 0x03FFF800 = 0)
    (hreg : reg < 32) (hspr : spr < 1024) :
    ((b ||| u64 (reg <<< 21) ||| ((spr &&& 0x1f) <<< 16) ||| ((spr &&& 0x3e0) <<< 6)) >>> 21) % 32
        = reg
      ∧ ((b ||| u64 (reg <<< 21) ||| ((spr &&& 0x1f) <<< 16) ||| ((spr &&& 0x3e0) <<< 6)) >>> 16)
          % 32 = spr % 32
      ∧ ((b ||| u64 (reg <<< 21) ||| ((spr &&& 0x1f) <<< 16) ||| ((spr &&& 0x3e0) <<< 6)) >>> 11)
          % 32 = spr / 32
      ∧ ∀ j, (j < 11 ∨ 25 < j) →
          (b ||| u64 (reg <<< 21) ||| ((spr &&& 0x1f) <<< 16) ||| ((spr &&& 0x3e0) <<< 6)).testBit j
            = b.testBit j := by
  have hr : ∀ m, 5 ≤ m → reg.testBit m = false :=
    fun m hm => testBit_of_lt_two_pow reg 5 m (by norm_num; omega) hm
  have e32 : (32 : Nat) = 2 ^ 5 := by norm_num
  refine ⟨?_, ?_, ?_, ?_⟩
  · apply Nat.eq_of_testBit_eq
    intro i
    rw [e32, Nat.testBit_mod_two_pow, Nat.testBit_shiftRight,
      testBit_spr_form b reg spr _ hb hreg hspr]
    by_cases hi : i < 5
    · have a : ¬ (21 + i < 11 ∨ 25 < 21 + i) := by omega
      simp [hi, a]
    · simp [hi, hr i (by omega)]
  · apply Nat.eq_of_testBit_eq
    intro i
    rw [e32, Nat.testBit_mod_two_pow, Nat.testBit_mod_two_pow, Nat.testBit_shiftRight,
      testBit_spr_form b reg spr _ hb hreg hspr]
    by_cases hi : i < 5
    · have a : ¬ (16 + i < 11 ∨ 25 < 16 + i) := by omega
      have b1 : ¬ 21 ≤ 16 + i := by omega
      simp [hi, a, b1]
    · simp [hi]
  · apply Nat.eq_of_testBit_eq
    intro i
    have e : spr / 32 = spr >>> 5 := by rw [Nat.shiftRight_eq_div_pow]
    rw [e32, Nat.testBit_mod_two_pow, Nat.testBit_shiftRight,
      testBit_spr_form b reg spr _ hb hreg hspr, ← e32, e, Nat.testBit_shiftRight]
    by_cases hi : i < 5
    · have a : ¬ (11 + i < 11 ∨ 25 < 11 + i) := by omega
      have b1 : ¬ 21 ≤ 11 + i := by omega
      have c : ¬ 16 ≤ 11 + i := by omega
      have d : 11 + i - 6 = 5 + i := by omega
      have a2 : ¬ 25 < 11 + i := by omega
      simp [hi, a2, b1, c, d]
    · have := testBit_of_lt_two_pow spr 10 (5 + i) (by norm_num; omega) (by omega)
      simp [hi, this]
  · intro j hj
    rw [testBit_spr_form b reg spr j hb hreg hspr, if_pos hj]

/-- C5: for `reg` in 0..31 and `spr` in 0..1023, and base words whose operand
bits 11..25 are clear, `mfspr(reg, spr)` and `mtspr(spr, reg)` decode back:
bits 21..25 are `reg`, bits 16..20 the low five bits of `spr`, bits 11..15 the
high five bits of `spr`, every other bit is the bit of the base word; so the
word determines `reg` and `spr`. -/
theorem mfspr_mtspr_decode (K : chip_h) (reg spr : Nat)
    (hf : K.MFSPR_OPCODE &&& 0x03FFF800 = 0) (ht : K.MTSPR_OPCODE &&& 0x03FFF800 = 0)
    (hreg : reg < 32) (hspr : spr < 1024) :
    ((mfspr K reg spr >>> 21) % 32 = reg
        ∧ (mfspr K reg spr >>> 16) % 32 = spr % 32
        ∧ (mfspr K reg spr >>> 11) % 32 = spr / 32
        ∧ ∀ j, (j < 11 ∨ 25 < j) → (mfspr K reg spr).testBit j = K.MFSPR_OPCODE.testBit j)
      ∧ ((mtspr K spr reg >>> 21) % 32 = reg
        ∧ (mtspr K spr reg >>> 16) % 32 = spr % 32
        ∧ (mtspr K spr reg >>> 11) % 32 = spr / 32
        ∧ ∀ j, (j < 11 ∨ 25 < j) → (mtspr K spr reg).testBit j = K.MTSPR_OPCODE.testBit j)
      ∧ (∀ reg2 spr2, reg2 < 32 → spr2 < 1024 → mfspr K reg spr = mfspr K reg2 spr2 →
          reg = reg2 ∧ spr = spr2)
      ∧ (∀ reg2 spr2, reg2 < 32 → spr2 < 1024 → mtspr K spr reg = mtspr K spr2 reg2 →
          reg = reg2 ∧ spr = spr2) := by
  have hF := spr_form_decode K.MFSPR_OPCODE reg spr hf hreg hspr
  have hT := spr_form_decode K.MTSPR_OPCODE reg spr ht hreg hspr
  refine ⟨hF, hT, ?_, ?_⟩
  · intro reg2 spr2 hreg2 hspr2 he
    obtain ⟨a1, a2, a3, -⟩ := hF
    obtain ⟨b1, b2, b3, -⟩ := spr_form_decode K.MFSPR_OPCODE reg2 spr2 hf hreg2 hspr2
    unfold mfspr at he
    rw [he] at a1 a2 a3
    rw [a1] at b1; rw [a2] at b2; rw [a3] at b3
    omega
  · intro reg2 spr2 hreg2 hspr2 he
    obtain ⟨a1, a2, a3, -⟩ := hT
    obtain ⟨b1, b2, b3, -⟩ := spr_form_decode K.MTSPR_OPCODE reg2 spr2 ht hreg2 hspr2
    unfold mtspr at he
    rw [he] at a1 a2 a3
    rw [a1] at b1; rw [a2] at b2; rw [a3] at b3
    omega

/-- Witness of C5: the Power ISA base words, register 1 and SPR 277. -/
theorem mfspr_mtspr_decode_witness :
    ((mfspr power_isa 1 277 >>> 21) % 32 = 1
        ∧ (mfspr power_isa 1 277 >>> 16) % 32 = 277 % 32
        ∧ (mfspr power_isa 1 277 >>> 11) % 32 = 277 / 32
        ∧ ∀ j, (j < 11 ∨ 25 < j) →
            (mfspr power_isa 1 277).testBit j = power_isa.MFSPR_OPCODE.testBit j)
      ∧ ((mtspr power_isa 277 1 >>> 21) % 32 = 1
        ∧ (mtspr power_isa 277 1 >>> 16) % 32 = 277 % 32
        ∧ (mtspr power_isa 277 1 >>> 11) % 32 = 277 / 32
        ∧ ∀ j, (j < 11 ∨ 25 < j) →
            (mtspr power_isa 277 1).testBit j = power_isa.MTSPR_OPCODE.testBit j)
      ∧ (∀ reg2 spr2, reg2 < 32 → spr2 < 1024 →
          mfspr power_isa 1 277 = mfspr power_isa reg2 spr2 → 1 = reg2 ∧ 277 = spr2)
      ∧ (∀ reg2 spr2, reg2 < 32 → spr2 < 1024 →
          mtspr power_isa 277 1 = mtspr power_isa spr2 reg2 → 1 = reg2 ∧ 277 = spr2) :=
  mfspr_mtspr_decode power_isa 1 277 (by decide) (by decide) (by decide) (by decide)

/-! ## The full snapshot -/

theorem sequencer_runs_append (a b : List hook_call) :
    sequencer_runs (a ++ b) = sequencer_runs a + sequencer_runs b := by
  induction a with
  | nil => simp [sequencer_runs]
  | cons e a ih => cases e <;> simp [sequencer_runs, ih, Nat.add_assoc]

theorem sequencer_runs_later (l : List ram_call) (h : ∀ c ∈ l, (-2 : Int) < c.iter) :
    sequencer_runs (l.map hook_call.instruction) = 0 := by
  induction l with
  | nil => rfl
  | cons c l ih =>
    have hc : c.iter ≠ -2 := by
      have := h c (by simp)
      omega
    simp [sequencer_runs, hc, ih (fun c hc => h c (by simp [hc]))]

section
variable {σ : Type} (K : chip_h) (H : thread_hooks σ) (opcodes : List Nat) (len i : Int)
  (st : ram_locals σ)

/-- The calls that the loop entered at `i` makes come from iterations `i` and
later. -/
theorem ram_loop_iters :
    ∃ l : List ram_call,
      (ram_loop K H opcodes len i st).log = st.log ++ l.map hook_call.instruction
        ∧ ∀ c ∈ l, i ≤ c.iter := by
  induction i, st using ram_loop.induct K H opcodes len with
  | case1 i st h r hrc h2 ih =>
    obtain ⟨l, hl, hq⟩ := ih
    rw [ram_loop_user_fail K H opcodes len i st h2.1 h2.2 hrc]
    have e : len - 1 + 1 = len := by omega
    rw [e] at hl hq
    refine ⟨ram_made K H opcodes len i st :: l, by rw [hl]; simp [r], ?_⟩
    intro c hc
    rcases List.mem_cons.1 hc with hc | hc
    · subst hc; simp
    · have := hq c hc; omega
  | case2 i st h r hrc h2 =>
    rw [ram_loop_break K H opcodes len i st h (by omega) hrc]
    exact ⟨[ram_made K H opcodes len i st], by simp, by simp⟩
  | case3 i st h r hrc ih =>
    obtain ⟨l, hl, hq⟩ := ih
    have hrc0 : (ram_issue H i (ram_select K opcodes len i st)).1 = 0 := by
      simpa [r] using hrc
    rw [ram_loop_ok K H opcodes len i st h hrc0]
    refine ⟨ram_made K H opcodes len i st :: l, by rw [hl]; simp [r], ?_⟩
    intro c hc
    rcases List.mem_cons.1 hc with hc | hc
    · subst hc; simp
    · have := hq c hc; omega
  | case4 i st h =>
    exact ⟨[], by rw [ram_loop_done K H opcodes len i st h]; simp, by simp⟩

/-- The loop entered at `-2` makes exactly one call of iteration `-2`. -/
theorem ram_loop_runs (hlen : -4 < len) :
    sequencer_runs (ram_loop K H opcodes len (-2) st).log = sequencer_runs st.log + 1 := by
  have h : (-2 : Int) < len + 2 := by omega
  have key : ∀ (j : Int) (st2 : ram_locals σ), -2 < j →
      st2.log = st.log ++ [hook_call.instruction (ram_made K H opcodes len (-2) st)] →
      sequencer_runs (ram_loop K H opcodes len j st2).log = sequencer_runs st.log + 1 := by
    intro j st2 hj hlog
    obtain ⟨l, hl, hq⟩ := ram_loop_iters K H opcodes len j st2
    rw [hl, hlog, sequencer_runs_append, sequencer_runs_append,
      sequencer_runs_later l (fun c hc => by have := hq c hc; omega)]
    simp [sequencer_runs]
  by_cases hrc : (ram_issue H (-2) (ram_select K opcodes len (-2) st)).1 = 0
  · rw [ram_loop_ok K H opcodes len (-2) st h hrc]
    exact key _ _ (by omega) (by simp)
  · rw [ram_loop_break K H opcodes len (-2) st h (by omega) hrc]
    simp [sequencer_runs_append, sequencer_runs]

end

section
variable {σ : Type} (K : chip_h) (H : thread_hooks σ)

/-- Every run of `ram_instructions` counts once. -/
theorem ram_instructions_runs (th : thread σ) (opcodes results : List Nat) (len : Int)
    (hlen : -4 < len) :
    sequencer_runs (ram_instructions K H th opcodes results len).log = 1 := by
  by_cases h : th.ram_is_setup = true
  · rw [ram_instructions_open K H th opcodes results len h]
    simp only
    rw [ram_loop_runs K H opcodes len _ hlen]
    simp [ram_entry, sequencer_runs]
  · have h : th.ram_is_setup = false := by simpa using h
    by_cases hs : (H.ram_setup th).rc = 0
    · obtain ⟨e1, -, -⟩ := ram_instructions_fresh K H th opcodes results len h hs
      rw [e1, sequencer_runs_append, ram_loop_runs K H opcodes len _ hlen]
      simp [ram_entry, sequencer_runs]
    · rw [ram_instructions_refused K H th opcodes results len h hs]
      simp [sequencer_runs, hs]

theorem ram_getgpr_log (gpr : Nat) (th : thread σ) (v : Nat) :
    (ram_getgpr K H gpr th v).log = (ram_instructions K H th [mtspr K 277 gpr] [0] 1).log := by
  simp only [ram_getgpr]
  split_ifs <;> rfl

@[simp] theorem ram_getgpr_runs (gpr : Nat) (th : thread σ) (v : Nat) :
    sequencer_runs (ram_getgpr K H gpr th v).log = 1 := by
  rw [ram_getgpr_log]
  exact ram_instructions_runs K H th _ _ 1 (by omega)

theorem ram_getnia_log (th : thread σ) (v : Nat) :
    (ram_getnia K H th v).log = (ram_instructions K H th [mfnia K 0, mtspr K 277 0] [0, 0] 2).log := by
  simp only [ram_getnia]
  split_ifs <;> rfl

@[simp] theorem ram_getnia_runs (th : thread σ) (v : Nat) :
    sequencer_runs (ram_getnia K H th v).log = 1 := by
  rw [ram_getnia_log]
  exact ram_instructions_runs K H th _ _ 2 (by omega)

theorem ram_getspr_log (spr : Nat) (th : thread σ) (v : Nat) :
    (ram_getspr K H spr th v).log = (ram_instructions K H th [mfspr K 0 spr, mtspr K 277 0] [0, 0] 2).log := by
  simp only [ram_getspr]
  split_ifs <;> rfl

@[simp] theorem ram_getspr_runs (spr : Nat) (th : thread σ) (v : Nat) :
    sequencer_runs (ram_getspr K H spr th v).log = 1 := by
  rw [ram_getspr_log]
  exact ram_instructions_runs K H th _ _ 2 (by omega)

theorem ram_getmsr_log (th : thread σ) (v : Nat) :
    (ram_getmsr K H th v).log = (ram_instructions K H th [mfmsr K 0, mtspr K 277 0] [0, 0] 2).log := by
  simp only [ram_getmsr]
  split_ifs <;> rfl

@[simp] theorem ram_getmsr_runs (th : thread σ) (v : Nat) :
    sequencer_runs (ram_getmsr K H th v).log = 1 := by
  rw [ram_getmsr_log]
  exact ram_instructions_runs K H th _ _ 2 (by omega)

theorem ram_getcr_log (th : thread σ) (v : Nat) :
    (ram_getcr K H th v).log = (ram_instructions K H th (ram_getcr_opcodes K) (List.replicate 16 0) 16).log := by
  simp only [ram_getcr]
  split_ifs <;> rfl

@[simp] theorem ram_getcr_runs (th : thread σ) (v : Nat) :
    sequencer_runs (ram_getcr K H th v).log = 1 := by
  rw [ram_getcr_log]
  exact ram_instructions_runs K H th _ _ 16 (by omega)

theorem grows_by_trans {j k : Nat} {a b c : List hook_call} (h1 : grows_by j a b)
    (h2 : grows_by k b c) : grows_by (j + k) a c := by
  obtain ⟨⟨l1, e1⟩, r1⟩ := h1
  obtain ⟨⟨l2, e2⟩, r2⟩ := h2
  exact ⟨⟨l1 ++ l2, by rw [e2, e1, List.append_assoc]⟩, by rw [r2, r1]; omega⟩

theorem read_into_grows (acc : thread σ → Nat → accessor_outcome σ)
    (hacc : ∀ t v, sequencer_runs (acc t v).log = 1) (w : session σ) (dst : Nat) :
    grows_by 1 w.log (read_into acc w dst).2.log :=
  ⟨⟨_, rfl⟩, by simp [read_into, sequencer_runs_append, hacc]⟩

theorem read_xer_grows (w : session σ) (dst : Nat) :
    grows_by 0 w.log (read_xer H w dst).2.log :=
  ⟨⟨_, rfl⟩, by simp [read_xer, sequencer_runs_append, sequencer_runs]⟩

theorem read_gprs_grows (n : Nat) : ∀ a : List Nat × session σ,
    grows_by n a.2.log (read_gprs K H n a).2.log := by
  induction n with
  | zero => intro a; exact ⟨⟨[], by simp [read_gprs]⟩, by simp [read_gprs]⟩
  | succ n ih =>
    intro a
    rw [read_gprs]
    have h1 := read_into_grows (ram_getgpr K H (32 - (n + 1))) (ram_getgpr_runs K H _) a.2
      (a.1.getD (32 - (n + 1)) 0)
    have h2 := ih (a.1.set (32 - (n + 1)) (read_into (ram_getgpr K H (32 - (n + 1))) a.2
          (a.1.getD (32 - (n + 1)) 0)).1,
        (read_into (ram_getgpr K H (32 - (n + 1))) a.2 (a.1.getD (32 - (n + 1)) 0)).2)
    have := grows_by_trans h1 h2
    rwa [Nat.add_comm] at this

end

section
variable {σ : Type} (K : chip_h) (S : sprs_h) (H : thread_hooks σ)

theorem grows_by_refl (a : List hook_call) : grows_by 0 a a :=
  ⟨⟨[], by simp⟩, by simp⟩

theorem grows_into {k : Nat} {a : List hook_call} (acc : thread σ → Nat → accessor_outcome σ)
    (hacc : ∀ t v, sequencer_runs (acc t v).log = 1) (w : session σ) (dst : Nat)
    (h : grows_by k a w.log) : grows_by (k + 1) a (read_into acc w dst).2.log :=
  grows_by_trans h (read_into_grows acc hacc w dst)

theorem grows_xer {k : Nat} {a : List hook_call} (w : session σ) (dst : Nat)
    (h : grows_by k a w.log) : grows_by k a (read_xer H w dst).2.log :=
  grows_by_trans h (read_xer_grows H w dst)

theorem grows_gprs {k : Nat} {a : List hook_call} (n : Nat) (g : List Nat) (w : session σ)
    (h : grows_by k a w.log) : grows_by (k + n) a (read_gprs K H n (g, w)).2.log :=
  grows_by_trans h (read_gprs_grows K H n (g, w))

/-- The reads of the snapshot run the sequencer 65 times, whatever the
accessors return, and only append to the log. -/
theorem ram_getregs_reads_grows (w : session σ) (regs : thread_regs) :
    grows_by 65 w.log (ram_getregs_reads K S H w regs).2.log := by
  simp only [ram_getregs_reads]
  iterate 26 apply grows_into _ (by simp)
  apply grows_gprs
  apply grows_xer
  iterate 7 apply grows_into _ (by simp)
  exact grows_by_refl _

end

section
variable {σ : Type} (K : chip_h) (S : sprs_h) (H : thread_hooks σ)

/-- The snapshot after a successful `ram_setup`: 65 runs of the sequencer,
the `ram_destroy` call last, and its result as return value. -/
theorem ram_getregs_outcome (th : thread σ) (regs : thread_regs)
    (hs : (H.ram_setup th).rc = 0) :
    sequencer_runs (ram_getregs K S H th regs).log = 65
      ∧ ∃ (l : List hook_call) (d : Int),
          (ram_getregs K S H th regs).log = hook_call.setup 0 :: l ++ [hook_call.destroy d]
            ∧ (ram_getregs K S H th regs).rc = d := by
  obtain ⟨⟨l, hl⟩, hr⟩ := ram_getregs_reads_grows K S H
    { thread := (H.ram_setup th).thread, log := [hook_call.setup (H.ram_setup th).rc] } regs
  simp only [hs] at hl hr
  have hlog : (ram_getregs K S H th regs).log
      = hook_call.setup 0 :: l ++ [hook_call.destroy (H.ram_destroy (ram_getregs_reads K S H
          { thread := (H.ram_setup th).thread, log := [hook_call.setup 0] } regs).2.thread).rc] := by
    simp only [ram_getregs, hs]
    split_ifs with h1 h2
    · exact absurd rfl h1
    · simp [hl]
    · simp [hl]
  refine ⟨?_, l, _, hlog, ?_⟩
  · rw [hlog]
    have : hook_call.setup 0 :: l = [hook_call.setup 0] ++ l := rfl
    rw [this, ← hl, sequencer_runs_append, hr]
    simp [sequencer_runs]
  · simp only [ram_getregs, hs]
    split_ifs with h1 h2
    · simp at h1
    · rfl
    · simp at h2 ⊢; exact h2.symm

/-- C6 (amended): `ram_getregs` does not look at what the accessors return.
After a successful `ram_setup` it runs the sequencer for all 65 register
reads whatever they return, calls `ram_destroy` last, and returns the result
of `ram_destroy`: 0 when the teardown succeeds, even if accessors failed. -/
theorem ram_getregs_ignores_accessor_errors (th : thread σ) (regs : thread_regs)
    (hs : (H.ram_setup th).rc = 0) :
    sequencer_runs (ram_getregs K S H th regs).log = 65
      ∧ ∃ (l : List hook_call) (d : Int),
          (ram_getregs K S H th regs).log = hook_call.setup 0 :: l ++ [hook_call.destroy d]
            ∧ (ram_getregs K S H th regs).rc = d :=
  ram_getregs_outcome K S H th regs hs

end

/-- Counterexample to C6 as stated: on a thread whose transport fails on
every call, the first accessor `ram_getnia` fails, and still the sequencer is
run for all 65 reads and `ram_getregs` returns 0. -/
theorem ram_getregs_counterexample :
    (ram_getnia power_isa (stuck_hooks 5) ((stuck_hooks 5).ram_setup fresh_thread).thread 0).rc = 1
      ∧ sequencer_runs (ram_getregs power_isa power_sprs (stuck_hooks 5) fresh_thread
          zero_regs).log = 65
      ∧ (ram_getregs power_isa power_sprs (stuck_hooks 5) fresh_thread zero_regs).rc = 0 := by
  refine ⟨?_, ?_, ?_⟩
  · simp [ram_getnia, ram_instructions, stuck_hooks, fresh_thread, ram_entry, ram_loop_eq,
      ram_issue, ram_select, ram_store]
  · exact (ram_getregs_outcome power_isa power_sprs (stuck_hooks 5) fresh_thread zero_regs rfl).1
  · simp only [ram_getregs]
    split_ifs with h1 h2
    · exact absurd rfl h1
    · exact absurd rfl h2
    · rfl

/-- Witness of C6 (amended): the thread whose transport fails on every call. -/
theorem ram_getregs_ignores_accessor_errors_witness :
    sequencer_runs (ram_getregs power_isa power_sprs (stuck_hooks 5) fresh_thread
        zero_regs).log = 65
      ∧ ∃ (l : List hook_call) (d : Int),
          (ram_getregs power_isa power_sprs (stuck_hooks 5) fresh_thread zero_regs).log
              = hook_call.setup 0 :: l ++ [hook_call.destroy d]
            ∧ (ram_getregs power_isa power_sprs (stuck_hooks 5) fresh_thread zero_regs).rc = d :=
  ram_getregs_ignores_accessor_errors power_isa power_sprs (stuck_hooks 5) fresh_thread
    zero_regs rfl

/-! ## The condition register -/

theorem testBit_0xf (j : Nat) : (0xf : Nat).testBit j = decide (j < 4) := by
  have : (0xf : Nat) = 2 ^ 4 - 1 := by norm_num
  rw [this, Nat.testBit_two_pow_sub_one]

/-- The bits of the 32-bit field mask `0xf << s`. -/
theorem testBit_field_mask (s j : Nat) (hs : s ≤ 28) :
    (u32 (0xf <<< s)).testBit j = (decide (s ≤ j) && decide (j < s + 4)) := by
  rw [u32, Nat.testBit_mod_two_pow, Nat.testBit_shiftLeft, testBit_0xf]
  by_cases h1 : s ≤ j
  · by_cases h2 : j < s + 4
    · have a : j < 32 := by omega
      have b : j - s < 4 := by omega
      simp [h1, h2, a, b]
    · have b : ¬ j - s < 4 := by omega
      simp [h1, h2, b]
  · simp [h1]

/-- The bits added by one pass of the loop of `ram_getcr`. -/
theorem testBit_ram_getcr_body (results : List Nat) (cr i j : Nat) (hi : 2 * (i - 1) ≤ 28) :
    (ram_getcr_body results cr i).testBit j
      = (cr.testBit j || (decide (j < 32) && (results.getD i 0).testBit j
          && (decide (2 * (i - 1) ≤ j) && decide (j < 2 * (i - 1) + 4)))) := by
  rw [ram_getcr_body, Nat.testBit_lor, Nat.testBit_land, testBit_field_mask _ _ hi, u32,
    Nat.testBit_mod_two_pow]

/-- Bit `j` of the word assembled by `ram_getcr` is bit `j` of the capture of
the field that `j` lies in. -/
theorem testBit_ram_getcr_loop (results : List Nat) (j : Nat) :
    (ram_getcr_loop results).testBit j
      = (decide (j < 32) && (results.getD (2 * (j / 4) + 1) 0).testBit j) := by
  simp only [ram_getcr_loop, List.foldl]
  rw [testBit_ram_getcr_body _ _ _ _ (by norm_num), testBit_ram_getcr_body _ _ _ _ (by norm_num),
    testBit_ram_getcr_body _ _ _ _ (by norm_num), testBit_ram_getcr_body _ _ _ _ (by norm_num),
    testBit_ram_getcr_body _ _ _ _ (by norm_num), testBit_ram_getcr_body _ _ _ _ (by norm_num),
    testBit_ram_getcr_body _ _ _ _ (by norm_num), testBit_ram_getcr_body _ _ _ _ (by norm_num)]
  by_cases h : j < 32
  · interval_cases j <;> simp
  · simp [h]

/-- The word assembled by `ram_getcr` from captures that agree with `V` on
their own field. -/
theorem ram_getcr_loop_eq (results : List Nat) (V : Nat) (hV : V < 2 ^ 32)
    (hf : ∀ k j, k < 8 → 4 * k ≤ j → j < 4 * k + 4 →
      (results.getD (2 * k + 1) 0).testBit j = V.testBit j) :
    ram_getcr_loop results = V := by
  apply Nat.eq_of_testBit_eq
  intro j
  rw [testBit_ram_getcr_loop]
  by_cases h : j < 32
  · rw [hf (j / 4) j (by omega) (by omega) (by omega)]
    simp [h]
  · rw [testBit_of_lt_two_pow V 32 j hV (by omega)]
    simp [h]

/-- The loop of `ram_getcr` computes the word of the spec. -/
theorem ram_getcr_loop_spec (results : List Nat) :
    ram_getcr_loop results = cr_of_captures results := by
  apply Nat.eq_of_testBit_eq
  intro j
  rw [testBit_ram_getcr_loop]
  simp only [cr_of_captures, u32, Nat.testBit_mod_two_pow, List.range, List.range.loop,
    List.foldl, Nat.testBit_lor, Nat.testBit_land, Nat.testBit_shiftLeft, testBit_0xf]
  by_cases h : j < 32
  · interval_cases j <;> simp
  · simp [h]

section
variable {σ : Type} (K : chip_h) (H : thread_hooks σ)

/-- C4: in a successful run of `ram_getcr` in which the capture of field `k`
(result slot `2k + 1`) agrees with the 32-bit value `V` on bits `4k..4k+3`,
whatever its other bits, `ram_getcr` returns 0 and yields `V`; the value it
yields is the OR over `k` of (capture `k` AND `0xF << 4k`), truncated to 32
bits. -/
theorem ram_getcr_reassembles (th : thread σ) (value V : Nat) (hV : V < 2 ^ 32)
    (hrc : (ram_instructions K H th (ram_getcr_opcodes K) (List.replicate 16 0) 16).rc = 0)
    (hf : ∀ k j, k < 8 → 4 * k ≤ j → j < 4 * k + 4 →
      ((ram_instructions K H th (ram_getcr_opcodes K) (List.replicate 16 0) 16).results.getD
        (2 * k + 1) 0).testBit j = V.testBit j) :
    (ram_getcr K H th value).rc = 0
      ∧ (ram_getcr K H th value).value = V
      ∧ (ram_getcr K H th value).value
          = cr_of_captures
              (ram_instructions K H th (ram_getcr_opcodes K) (List.replicate 16 0) 16).results := by
  have e : ram_getcr K H th value
      = { rc := 0,
          value := ram_getcr_loop
            (ram_instructions K H th (ram_getcr_opcodes K) (List.replicate 16 0) 16).results,
          thread := (ram_instructions K H th (ram_getcr_opcodes K) (List.replicate 16 0) 16).thread,
          log := (ram_instructions K H th (ram_getcr_opcodes K) (List.replicate 16 0) 16).log } := by
    simp only [ram_getcr, hrc]
    simp
  rw [e]
  exact ⟨rfl, ram_getcr_loop_eq _ V hV hf, ram_getcr_loop_spec _⟩

end

/-- Witness of C4: `V = 0x12345678`, every capture has all its other bits set. -/
theorem ram_getcr_reassembles_witness :
    (ram_getcr power_isa (scripted_hooks 0 0 garbage_cr_script) fresh_thread 0).rc = 0
      ∧ (ram_getcr power_isa (scripted_hooks 0 0 garbage_cr_script) fresh_thread 0).value
          = 0x12345678
      ∧ (ram_getcr power_isa (scripted_hooks 0 0 garbage_cr_script) fresh_thread 0).value
          = cr_of_captures
              (ram_instructions power_isa (scripted_hooks 0 0 garbage_cr_script) fresh_thread
                (ram_getcr_opcodes power_isa) (List.replicate 16 0) 16).results := by
  have hR : (ram_instructions power_isa (scripted_hooks 0 0 garbage_cr_script) fresh_thread
      (ram_getcr_opcodes power_isa) (List.replicate 16 0) 16).results
      = [0xdead0000, 0xfffffffffffffff8, 0xdead0001, 0xffffffffffffff7f, 0xdead0002,
          0xfffffffffffff6ff, 0xdead0003, 0xffffffffffff5fff, 0xdead0004, 0xfffffffffff4ffff,
          0xdead0005, 0xffffffffff3fffff, 0xdead0006, 0xfffffffff2ffffff, 0xdead0007,
          0xffffffff1fffffff] := by
    simp [ram_instructions, scripted_hooks, garbage_cr_script, fresh_thread, ram_entry,
      ram_loop_eq, ram_issue, ram_select, ram_store, ram_getcr_opcodes, List.replicate]
  exact ram_getcr_reassembles power_isa (scripted_hooks 0 0 garbage_cr_script) fresh_thread 0
    0x12345678 (by norm_num)
    (by
      simp [ram_instructions, scripted_hooks, garbage_cr_script, fresh_thread, ram_entry,
        ram_loop_eq, ram_issue, ram_select, ram_store, ram_getcr_opcodes, List.replicate])
    (by
      intro k j hk h1 h2
      rw [hR]
      interval_cases k <;> interval_cases j <;> decide)

/-! ## The register round trip -/

theorem mtspr_277_0 : mtspr power_isa 277 0 = 0x7c1543a6 := by decide
theorem mtspr_277_1 : mtspr power_isa 277 1 = 0x7c3543a6 := by decide
theorem mfspr_0_277 : mfspr power_isa 0 277 = 0x7c1542a6 := by decide
theorem mfspr_1_277 : mfspr power_isa 1 277 = 0x7c3542a6 := by decide
theorem mtspr_277_5 : mtspr power_isa 277 5 = 0x7cb543a6 := by decide
theorem mfspr_5_277 : mfspr power_isa 5 277 = 0x7cb542a6 := by decide

/-- C3 at `r = 0`: on the simulated thread with every register holding 7,
`ram_putgpr(thread, 0, 42)` returns 0, and the following
`ram_getgpr(thread, 0)` returns 0 and yields 7: the restore of r0 at the end
of `ram_putgpr` has put the old value back. The same happens at `r = 1`,
while at `r = 5` the value 42 is read back. -/
theorem ram_putgpr_r0_r1_lost :
    (ram_putgpr power_isa (gpr_sim power_isa) 0 (gpr_thread (fun _ => 7)) 42).rc = 0
      ∧ (ram_getgpr power_isa (gpr_sim power_isa) 0
          (ram_putgpr power_isa (gpr_sim power_isa) 0 (gpr_thread (fun _ => 7)) 42).thread 0).rc = 0
      ∧ (ram_getgpr power_isa (gpr_sim power_isa) 0
          (ram_putgpr power_isa (gpr_sim power_isa) 0 (gpr_thread (fun _ => 7)) 42).thread 0).value
          = 7
      ∧ (ram_putgpr power_isa (gpr_sim power_isa) 1 (gpr_thread (fun _ => 7)) 42).rc = 0
      ∧ (ram_getgpr power_isa (gpr_sim power_isa) 1
          (ram_putgpr power_isa (gpr_sim power_isa) 1 (gpr_thread (fun _ => 7)) 42).thread 0).rc = 0
      ∧ (ram_getgpr power_isa (gpr_sim power_isa) 1
          (ram_putgpr power_isa (gpr_sim power_isa) 1 (gpr_thread (fun _ => 7)) 42).thread 0).value
          = 7
      ∧ (ram_getgpr power_isa (gpr_sim power_isa) 5
          (ram_putgpr power_isa (gpr_sim power_isa) 5 (gpr_thread (fun _ => 7)) 42).thread 0).value
          = 42 := by
  simp [ram_putgpr, ram_getgpr, ram_instructions, gpr_sim, gpr_thread, ram_entry, ram_loop_eq,
    ram_issue, ram_select, ram_store, mtspr_277_0, mtspr_277_1, mfspr_0_277, mfspr_1_277, mtspr_277_5, mfspr_5_277,
    Function.update]

/-! ## POWER10 thread start and sreset -/

/-- C10: for a thread whose cached status is not quiesced, `p10_thread_start`
and `p10_thread_sreset` return 1, make no bus access at all (no write, no
read), and leave the thread, its cached status included, as it was. -/
theorem p10_start_sreset_refuse {σ : Type} (U : bitutils_h) (B : pib σ) (th : thread σ)
    (hq : th.status.quiesced = false) :
    (p10_thread_start U B th).rc = 1
      ∧ (p10_thread_start U B th).ops = []
      ∧ (p10_thread_start U B th).thread = th
      ∧ (p10_thread_sreset U B th).rc = 1
      ∧ (p10_thread_sreset U B th).ops = []
      ∧ (p10_thread_sreset U B th).thread = th := by
  simp [p10_thread_start, p10_thread_sreset, hq]

/-- Witness of C10: a running thread on a bus that records its writes. -/
theorem p10_start_sreset_refuse_witness :
    (p10_thread_start ibm_bits echo_bus running_thread).rc = 1
      ∧ (p10_thread_start ibm_bits echo_bus running_thread).ops = []
      ∧ (p10_thread_start ibm_bits echo_bus running_thread).thread = running_thread
      ∧ (p10_thread_sreset ibm_bits echo_bus running_thread).rc = 1
      ∧ (p10_thread_sreset ibm_bits echo_bus running_thread).ops = []
      ∧ (p10_thread_sreset ibm_bits echo_bus running_thread).thread = running_thread :=
  p10_start_sreset_refuse ibm_bits echo_bus running_thread rfl

/-! ## The scratch data path -/

section
variable {σ : Type} (K : chip_h) (H : thread_hooks σ) (th : thread σ)
  (opcodes results : List Nat)

/-- A run of the sequencer in which `ram_setup` did not fail and every
transport call succeeds, whatever `ram_destroy` returns: the scratch value
that goes into and comes out of every step. -/
theorem ram_instructions_data_path (hres : results.length = opcodes.length)
    (htrans : ∀ c ∈ ram_calls (ram_instructions K H th opcodes results opcodes.length).log,
      c.rc = 0)
    (hsetup : ∀ rc, hook_call.setup rc
      ∈ (ram_instructions K H th opcodes results opcodes.length).log → rc = 0) :
    ∃ (s1 s0 : ram_call) (U : List ram_call) (c0 c1 : ram_call),
      ram_calls (ram_instructions K H th opcodes results opcodes.length).log
          = [s1, s0] ++ U ++ [c0, c1]
        ∧ U.map ram_call.opcode = opcodes
        ∧ U.map ram_call.scratch_in = results
        ∧ (ram_instructions K H th opcodes results opcodes.length).results
            = U.map ram_call.scratch_out
        ∧ s1.scratch_in = 0 ∧ s0.scratch_in = s1.scratch_out
        ∧ c0.scratch_in = s0.scratch_out ∧ c1.scratch_in = s1.scratch_out := by
  by_cases h : th.ram_is_setup = true
  · rw [ram_instructions_open K H th opcodes results _ h] at htrans ⊢
    simp only at htrans ⊢
    obtain ⟨s1, s0, U, c0, c1, hlog, -, a1, -, -, a2, -, hU1, hU2, hU3, -, -, b2, -, -, b4, -, -⟩ :=
      ram_loop_all_ok K H opcodes (ram_entry th results []) hres (by
        intro m c hm
        exact htrans _ (List.getElem?_mem hm))
    refine ⟨s1, s0, U, c0, c1, ?_, hU1, hU2, hU3, a1, a2, b2, b4⟩
    rw [hlog, ram_calls_append, ram_calls_map_instruction]; simp [ram_entry, ram_calls]
  · have h : th.ram_is_setup = false := by simpa using h
    have hs : (H.ram_setup th).rc = 0 := by
      by_contra hs
      rw [ram_instructions_refused K H th opcodes results _ h hs] at hsetup
      exact hs (hsetup _ (by simp))
    obtain ⟨e1, e2, -⟩ := ram_instructions_fresh K H th opcodes results opcodes.length h hs
    rw [e1] at htrans
    rw [e1, e2]
    obtain ⟨s1, s0, U, c0, c1, hlog, -, a1, -, -, a2, -, hU1, hU2, hU3, -, -, b2, -, -, b4, -, -⟩ :=
      ram_loop_all_ok K H opcodes (ram_entry (H.ram_setup th).thread results [hook_call.setup 0])
        hres (by
        intro m c hm
        apply htrans
        rw [ram_calls_append]
        exact List.mem_append_left _ (List.getElem?_mem hm))
    refine ⟨s1, s0, U, c0, c1, ?_, hU1, hU2, hU3, a1, a2, b2, b4⟩
    rw [hlog]
    simp [ram_calls_append, ram_calls_map_instruction, ram_entry, ram_calls]

/-- C17: in a run of `ram_instructions` with no transport failure (and a
session that could be opened), the transport calls are two saves, the `N` user
steps and two restores; user step `k` is issued with the caller's `results[k]`
as scratch input and `results[k]` holds the scratch value it returned; the
save and restore steps take their scratch input from the locals (0, the
previous scratch, the saved r0, the saved r1), never from a result slot, and
write no result slot. -/
theorem ram_instructions_scratch_data_path (hres : results.length = opcodes.length)
    (htrans : ∀ c ∈ ram_calls (ram_instructions K H th opcodes results opcodes.length).log,
      c.rc = 0)
    (hsetup : ∀ rc, hook_call.setup rc
      ∈ (ram_instructions K H th opcodes results opcodes.length).log → rc = 0) :
    ∃ (s1 s0 : ram_call) (U : List ram_call) (c0 c1 : ram_call),
      ram_calls (ram_instructions K H th opcodes results opcodes.length).log
          = [s1, s0] ++ U ++ [c0, c1]
        ∧ U.length = opcodes.length
        ∧ (∀ k, k < opcodes.length →
            (U[k]?).map ram_call.scratch_in = results[k]?
              ∧ (ram_instructions K H th opcodes results opcodes.length).results[k]?
                  = (U[k]?).map ram_call.scratch_out)
        ∧ (ram_instructions K H th opcodes results opcodes.length).results.length
            = opcodes.length
        ∧ s1.scratch_in = 0 ∧ s0.scratch_in = s1.scratch_out
        ∧ c0.scratch_in = s0.scratch_out ∧ c1.scratch_in = s1.scratch_out := by
  obtain ⟨s1, s0, U, c0, c1, hT, hU1, hU2, hU3, a1, a2, b2, b4⟩ :=
    ram_instructions_data_path K H th opcodes results hres htrans hsetup
  have hlen : U.length = opcodes.length := by rw [← hU1]; simp
  refine ⟨s1, s0, U, c0, c1, hT, hlen, ?_, by rw [hU3]; simp [hlen], a1, a2, b2, b4⟩
  intro k _
  constructor
  · rw [← hU2]; simp
  · rw [hU3]; simp

end

/-- Witness of C17: two user steps on a scripted thread. -/
theorem ram_instructions_scratch_data_path_witness :
    ∃ (s1 s0 : ram_call) (U : List ram_call) (c0 c1 : ram_call),
      ram_calls (ram_instructions power_isa
          (scripted_hooks 0 0 [(0, 11), (0, 10), (0, 50), (0, 51)]) fresh_thread
          [5, 6] [70, 71] ([5, 6] : List Nat).length).log
          = [s1, s0] ++ U ++ [c0, c1]
        ∧ U.length = ([5, 6] : List Nat).length
        ∧ (∀ k, k < ([5, 6] : List Nat).length →
            (U[k]?).map ram_call.scratch_in = ([70, 71] : List Nat)[k]?
              ∧ (ram_instructions power_isa
                  (scripted_hooks 0 0 [(0, 11), (0, 10), (0, 50), (0, 51)]) fresh_thread
                  [5, 6] [70, 71] ([5, 6] : List Nat).length).results[k]?
                  = (U[k]?).map ram_call.scratch_out)
        ∧ (ram_instructions power_isa
            (scripted_hooks 0 0 [(0, 11), (0, 10), (0, 50), (0, 51)]) fresh_thread
            [5, 6] [70, 71] ([5, 6] : List Nat).length).results.length
            = ([5, 6] : List Nat).length
        ∧ s1.scratch_in = 0 ∧ s0.scratch_in = s1.scratch_out
        ∧ c0.scratch_in = s0.scratch_out ∧ c1.scratch_in = s1.scratch_out :=
  ram_instructions_scratch_data_path power_isa
    (scripted_hooks 0 0 [(0, 11), (0, 10), (0, 50), (0, 51)]) fresh_thread [5, 6] [70, 71] rfl
    (by
      simp [ram_instructions, scripted_hooks, fresh_thread, ram_entry, ram_loop_eq, ram_issue,
        ram_select, ram_store, ram_calls])
    (by
      intro rc hrc
      simp [ram_instructions, scripted_hooks, fresh_thread, ram_entry, ram_loop_eq, ram_issue,
        ram_select, ram_store] at hrc
      exact hrc)

/-! ## Register preservation by the bracket -/

section
variable {σ : Type} (K : chip_h) (H : thread_hooks σ) (opcodes : List Nat) (len i : Int)
  (st : ram_locals σ)

theorem ram_store_keeps_r0_r1 (h0 : 0 ≤ i) :
    (ram_store len i st).r0 = st.r0 ∧ (ram_store len i st).r1 = st.r1 := by
  have a : ¬ i = -2 := by omega
  have b : ¬ i = -1 := by omega
  unfold ram_store
  simp only [a, b, if_false]
  split_ifs <;> exact ⟨rfl, rfl⟩

/-- From the first user iteration on, a call of iteration `len` is fed the
local `r0` and a call of iteration `len + 1` the local `r1`, with the restore
opcodes, on every path. -/
theorem ram_loop_restore_inputs (hlen : 0 ≤ len) (h0 : 0 ≤ i) :
    ∃ l : List ram_call,
      (ram_loop K H opcodes len i st).log = st.log ++ l.map hook_call.instruction
        ∧ ∀ c ∈ l,
            (c.iter = len → c.scratch_in = st.r0 ∧ c.opcode = mfspr K 0 277)
              ∧ (c.iter = len + 1 → c.scratch_in = st.r1 ∧ c.opcode = mfspr K 1 277) := by
  induction i, st using ram_loop.induct K H opcodes len with
  | case1 i st h r hrc h2 ih =>
    obtain ⟨l, hl, hq⟩ := ih (by omega)
    rw [ram_loop_user_fail K H opcodes len i st h2.1 h2.2 hrc]
    have e : len - 1 + 1 = len := by omega
    rw [e] at hl
    have k0 : ∀ s : ram_locals σ, (ram_store len (len - 1) s).r0 = s.r0 :=
      fun s => (ram_store_keeps_r0_r1 len (len - 1) s (by omega)).1
    have k1 : ∀ s : ram_locals σ, (ram_store len (len - 1) s).r1 = s.r1 :=
      fun s => (ram_store_keeps_r0_r1 len (len - 1) s (by omega)).2
    refine ⟨ram_made K H opcodes len i st :: l, by rw [hl]; simp [r], ?_⟩
    intro c hc
    rcases List.mem_cons.1 hc with hc | hc
    · subst hc
      simp only [ram_made_iter]
      exact ⟨fun hh => by omega, fun hh => by omega⟩
    · have := hq c hc
      simp only [r, k0, k1, ram_issue_r0, ram_issue_r1] at this
      exact this
  | case2 i st h r hrc h2 =>
    rw [ram_loop_break K H opcodes len i st h (by omega) hrc]
    refine ⟨[ram_made K H opcodes len i st], by simp, ?_⟩
    intro c hc
    simp only [List.mem_singleton] at hc
    subst hc
    simp only [ram_made_iter]
    constructor
    · intro hh; subst hh
      exact ⟨(ram_made_restore_r0 K H opcodes i st hlen).2,
        (ram_made_restore_r0 K H opcodes i st hlen).1⟩
    · intro hh; subst hh
      exact ⟨(ram_made_restore_r1 K H opcodes len st hlen).2,
        (ram_made_restore_r1 K H opcodes len st hlen).1⟩
  | case3 i st h r hrc ih =>
    obtain ⟨l, hl, hq⟩ := ih (by omega)
    have hrc0 : (ram_issue H i (ram_select K opcodes len i st)).1 = 0 := by
      simpa [r] using hrc
    rw [ram_loop_ok K H opcodes len i st h hrc0]
    have k0 : ∀ s : ram_locals σ, (ram_store len i s).r0 = s.r0 :=
      fun s => (ram_store_keeps_r0_r1 len i s h0).1
    have k1 : ∀ s : ram_locals σ, (ram_store len i s).r1 = s.r1 :=
      fun s => (ram_store_keeps_r0_r1 len i s h0).2
    refine ⟨ram_made K H opcodes len i st :: l, by rw [hl]; simp [r], ?_⟩
    intro c hc
    rcases List.mem_cons.1 hc with hc | hc
    · subst hc
      simp only [ram_made_iter]
      constructor
      · intro hh; subst hh
        exact ⟨(ram_made_restore_r0 K H opcodes i st hlen).2,
          (ram_made_restore_r0 K H opcodes i st hlen).1⟩
      · intro hh; subst hh
        exact ⟨(ram_made_restore_r1 K H opcodes len st hlen).2,
          (ram_made_restore_r1 K H opcodes len st hlen).1⟩
    · have := hq c hc
      simp only [r, k0, k1, ram_issue_r0, ram_issue_r1] at this
      exact this
  | case4 i st h =>
    exact ⟨[], by rw [ram_loop_done K H opcodes len i st h]; simp, by simp⟩

/-- The loop entered at `-2` when both save calls succeed: the two save calls,
then calls whose restore inputs are the scratch values the saves returned. -/
theorem ram_loop_bracket_values (hlen : 0 ≤ len)
    (hr : ∀ m c, m < 2 → (ram_calls (ram_loop K H opcodes len (-2) st).log)[
        (ram_calls st.log).length + m]? = some c → c.rc = 0) :
    ∃ (s1 s0 : ram_call) (l : List ram_call),
      (ram_loop K H opcodes len (-2) st).log
          = st.log ++ (s1 :: s0 :: l).map hook_call.instruction
        ∧ s1.opcode = mtspr K 277 1 ∧ s0.opcode = mtspr K 277 0
        ∧ ∀ c ∈ l,
            (c.iter = len → c.scratch_in = s0.scratch_out ∧ c.opcode = mfspr K 0 277)
              ∧ (c.iter = len + 1 → c.scratch_in = s1.scratch_out ∧ c.opcode = mfspr K 1 277) := by
  obtain ⟨s1, s0, st2, hloop, l2, -, -, a1, a0, o1, -, -, o0, -, -⟩ :=
    ram_loop_saves K H opcodes len hlen st hr
  obtain ⟨l, hl, hq⟩ := ram_loop_restore_inputs K H opcodes len 0 st2 hlen (le_refl 0)
  refine ⟨s1, s0, l, ?_, o1, o0, ?_⟩
  · rw [hloop, hl, l2]; simp
  · intro c hc
    have := hq c hc
    rw [a1, a0] at this
    exact this

end

section
variable {σ : Type} (K : chip_h) (H : thread_hooks σ) (opcodes : List Nat)

theorem ram_issue_thread (len i : Int) (st : ram_locals σ) :
    (ram_issue H i (ram_select K opcodes len i st)).2.thread
      = (H.ram_instruction st.thread (ram_made K H opcodes len i st).opcode
          (ram_made K H opcodes len i st).scratch_in).thread := by
  simp [ram_issue, ram_made]

/-- With a transport that never fails, the thread left by the loop is the one
left by the two restore calls, fed the locals `r0` and `r1`. -/
theorem ram_loop_final_thread (hnf : ∀ th op sc, (H.ram_instruction th op sc).rc = 0)
    (n : Nat) : ∀ (j : Nat) (st : ram_locals σ), j + n = opcodes.length →
    ∃ th3 : thread σ,
      (ram_loop K H opcodes opcodes.length j st).thread
        = (H.ram_instruction (H.ram_instruction th3 (mfspr K 0 277) st.r0).thread
            (mfspr K 1 277) st.r1).thread := by
  induction n with
  | zero =>
    intro j st hj
    have hjN : j = opcodes.length := by omega
    subst hjN
    have h0 : (0 : Int) ≤ (opcodes.length : Int) := by omega
    rw [ram_loop_next K H opcodes _ _ st (by omega) (hnf _ _ _),
      ram_store_restore _ _ _ h0 (le_refl _),
      ram_loop_next K H opcodes _ _ _ (by omega) (hnf _ _ _),
      ram_store_restore _ _ _ h0 (by omega),
      ram_loop_done K H opcodes _ _ _ (by omega)]
    refine ⟨st.thread, ?_⟩
    rw [ram_issue_thread, (ram_made_restore_r1 K H opcodes _ _ h0).1,
      (ram_made_restore_r1 K H opcodes _ _ h0).2, ram_issue_thread,
      (ram_made_restore_r0 K H opcodes _ _ h0).1, (ram_made_restore_r0 K H opcodes _ _ h0).2]
    simp
  | succ n ih =>
    intro j st hj
    have h0 : (0 : Int) ≤ (j : Int) := by omega
    rw [ram_loop_next K H opcodes _ _ st (by omega) (hnf _ _ _)]
    have hcast : ((j : Int) + 1) = ((j + 1 : Nat) : Int) := by push_cast; ring
    rw [hcast]
    obtain ⟨th3, h3⟩ := ih (j + 1)
      (ram_store opcodes.length j (ram_issue H j (ram_select K opcodes opcodes.length j st)).2)
      (by omega)
    refine ⟨th3, ?_⟩
    rw [h3, (ram_store_keeps_r0_r1 _ _ _ h0).1, (ram_store_keeps_r0_r1 _ _ _ h0).2]
    simp

theorem ram_instructions_fresh_thread (th : thread σ) (results : List Nat) (len : Int)
    (h : th.ram_is_setup = false) (hs : (H.ram_setup th).rc = 0) :
    (ram_instructions K H th opcodes results len).thread
      = (H.ram_destroy (ram_loop K H opcodes len (-2)
          (ram_entry (H.ram_setup th).thread results [hook_call.setup 0])).thread).thread := by
  simp only [ram_instructions, h, hs]
  simp only [ne_eq, not_true_eq_false, if_true, if_false]
  split_ifs <;> rfl

end

/-- With a transport that never fails, the two save iterations leave in `r1`
and `r0` what the calls `mtspr(277,1)` and `mtspr(277,0)` returned. -/
theorem ram_loop_saved_values {σ : Type} (K : chip_h) (H : thread_hooks σ) (opcodes : List Nat)
    (hnf : ∀ th op sc, (H.ram_instruction th op sc).rc = 0) (len : Int) (h0 : 0 ≤ len)
    (st : ram_locals σ) :
    ∃ st2 : ram_locals σ,
      ram_loop K H opcodes len (-2) st = ram_loop K H opcodes len 0 st2
        ∧ st2.r1 = (H.ram_instruction st.thread (mtspr K 277 1) st.scratch).scratch
        ∧ st2.r0 = (H.ram_instruction
            (H.ram_instruction st.thread (mtspr K 277 1) st.scratch).thread (mtspr K 277 0)
            (H.ram_instruction st.thread (mtspr K 277 1) st.scratch).scratch).scratch := by
  rw [ram_loop_next K H opcodes _ _ _ (by omega) (hnf _ _ _), ram_store_save_r1]
  have hj : (-2 : Int) + 1 = -1 := by norm_num
  rw [hj]
  generalize hst1 : ({ (ram_issue H (-2) (ram_select K opcodes len (-2) st)).2 with
      r1 := (ram_issue H (-2) (ram_select K opcodes len (-2) st)).2.scratch }
        : ram_locals σ) = st1
  have t1 : st1.thread = (H.ram_instruction st.thread (mtspr K 277 1) st.scratch).thread := by
    rw [← hst1]; simp [ram_issue, ram_select]
  have a1 : st1.r1 = (H.ram_instruction st.thread (mtspr K 277 1) st.scratch).scratch := by
    rw [← hst1]; simp [ram_issue, ram_select]
  have b1 : st1.scratch = (H.ram_instruction st.thread (mtspr K 277 1) st.scratch).scratch := by
    rw [← hst1]; simp [ram_issue, ram_select]
  rw [ram_loop_next K H opcodes _ _ _ (by omega) (hnf _ _ _), ram_store_save_r0]
  have hj2 : (-1 : Int) + 1 = 0 := by norm_num
  rw [hj2]
  refine ⟨_, rfl, ?_, ?_⟩
  · simp [ram_issue, a1]
  · simp [ram_issue, ram_select, t1, b1]

theorem gpr_sim_never_fails (K : chip_h) (th : thread (Nat → Nat)) (op sc : Nat) :
    ((gpr_sim K).ram_instruction th op sc).rc = 0 := by
  simp only [gpr_sim]
  split_ifs <;> rfl

/-- On the simulated thread the loop leaves r0 and r1 as they were on entry. -/
theorem gpr_sim_loop_r0_r1 (th : thread (Nat → Nat)) (opcodes results : List Nat)
    (log : List hook_call) :
    (ram_loop power_isa (gpr_sim power_isa) opcodes opcodes.length (-2)
        (ram_entry th results log)).thread.hw 0 = th.hw 0
      ∧ (ram_loop power_isa (gpr_sim power_isa) opcodes opcodes.length (-2)
        (ram_entry th results log)).thread.hw 1 = th.hw 1 := by
  obtain ⟨st2, hloop, a1, a0⟩ := ram_loop_saved_values power_isa (gpr_sim power_isa) opcodes
    (gpr_sim_never_fails _) opcodes.length (by omega) (ram_entry th results log)
  have hz : (0 : Int) = ((0 : Nat) : Int) := by norm_num
  rw [hz] at hloop
  obtain ⟨th3, h3⟩ := ram_loop_final_thread power_isa (gpr_sim power_isa) opcodes
    (gpr_sim_never_fails _) opcodes.length 0 st2 (by omega)
  rw [hloop, h3, a1, a0]
  simp [ram_entry, gpr_sim, mtspr_277_0, mtspr_277_1, mfspr_0_277, mfspr_1_277,
    Function.update]

theorem ram_instructions_open_thread {σ : Type} (K : chip_h) (H : thread_hooks σ)
    (opcodes : List Nat) (th : thread σ) (results : List Nat) (len : Int)
    (h : th.ram_is_setup = true) :
    (ram_instructions K H th opcodes results len).thread
      = (ram_loop K H opcodes len (-2) (ram_entry th results [])).thread := by
  rw [ram_instructions_open K H th opcodes results len h]

/-- On the simulated thread a whole run of the sequencer leaves r0 and r1 as
they were before the call, whatever the opcodes. -/
theorem gpr_sim_run_r0_r1 (g : thread (Nat → Nat)) (ops res : List Nat) :
    (ram_instructions power_isa (gpr_sim power_isa) g ops res ops.length).thread.hw 0 = g.hw 0
      ∧ (ram_instructions power_isa (gpr_sim power_isa) g ops res ops.length).thread.hw 1
          = g.hw 1 := by
  by_cases h : g.ram_is_setup = true
  · rw [ram_instructions_open_thread _ _ ops g res _ h]
    exact gpr_sim_loop_r0_r1 g ops res []
  · have h : g.ram_is_setup = false := by simpa using h
    have hd : ∀ t : thread (Nat → Nat), ((gpr_sim power_isa).ram_destroy t).thread.hw = t.hw :=
      fun _ => rfl
    have hsu : ((gpr_sim power_isa).ram_setup g).thread.hw = g.hw := rfl
    have hrc : ((gpr_sim power_isa).ram_setup g).rc = 0 := rfl
    rw [ram_instructions_fresh_thread _ _ ops g res _ h hrc, hd, ← hsu]
    exact gpr_sim_loop_r0_r1 _ ops res _

section
variable {σ : Type} (K : chip_h) (H : thread_hooks σ) (th : thread σ)
  (opcodes results : List Nat)

/-- A run of the sequencer whose two save calls succeed: every later call of
a restore iteration is fed the scratch value the matching save returned. -/
theorem ram_instructions_bracket_values
    (hsetup : ∀ rc, hook_call.setup rc
      ∈ (ram_instructions K H th opcodes results opcodes.length).log → rc = 0)
    (hsaves : ∀ m c, m < 2 →
      (ram_calls (ram_instructions K H th opcodes results opcodes.length).log)[m]? = some c →
      c.rc = 0) :
    ∃ (s1 s0 : ram_call) (l : List ram_call),
      ram_calls (ram_instructions K H th opcodes results opcodes.length).log = s1 :: s0 :: l
        ∧ s1.opcode = mtspr K 277 1 ∧ s0.opcode = mtspr K 277 0
        ∧ ∀ c ∈ l,
            (c.iter = opcodes.length → c.scratch_in = s0.scratch_out ∧ c.opcode = mfspr K 0 277)
              ∧ (c.iter = opcodes.length + 1 →
                  c.scratch_in = s1.scratch_out ∧ c.opcode = mfspr K 1 277) := by
  by_cases h : th.ram_is_setup = true
  · rw [ram_instructions_open K H th opcodes results _ h] at hsaves ⊢
    simp only at hsaves ⊢
    obtain ⟨s1, s0, l, hlog, o1, o0, hq⟩ :=
      ram_loop_bracket_values K H opcodes opcodes.length (ram_entry th results []) (by omega) (by
        intro m c hm hc
        exact hsaves m c hm (by simpa [ram_entry, ram_calls] using hc))
    refine ⟨s1, s0, l, ?_, o1, o0, hq⟩
    rw [hlog, ram_calls_append, ram_calls_map_instruction]; simp [ram_entry, ram_calls]
  · have h : th.ram_is_setup = false := by simpa using h
    have hs : (H.ram_setup th).rc = 0 := by
      by_contra hs
      rw [ram_instructions_refused K H th opcodes results _ h hs] at hsetup
      exact hs (hsetup _ (by simp))
    obtain ⟨e1, -, -⟩ := ram_instructions_fresh K H th opcodes results opcodes.length h hs
    rw [e1] at hsaves
    rw [e1]
    obtain ⟨s1, s0, l, hlog, o1, o0, hq⟩ :=
      ram_loop_bracket_values K H opcodes opcodes.length
        (ram_entry (H.ram_setup th).thread results [hook_call.setup 0]) (by omega) (by
        intro m c hm hc
        apply hsaves m c hm
        rw [ram_calls_append]
        have hz : (ram_calls (ram_entry (H.ram_setup th).thread results
            [hook_call.setup 0]).log).length = 0 := by simp [ram_entry, ram_calls]
        rw [hz, Nat.zero_add] at hc
        rw [List.getElem?_append_left, hc]
        exact (List.getElem?_eq_some_iff.1 hc).1)
    refine ⟨s1, s0, l, ?_, o1, o0, hq⟩
    rw [hlog]
    simp [ram_calls_append, ram_calls_map_instruction, ram_entry, ram_calls]

/-- C18: in every run of `ram_instructions` whose two save steps succeed, a
restore-r0 step that is reached (iteration `N`) is fed the scratch value the
save-r0 step returned, and a restore-r1 step that is reached (iteration
`N + 1`) the one the save-r1 step returned, whatever the user opcodes, the
result slots and the outcome of the user steps; and on the simulated thread,
where `mtspr(277,r)` and `mfspr(r,277)` move between GPR r and the scratch, r0
and r1 hold their values of before the call after it, for any opcode list. -/
theorem ram_instructions_preserves_r0_r1
    (hsetup : ∀ rc, hook_call.setup rc
      ∈ (ram_instructions K H th opcodes results opcodes.length).log → rc = 0)
    (hsaves : ∀ m c, m < 2 →
      (ram_calls (ram_instructions K H th opcodes results opcodes.length).log)[m]? = some c →
      c.rc = 0) :
    (∃ (s1 s0 : ram_call) (l : List ram_call),
      ram_calls (ram_instructions K H th opcodes results opcodes.length).log = s1 :: s0 :: l
        ∧ s1.opcode = mtspr K 277 1 ∧ s0.opcode = mtspr K 277 0
        ∧ ∀ c ∈ l,
            (c.iter = opcodes.length → c.scratch_in = s0.scratch_out ∧ c.opcode = mfspr K 0 277)
              ∧ (c.iter = opcodes.length + 1 →
                  c.scratch_in = s1.scratch_out ∧ c.opcode = mfspr K 1 277))
      ∧ ∀ (g : thread (Nat → Nat)) (ops res : List Nat),
          (ram_instructions power_isa (gpr_sim power_isa) g ops res ops.length).thread.hw 0
              = g.hw 0
            ∧ (ram_instructions power_isa (gpr_sim power_isa) g ops res ops.length).thread.hw 1
              = g.hw 1 :=
  ⟨ram_instructions_bracket_values K H th opcodes results hsetup hsaves, gpr_sim_run_r0_r1⟩

end

/-- Witness of C18: the second of three user opcodes fails on a scripted
thread; both restore steps are reached. -/
theorem ram_instructions_preserves_r0_r1_witness :
    (∃ (s1 s0 : ram_call) (l : List ram_call),
      ram_calls (ram_instructions power_isa
          (scripted_hooks 0 0 [(0, 11), (0, 10), (0, 50), (5, 51)]) fresh_thread
          [5, 6, 7] [0, 0, 0] ([5, 6, 7] : List Nat).length).log = s1 :: s0 :: l
        ∧ s1.opcode = mtspr power_isa 277 1 ∧ s0.opcode = mtspr power_isa 277 0
        ∧ ∀ c ∈ l,
            (c.iter = ([5, 6, 7] : List Nat).length →
                c.scratch_in = s0.scratch_out ∧ c.opcode = mfspr power_isa 0 277)
              ∧ (c.iter = ([5, 6, 7] : List Nat).length + 1 →
                  c.scratch_in = s1.scratch_out ∧ c.opcode = mfspr power_isa 1 277))
      ∧ ∀ (g : thread (Nat → Nat)) (ops res : List Nat),
          (ram_instructions power_isa (gpr_sim power_isa) g ops res ops.length).thread.hw 0
              = g.hw 0
            ∧ (ram_instructions power_isa (gpr_sim power_isa) g ops res ops.length).thread.hw 1
              = g.hw 1 :=
  ram_instructions_preserves_r0_r1 power_isa
    (scripted_hooks 0 0 [(0, 11), (0, 10), (0, 50), (5, 51)]) fresh_thread [5, 6, 7] [0, 0, 0]
    (by
      intro rc hrc
      simp [ram_instructions, scripted_hooks, fresh_thread, ram_entry, ram_loop_eq, ram_issue,
        ram_select, ram_store] at hrc
      exact hrc)
    (by
      have e : ram_calls (ram_instructions power_isa
          (scripted_hooks 0 0 [(0, 11), (0, 10), (0, 50), (5, 51)]) fresh_thread
          [5, 6, 7] [0, 0, 0] ([5, 6, 7] : List Nat).length).log
          = [⟨-2, mtspr power_isa 277 1, 0, 0, 11⟩, ⟨-1, mtspr power_isa 277 0, 11, 0, 10⟩,
              ⟨0, 5, 0, 0, 50⟩, ⟨1, 6, 0, 5, 51⟩, ⟨3, mfspr power_isa 0 277, 10, 0, 10⟩,
              ⟨4, mfspr power_isa 1 277, 11, 0, 11⟩] := by
        simp [ram_instructions, scripted_hooks, fresh_thread, ram_entry, ram_loop_eq, ram_issue,
          ram_select, ram_store, ram_calls]
      rw [e]
      intro m c hm hc
      match m, hm, hc with
      | 0, _, hc => simp at hc; subst hc; rfl
      | 1, _, hc => simp at hc; subst hc; rfl)

/-! ## POWER10 thread start on a quiesced thread -/

/-- C19: for a thread whose cached status is quiesced, `p10_thread_start`
makes exactly one bus write, to `P10_DIRECT_CONTROL` (0x28449), of
`PPC_BIT(3 + 8*id)` when the cached status is inactive or its sleep state is
STOP and of `PPC_BIT(6 + 8*id)` otherwise; the cached status becomes the state
read after the write, and the return value is 0. -/
theorem p10_thread_start_one_write {σ : Type} (U : bitutils_h) (B : pib σ) (th : thread σ)
    (hq : th.status.quiesced = true) :
    (p10_thread_start U B th).rc = 0
      ∧ (p10_thread_start U B th).ops.filter bus_op.is_write
          = [bus_op.write 0x28449
              (if th.status.active = false ∨ th.status.sleep_state = sleep_state_t.STOP
                then U.PPC_BIT (3 + 8 * th.id) else U.PPC_BIT (6 + 8 * th.id))
              (B.pib_write th.hw 0x28449
                (if th.status.active = false ∨ th.status.sleep_state = sleep_state_t.STOP
                  then U.PPC_BIT (3 + 8 * th.id) else U.PPC_BIT (6 + 8 * th.id))).rc]
      ∧ (p10_thread_start U B th).thread.status
          = (p10_thread_state U B { th with hw := (B.pib_write th.hw 0x28449
              (if th.status.active = false ∨ th.status.sleep_state = sleep_state_t.STOP
                then U.PPC_BIT (3 + 8 * th.id) else U.PPC_BIT (6 + 8 * th.id))).hw }).state := by
  simp [p10_thread_start, hq, p10_thread_state, bus_op.is_write, P10_DIRECT_CONTROL]

/-- Witness of C19: a quiesced, active, running thread with id 2 on the bus
that records its writes: the one write is `PPC_BIT(22)`. -/
theorem p10_thread_start_one_write_witness :
    (p10_thread_start ibm_bits echo_bus ⟨2, idle_status, false, []⟩).rc = 0
      ∧ (p10_thread_start ibm_bits echo_bus ⟨2, idle_status, false, []⟩).ops.filter
          bus_op.is_write
          = [bus_op.write 0x28449
              (if idle_status.active = false ∨ idle_status.sleep_state = sleep_state_t.STOP
                then ibm_bits.PPC_BIT (3 + 8 * 2) else ibm_bits.PPC_BIT (6 + 8 * 2))
              (echo_bus.pib_write [] 0x28449
                (if idle_status.active = false ∨ idle_status.sleep_state = sleep_state_t.STOP
                  then ibm_bits.PPC_BIT (3 + 8 * 2) else ibm_bits.PPC_BIT (6 + 8 * 2))).rc]
      ∧ (p10_thread_start ibm_bits echo_bus ⟨2, idle_status, false, []⟩).thread.status
          = (p10_thread_state ibm_bits echo_bus
              { (⟨2, idle_status, false, []⟩ : thread (List Nat)) with
                hw := (echo_bus.pib_write [] 0x28449
                  (if idle_status.active = false ∨ idle_status.sleep_state = sleep_state_t.STOP
                    then ibm_bits.PPC_BIT (3 + 8 * 2) else ibm_bits.PPC_BIT (6 + 8 * 2))).hw }).state :=
  p10_thread_start_one_write ibm_bits echo_bus ⟨2, idle_status, false, []⟩ rfl

/-! ## Core address translation -/

theorem testBit_chiplet_mask (j : Nat) :
    (0xFFFFFFFFC0FFFFFF : Nat).testBit j
      = (decide (j < 64) && !(decide (24 ≤ j) && decide (j < 30))) := by
  by_cases h : j < 64
  · have key : ∀ k, k < 64 → (0xFFFFFFFFC0FFFFFF : Nat).testBit k
        = (decide (k < 64) && !(decide (24 ≤ k) && decide (k < 30))) := by decide
    exact key j h
  · rw [testBit_of_lt_two_pow _ 64 j (by norm_num) (by omega)]
    simp [h]

theorem testBit_region_mask (j : Nat) :
    (0xFFFFFFFFFFFF0FFF : Nat).testBit j
      = (decide (j < 64) && !(decide (12 ≤ j) && decide (j < 16))) := by
  by_cases h : j < 64
  · have key : ∀ k, k < 64 → (0xFFFFFFFFFFFF0FFF : Nat).testBit k
        = (decide (k < 64) && !(decide (12 ≤ k) && decide (k < 16))) := by decide
    exact key j h
  · rw [testBit_of_lt_two_pow _ 64 j (by norm_num) (by omega)]
    simp [h]

/-- The translation of a non-negative core index in natural numbers. -/
theorem translate_unfold (n a : Nat) :
    p10_core_translate (n : Int) a
      = (((a &&& 0xFFFFFFFFC0FFFFFF) ||| u64 (((0x20 + n / 4) % 64) <<< 24))
            &&& 0xFFFFFFFFFFFF0FFF)
          ||| u64 ((if n % 4 = 0 then 8 else if n % 4 = 1 then 4 else if n % 4 = 2 then 2
              else 1) <<< 12) := by
  have h1 : ((EQ0_CHIPLET_ID + (n : Int).tdiv NUM_CORES_PER_EQ) % 64).toNat
      = (0x20 + n / 4) % 64 := by
    have : (n : Int).tdiv NUM_CORES_PER_EQ = ((n / 4 : Nat) : Int) := by
      rw [NUM_CORES_PER_EQ, Int.tdiv_eq_ediv (by omega) (by norm_num)]; norm_cast
    rw [this]; simp only [EQ0_CHIPLET_ID]; omega
  have h2 : (n : Int).tmod NUM_CORES_PER_EQ = ((n % 4 : Nat) : Int) := by
    rw [NUM_CORES_PER_EQ, Int.tmod_eq_emod (by omega) (by norm_num)]; norm_cast
  simp only [p10_core_translate, h1, h2]
  have h3 : n % 4 < 4 := Nat.mod_lt _ (by norm_num)
  interval_cases hm : n % 4 <;> simp

/-- The bits of a word in which the fields 24..29 and 12..15 of `a` are
replaced by `c` and `r`. -/
theorem testBit_replace_fields (a c r j : Nat) (ha : a < 2 ^ 64) (hc : c < 64) (hr : r < 16) :
    ((((a &&& 0xFFFFFFFFC0FFFFFF) ||| u64 (c <<< 24)) &&& 0xFFFFFFFFFFFF0FFF)
        ||| u64 (r <<< 12)).testBit j
      = if 24 ≤ j ∧ j < 30 then c.testBit (j - 24)
        else if 12 ≤ j ∧ j < 16 then r.testBit (j - 12)
        else a.testBit j := by
  have hcb : ∀ m, 6 ≤ m → c.testBit m = false :=
    fun m hm => testBit_of_lt_two_pow c 6 m (by norm_num; omega) hm
  have hrb : ∀ m, 4 ≤ m → r.testBit m = false :=
    fun m hm => testBit_of_lt_two_pow r 4 m (by norm_num; omega) hm
  have hab : 64 ≤ j → a.testBit j = false :=
    fun hm => testBit_of_lt_two_pow a 64 j ha hm
  simp only [Nat.testBit_lor, Nat.testBit_land, u64, Nat.testBit_mod_two_pow,
    Nat.testBit_shiftLeft, testBit_chiplet_mask, testBit_region_mask]
  by_cases h1 : j < 12
  · have a1 : ¬ 24 ≤ j := by omega
    have a2 : ¬ 12 ≤ j := by omega
    have a3 : j < 64 := by omega
    simp [a1, a2, a3]
  · by_cases h2 : j < 16
    · have a1 : ¬ 24 ≤ j := by omega
      have a3 : j < 64 := by omega
      have a4 : 12 ≤ j := by omega
      simp [a1, h2, a3, a4]
    · by_cases h3 : j < 24
      · have a1 : ¬ 24 ≤ j := by omega
        have a3 : j < 64 := by omega
        have a4 : 12 ≤ j := by omega
        have a5 := hrb (j - 12) (by omega)
        simp [a1, h2, a3, a4, a5]
      · by_cases h4 : j < 30
        · have a1 : 24 ≤ j := by omega
          have a3 : j < 64 := by omega
          have a4 : 12 ≤ j := by omega
          have a5 := hrb (j - 12) (by omega)
          simp [a1, h2, h4, a3, a4, a5]
        · have a1 : 24 ≤ j := by omega
          have a4 : 12 ≤ j := by omega
          have a5 := hrb (j - 12) (by omega)
          have a6 := hcb (j - 24) (by omega)
          by_cases h5 : j < 64
          · simp [a1, h2, h4, h5, a4, a5, a6]
          · simp [a1, h2, h4, h5, a4, a5, a6, hab (by omega)]

/-- The word of `testBit_replace_fields` decoded: the two fields, the other
bits, and what a second replacement does. -/
theorem replace_fields_decode (a c r : Nat) (ha : a < 2 ^ 64) (hc : c < 64) (hr : r < 16) :
    (((((a &&& 0xFFFFFFFFC0FFFFFF) ||| u64 (c <<< 24)) &&& 0xFFFFFFFFFFFF0FFF)
        ||| u64 (r <<< 12)) >>> 24) % 64 = c
      ∧ (((((a &&& 0xFFFFFFFFC0FFFFFF) ||| u64 (c <<< 24)) &&& 0xFFFFFFFFFFFF0FFF)
        ||| u64 (r <<< 12)) >>> 12) % 16 = r
      ∧ ((((a &&& 0xFFFFFFFFC0FFFFFF) ||| u64 (c <<< 24)) &&& 0xFFFFFFFFFFFF0FFF)
        ||| u64 (r <<< 12)) < 2 ^ 64 := by
  have hcb : ∀ m, 6 ≤ m → c.testBit m = false :=
    fun m hm => testBit_of_lt_two_pow c 6 m (by norm_num; omega) hm
  have hrb : ∀ m, 4 ≤ m → r.testBit m = false :=
    fun m hm => testBit_of_lt_two_pow r 4 m (by norm_num; omega) hm
  refine ⟨?_, ?_, ?_⟩
  · apply Nat.eq_of_testBit_eq
    intro i
    have e : (64 : Nat) = 2 ^ 6 := by norm_num
    rw [e, Nat.testBit_mod_two_pow, Nat.testBit_shiftRight,
      testBit_replace_fields a c r _ ha hc hr]
    by_cases hi : i < 6
    · have a1 : 24 ≤ 24 + i ∧ 24 + i < 30 := by omega
      simp [hi, a1]
    · simp [hi, hcb i (by omega)]
  · apply Nat.eq_of_testBit_eq
    intro i
    have e : (16 : Nat) = 2 ^ 4 := by norm_num
    rw [e, Nat.testBit_mod_two_pow, Nat.testBit_shiftRight,
      testBit_replace_fields a c r _ ha hc hr]
    by_cases hi : i < 4
    · have a1 : ¬ (24 ≤ 12 + i ∧ 12 + i < 30) := by omega
      have a2 : 12 ≤ 12 + i ∧ 12 + i < 16 := by omega
      simp [hi, a1, a2]
    · simp [hi, hrb i (by omega)]
  · apply Nat.lt_pow_two_of_testBit
    intro i hi
    rw [testBit_replace_fields a c r _ ha hc hr]
    have a1 : ¬ (24 ≤ i ∧ i < 30) := by omega
    have a2 : ¬ (12 ≤ i ∧ i < 16) := by omega
    simp only [a1, a2, if_false]
    exact testBit_of_lt_two_pow a 64 i ha hi

/-- C12: for a core index `n >= 0` and a 64-bit address `a`,
`p10_core_translate` returns `a` with bits 24..29 replaced by
`(0x20 + n / 4) mod 64` and bits 12..15 by the region code of `n mod 4`
(0 -> 8, 1 -> 4, 2 -> 2, 3 -> 1), every other bit unchanged; index 5 gives
region 4 and chiplet id 0x21; translating twice with the same core is
translating once. -/
theorem p10_core_translate_fields (n a : Nat) (ha : a < 2 ^ 64) :
    (p10_core_translate (n : Int) a >>> 24) % 64 = (0x20 + n / 4) % 64
      ∧ (p10_core_translate (n : Int) a >>> 12) % 16
          = (if n % 4 = 0 then 8 else if n % 4 = 1 then 4 else if n % 4 = 2 then 2 else 1)
      ∧ (∀ j, ¬ (24 ≤ j ∧ j ≤ 29) → ¬ (12 ≤ j ∧ j ≤ 15) →
          (p10_core_translate (n : Int) a).testBit j = a.testBit j)
      ∧ (p10_core_translate 5 a >>> 12) % 16 = 4
      ∧ (p10_core_translate 5 a >>> 24) % 64 = 0x21
      ∧ p10_core_translate (n : Int) (p10_core_translate (n : Int) a)
          = p10_core_translate (n : Int) a := by
  have hc : (0x20 + n / 4) % 64 < 64 := Nat.mod_lt _ (by norm_num)
  have hr : (if n % 4 = 0 then 8 else if n % 4 = 1 then 4 else if n % 4 = 2 then 2 else 1)
      < 16 := by split_ifs <;> norm_num
  have h5 := translate_unfold 5 a
  have h5c : (0x20 + 5 / 4) % 64 = 0x21 := by norm_num
  have h5r : (if 5 % 4 = 0 then 8 else if 5 % 4 = 1 then 4 else if 5 % 4 = 2 then 2 else 1)
      = 4 := by norm_num
  rw [h5c, h5r] at h5
  have e5 : ((5 : Nat) : Int) = 5 := by norm_num
  rw [e5] at h5
  obtain ⟨d1, d2, d3⟩ := replace_fields_decode a _ _ ha hc hr
  obtain ⟨f1, f2, -⟩ := replace_fields_decode a 0x21 4 ha (by norm_num) (by norm_num)
  refine ⟨?_, ?_, ?_, ?_, ?_, ?_⟩
  · rw [translate_unfold]; exact d1
  · rw [translate_unfold]; exact d2
  · intro j h1 h2
    rw [translate_unfold, testBit_replace_fields a _ _ j ha hc hr]
    have a1 : ¬ (24 ≤ j ∧ j < 30) := by omega
    have a2 : ¬ (12 ≤ j ∧ j < 16) := by omega
    simp only [a1, a2, if_false]
  · rw [h5]; exact f2
  · rw [h5]; exact f1
  · rw [translate_unfold n a, translate_unfold]
    apply Nat.eq_of_testBit_eq
    intro j
    rw [testBit_replace_fields _ _ _ j d3 hc hr, testBit_replace_fields a _ _ j ha hc hr]
    split_ifs <;> rfl

/-- Witness of C12: core 5 and the address 0x20028412. -/
theorem p10_core_translate_fields_witness :
    (p10_core_translate ((5 : Nat) : Int) 0x20028412 >>> 24) % 64 = (0x20 + 5 / 4) % 64
      ∧ (p10_core_translate ((5 : Nat) : Int) 0x20028412 >>> 12) % 16
          = (if 5 % 4 = 0 then 8 else if 5 % 4 = 1 then 4 else if 5 % 4 = 2 then 2 else 1)
      ∧ (∀ j, ¬ (24 ≤ j ∧ j ≤ 29) → ¬ (12 ≤ j ∧ j ≤ 15) →
          (p10_core_translate ((5 : Nat) : Int) 0x20028412).testBit j
            = (0x20028412 : Nat).testBit j)
      ∧ (p10_core_translate 5 0x20028412 >>> 12) % 16 = 4
      ∧ (p10_core_translate 5 0x20028412 >>> 24) % 64 = 0x21
      ∧ p10_core_translate ((5 : Nat) : Int) (p10_core_translate ((5 : Nat) : Int) 0x20028412)
          = p10_core_translate ((5 : Nat) : Int) 0x20028412 :=
  p10_core_translate_fields 5 0x20028412 (by norm_num)

/-! ## POWER10 thread stop -/

/-- Against a target that never reports quiesced, the loop entered with the
counter `i <= 101` runs `102 - i` times: each kind of event is logged that
many times what one pass logs. -/
theorem p10_stop_loop_count {σ : Type} (U : bitutils_h) (B : pib σ)
    (hnq : ∀ t, (p10_thread_state U B t).state.quiesced = false)
    (p : bus_op → Bool) (k : Nat) (hk : ∀ t, (p10_thread_state U B t).ops.countP p = k)
    (n : Nat) :
    ∀ (i : Nat) (th : thread σ) (ops : List bus_op), i + n = 101 →
      (p10_stop_loop U B i th ops).2.countP p
        = ops.countP p + (n + 1) * (k + (if p (bus_op.sleep 1000) then 1 else 0)) := by
  induction n with
  | zero =>
    intro i th ops hi
    have h : i > RAS_STATUS_TIMEOUT := by simp [RAS_STATUS_TIMEOUT]; omega
    rw [p10_stop_loop]
    simp only [hnq, h, if_true, dite_true, List.countP_append, hk, List.countP_cons,
      List.countP_nil]
    omega
  | succ n ih =>
    intro i th ops hi
    have h : ¬ i > RAS_STATUS_TIMEOUT := by simp [RAS_STATUS_TIMEOUT]; omega
    rw [p10_stop_loop]
    simp only [hnq, h, if_true, dite_false]
    rw [ih (i + 1) _ _ (by omega)]
    simp only [List.countP_append, hk, List.countP_cons, List.countP_nil]
    ring

/-- The events of `p10_thread_stop` against a target that never reports
quiesced: the write, 102 passes of the loop, the final state read. -/
theorem p10_thread_stop_count {σ : Type} (U : bitutils_h) (B : pib σ)
    (hnq : ∀ t, (p10_thread_state U B t).state.quiesced = false)
    (p : bus_op → Bool) (k : Nat) (hk : ∀ t, (p10_thread_state U B t).ops.countP p = k)
    (th : thread σ) :
    (p10_thread_stop U B th).ops.countP p
      = (if p (bus_op.write P10_DIRECT_CONTROL (U.PPC_BIT (7 + 8 * th.id))
              (B.pib_write th.hw P10_DIRECT_CONTROL (U.PPC_BIT (7 + 8 * th.id))).rc)
          then 1 else 0)
        + 102 * (k + (if p (bus_op.sleep 1000) then 1 else 0)) + k := by
  simp only [p10_thread_stop, List.countP_append, hk]
  rw [p10_stop_loop_count U B hnq p k hk 101 0 _ _ (by omega)]
  simp only [List.countP_cons, List.countP_nil]
  omega

theorem busy_bus_never_quiesced (t : thread Nat) :
    (p10_thread_state ibm_bits busy_bus t).state.quiesced = false := by
  simp [p10_thread_state, ibm_bits, busy_bus]

/-- C11 on a target that never reports quiesced: `p10_thread_stop` returns (with
0) after one write, but its loop runs 102 times, not 100: the log holds 102
sleeps and 103 reads of `P10_RAS_STATUS` (the 102 checks of the loop and the
final refresh of the cached status). -/
theorem p10_thread_stop_polls_102 :
    (p10_thread_stop ibm_bits busy_bus ⟨0, idle_status, false, 0⟩).rc = 0
      ∧ (p10_thread_stop ibm_bits busy_bus ⟨0, idle_status, false, 0⟩).ops.countP
          bus_op.is_write = 1
      ∧ (p10_thread_stop ibm_bits busy_bus ⟨0, idle_status, false, 0⟩).ops.countP
          bus_op.is_sleep = 102
      ∧ (p10_thread_stop ibm_bits busy_bus ⟨0, idle_status, false, 0⟩).ops.countP
          (bus_op.reads P10_RAS_STATUS) = 103 := by
  refine ⟨rfl, ?_, ?_, ?_⟩
  · rw [p10_thread_stop_count ibm_bits busy_bus busy_bus_never_quiesced bus_op.is_write 0
      (fun t => by simp [p10_thread_state, bus_op.is_write])]
    simp [bus_op.is_write]
  · rw [p10_thread_stop_count ibm_bits busy_bus busy_bus_never_quiesced bus_op.is_sleep 0
      (fun t => by simp [p10_thread_state, bus_op.is_sleep])]
    simp [bus_op.is_sleep]
  · rw [p10_thread_stop_count ibm_bits busy_bus busy_bus_never_quiesced
      (bus_op.reads P10_RAS_STATUS) 1
      (fun t => by
        simp [p10_thread_state, bus_op.reads, P10_RAS_STATUS, P10_THREAD_INFO,
          P10_CORE_THREAD_STATE])]
    simp [bus_op.reads]

/-! ## The error path of the encoders -/

/-- C14: an out-of-range operand is fatal in `mtocrf` only. For every register
number above 31 (and every CR field above 7, every `ds` above 0x3fff) the
other eight encoders log one message per failed check and still return a word
to their caller; at a register number `32 + 32 * n` on the Power ISA base words,
`mfspr` returns the very word of register 0. -/
theorem encoders_return_after_range_error (K : chip_h) (n s : Nat) :
    (mfspr_run K (32 + n) s).errors ≠ [] ∧ (mfspr_run K (32 + n) s).word = some (mfspr K (32 + n) s)
      ∧ (mtspr_run K s (32 + n)).errors ≠ []
      ∧ (mtspr_run K s (32 + n)).word = some (mtspr K s (32 + n))
      ∧ (mfocrf_run K (32 + n) s).errors ≠ []
      ∧ (mfocrf_run K (32 + n) s).word = some (mfocrf K (32 + n) s)
      ∧ (mfocrf_run K s (8 + n)).errors ≠ []
      ∧ (mfocrf_run K s (8 + n)).word = some (mfocrf K s (8 + n))
      ∧ (mfnia_run K (32 + n)).errors ≠ [] ∧ (mfnia_run K (32 + n)).word = some (mfnia K (32 + n))
      ∧ (mtnia_run K (32 + n)).errors ≠ [] ∧ (mtnia_run K (32 + n)).word = some (mtnia K (32 + n))
      ∧ (mfmsr_run K (32 + n)).errors ≠ [] ∧ (mfmsr_run K (32 + n)).word = some (mfmsr K (32 + n))
      ∧ (mtmsr_run K (32 + n)).errors ≠ [] ∧ (mtmsr_run K (32 + n)).word = some (mtmsr K (32 + n))
      ∧ (ld_run K (32 + n) 0 s).errors ≠ [] ∧ (ld_run K (32 + n) 0 s).word = some (ld K (32 + n) 0 s)
      ∧ (ld_run K s 0 (32 + n)).errors ≠ [] ∧ (ld_run K s 0 (32 + n)).word = some (ld K s 0 (32 + n))
      ∧ (ld_run K 0 (0x4000 + n) 0).errors ≠ []
      ∧ (ld_run K 0 (0x4000 + n) 0).word = some (ld K 0 (0x4000 + n) 0)
      ∧ (mtocrf_run K s (32 + n)).errors ≠ [] ∧ (mtocrf_run K s (32 + n)).word = none
      ∧ (mtocrf_run K (8 + n) 0).errors ≠ [] ∧ (mtocrf_run K (8 + n) 0).word = none
      ∧ (mfspr_run power_isa 32 277).word = (mfspr_run power_isa 0 277).word := by
  have h32 : 32 + n > 31 := by omega
  have h8 : 8 + n > 7 := by omega
  have hds : 0x4000 + n > 0x3fff := by omega
  refine ⟨?_, ?_, ?_, ?_, ?_, ?_, ?_, ?_, ?_, ?_, ?_, ?_, ?_, ?_, ?_, ?_, ?_, ?_, ?_, ?_, ?_, ?_,
    ?_, ?_, ?_, ?_, ?_⟩
  all_goals first
    | rfl
    | decide
    | simp [mfspr_run, mtspr_run, mfocrf_run, mfnia_run, mtnia_run, mfmsr_run, mtmsr_run, ld_run,
        mtocrf_run, h32, h8, hds]

/-! ## The arrays handed to the sequencer -/

/-- The opcode array of `ram_putcr`: no call of `mtocrf` in it exits. -/
theorem ram_putcr_opcodes_eq (K : chip_h) :
    ram_putcr_opcodes K = some
      [mfspr K 0 277,
       K.MTOCRF_OPCODE ||| u64 (0 <<< 21) ||| u32 (1 <<< (12 + 0)),
       K.MTOCRF_OPCODE ||| u64 (0 <<< 21) ||| u32 (1 <<< (12 + 1)),
       K.MTOCRF_OPCODE ||| u64 (0 <<< 21) ||| u32 (1 <<< (12 + 2)),
       K.MTOCRF_OPCODE ||| u64 (0 <<< 21) ||| u32 (1 <<< (12 + 3)),
       K.MTOCRF_OPCODE ||| u64 (0 <<< 21) ||| u32 (1 <<< (12 + 4)),
       K.MTOCRF_OPCODE ||| u64 (0 <<< 21) ||| u32 (1 <<< (12 + 5)),
       K.MTOCRF_OPCODE ||| u64 (0 <<< 21) ||| u32 (1 <<< (12 + 6)),
       K.MTOCRF_OPCODE ||| u64 (0 <<< 21) ||| u32 (1 <<< (12 + 7))] := by
  rfl

/-- C15: ten of the eleven accessors hand `ram_instructions` two arrays of the
length they pass as count; `ram_putcr` hands it nine opcodes, the count 9 and
a result array of one slot, so that the slots 1..8, which the sequencer reads
before and writes after each of the eight `mtocrf` steps, do not exist. -/
theorem ram_putcr_results_too_short {σ : Type} (K : chip_h) (H : thread_hooks σ) (th : thread σ)
    (gpr spr value addr old : Nat) :
    (hands_over K H th (ram_getgpr_args K gpr) (ram_getgpr K H gpr th old).rc
        (ram_getgpr K H gpr th old).thread (ram_getgpr K H gpr th old).log
      ∧ (ram_getgpr_args K gpr).opcodes.length = (ram_getgpr_args K gpr).len
      ∧ (ram_getgpr_args K gpr).results.length = (ram_getgpr_args K gpr).len)
    ∧ (hands_over K H th (ram_putgpr_args K gpr value) (ram_putgpr K H gpr th value).rc
        (ram_putgpr K H gpr th value).thread (ram_putgpr K H gpr th value).log
      ∧ (ram_putgpr_args K gpr value).opcodes.length = (ram_putgpr_args K gpr value).len
      ∧ (ram_putgpr_args K gpr value).results.length = (ram_putgpr_args K gpr value).len)
    ∧ (hands_over K H th (ram_getnia_args K) (ram_getnia K H th old).rc
        (ram_getnia K H th old).thread (ram_getnia K H th old).log
      ∧ (ram_getnia_args K).opcodes.length = (ram_getnia_args K).len
      ∧ (ram_getnia_args K).results.length = (ram_getnia_args K).len)
    ∧ (hands_over K H th (ram_putnia_args K value) (ram_putnia K H th value).rc
        (ram_putnia K H th value).thread (ram_putnia K H th value).log
      ∧ (ram_putnia_args K value).opcodes.length = (ram_putnia_args K value).len
      ∧ (ram_putnia_args K value).results.length = (ram_putnia_args K value).len)
    ∧ (hands_over K H th (ram_getspr_args K spr) (ram_getspr K H spr th old).rc
        (ram_getspr K H spr th old).thread (ram_getspr K H spr th old).log
      ∧ (ram_getspr_args K spr).opcodes.length = (ram_getspr_args K spr).len
      ∧ (ram_getspr_args K spr).results.length = (ram_getspr_args K spr).len)
    ∧ (hands_over K H th (ram_putspr_args K spr value) (ram_putspr K H spr th value).rc
        (ram_putspr K H spr th value).thread (ram_putspr K H spr th value).log
      ∧ (ram_putspr_args K spr value).opcodes.length = (ram_putspr_args K spr value).len
      ∧ (ram_putspr_args K spr value).results.length = (ram_putspr_args K spr value).len)
    ∧ (hands_over K H th (ram_getmsr_args K) (ram_getmsr K H th old).rc
        (ram_getmsr K H th old).thread (ram_getmsr K H th old).log
      ∧ (ram_getmsr_args K).opcodes.length = (ram_getmsr_args K).len
      ∧ (ram_getmsr_args K).results.length = (ram_getmsr_args K).len)
    ∧ (hands_over K H th (ram_putmsr_args K value) (ram_putmsr K H th value).rc
        (ram_putmsr K H th value).thread (ram_putmsr K H th value).log
      ∧ (ram_putmsr_args K value).opcodes.length = (ram_putmsr_args K value).len
      ∧ (ram_putmsr_args K value).results.length = (ram_putmsr_args K value).len)
    ∧ (hands_over K H th (ram_getcr_args K) (ram_getcr K H th old).rc
        (ram_getcr K H th old).thread (ram_getcr K H th old).log
      ∧ (ram_getcr_args K).opcodes.length = (ram_getcr_args K).len
      ∧ (ram_getcr_args K).results.length = (ram_getcr_args K).len)
    ∧ (hands_over K H th (ram_getmem_args K addr) (ram_getmem K H th addr old).rc
        (ram_getmem K H th addr old).thread (ram_getmem K H th addr old).log
      ∧ (ram_getmem_args K addr).opcodes.length = (ram_getmem_args K addr).len
      ∧ (ram_getmem_args K addr).results.length = (ram_getmem_args K addr).len)
    ∧ (∃ a p, ram_putcr_args K value = some a ∧ ram_putcr K H th value = some p
        ∧ hands_over K H th a p.rc p.thread p.log
        ∧ a.opcodes.length = 9 ∧ a.len = 9 ∧ a.results.length = 1
        ∧ a.results[1]? = none ∧ a.results[8]? = none) := by
  refine ⟨?_, ?_, ?_, ?_, ?_, ?_, ?_, ?_, ?_, ?_, ?_⟩
  · refine ⟨⟨?_, ?_, ?_⟩, rfl, rfl⟩ <;> simp only [ram_getgpr, ram_getgpr_args] <;>
      split_ifs with h <;> first | rfl | exact (not_not.mp h).symm
  · refine ⟨⟨?_, ?_, ?_⟩, rfl, rfl⟩ <;> simp only [ram_putgpr, ram_putgpr_args] <;>
      split_ifs with h <;> first | rfl | exact (not_not.mp h).symm
  · refine ⟨⟨?_, ?_, ?_⟩, rfl, rfl⟩ <;> simp only [ram_getnia, ram_getnia_args] <;>
      split_ifs with h <;> first | rfl | exact (not_not.mp h).symm
  · refine ⟨⟨?_, ?_, ?_⟩, rfl, rfl⟩ <;> simp only [ram_putnia, ram_putnia_args] <;>
      split_ifs with h <;> first | rfl | exact (not_not.mp h).symm
  · refine ⟨⟨?_, ?_, ?_⟩, rfl, rfl⟩ <;> simp only [ram_getspr, ram_getspr_args] <;>
      split_ifs with h <;> first | rfl | exact (not_not.mp h).symm
  · refine ⟨⟨?_, ?_, ?_⟩, rfl, rfl⟩ <;> simp only [ram_putspr, ram_putspr_args] <;>
      split_ifs with h <;> first | rfl | exact (not_not.mp h).symm
  · refine ⟨⟨?_, ?_, ?_⟩, rfl, rfl⟩ <;> simp only [ram_getmsr, ram_getmsr_args] <;>
      split_ifs with h <;> first | rfl | exact (not_not.mp h).symm
  · refine ⟨⟨?_, ?_, ?_⟩, rfl, rfl⟩ <;> simp only [ram_putmsr, ram_putmsr_args] <;>
      split_ifs with h <;> first | rfl | exact (not_not.mp h).symm
  · refine ⟨⟨?_, ?_, ?_⟩, rfl, rfl⟩ <;> simp only [ram_getcr, ram_getcr_args] <;>
      split_ifs with h <;> first | rfl | exact (not_not.mp h).symm
  · refine ⟨⟨?_, ?_, ?_⟩, rfl, rfl⟩ <;> simp only [ram_getmem, ram_getmem_args] <;>
      split_ifs with h <;> first | rfl | exact (not_not.mp h).symm
  · simp only [ram_putcr_args, ram_putcr, ram_putcr_opcodes_eq, Option.map_some']
    by_cases h : (ram_instructions K H th
        [mfspr K 0 277,
         K.MTOCRF_OPCODE ||| u64 (0 <<< 21) ||| u32 (1 <<< (12 + 0)),
         K.MTOCRF_OPCODE ||| u64 (0 <<< 21) ||| u32 (1 <<< (12 + 1)),
         K.MTOCRF_OPCODE ||| u64 (0 <<< 21) ||| u32 (1 <<< (12 + 2)),
         K.MTOCRF_OPCODE ||| u64 (0 <<< 21) ||| u32 (1 <<< (12 + 3)),
         K.MTOCRF_OPCODE ||| u64 (0 <<< 21) ||| u32 (1 <<< (12 + 4)),
         K.MTOCRF_OPCODE ||| u64 (0 <<< 21) ||| u32 (1 <<< (12 + 5)),
         K.MTOCRF_OPCODE ||| u64 (0 <<< 21) ||| u32 (1 <<< (12 + 6)),
         K.MTOCRF_OPCODE ||| u64 (0 <<< 21) ||| u32 (1 <<< (12 + 7))] [u32 value]
        ([mfspr K 0 277,
         K.MTOCRF_OPCODE ||| u64 (0 <<< 21) ||| u32 (1 <<< (12 + 0)),
         K.MTOCRF_OPCODE ||| u64 (0 <<< 21) ||| u32 (1 <<< (12 + 1)),
         K.MTOCRF_OPCODE ||| u64 (0 <<< 21) ||| u32 (1 <<< (12 + 2)),
         K.MTOCRF_OPCODE ||| u64 (0 <<< 21) ||| u32 (1 <<< (12 + 3)),
         K.MTOCRF_OPCODE ||| u64 (0 <<< 21) ||| u32 (1 <<< (12 + 4)),
         K.MTOCRF_OPCODE ||| u64 (0 <<< 21) ||| u32 (1 <<< (12 + 5)),
         K.MTOCRF_OPCODE ||| u64 (0 <<< 21) ||| u32 (1 <<< (12 + 6)),
         K.MTOCRF_OPCODE ||| u64 (0 <<< 21) ||| u32 (1 <<< (12 + 7))] : List Nat).length).rc = 0
    · refine ⟨_, _, rfl, by rw [if_neg (by simpa using h)], ⟨h.symm, rfl, rfl⟩, rfl, rfl, rfl, rfl, rfl⟩
    · refine ⟨_, _, rfl, by rw [if_pos h], ⟨rfl, rfl, rfl⟩, rfl, rfl, rfl, rfl, rfl⟩

/-! ## The program-counter write -/

theorem mfspr_1_8 : mfspr power_isa 1 8 = 0x7c2802a6 := by decide
theorem mtspr_8_0 : mtspr power_isa 8 0 = 0x7c0803a6 := by decide
theorem mtspr_8_1 : mtspr power_isa 8 1 = 0x7c2803a6 := by decide
theorem mtnia_0 : mtnia power_isa 0 = 0x00000002 := by decide

/-- What the simulated thread does on each of the eight words of a
`ram_putnia` run. -/
theorem cpu_sim_steps (b : Bool) (th : thread cpu) (sc : Nat) :
    (cpu_sim power_isa b).ram_instruction th 0x7c3543a6 sc = ⟨0, th.hw.gpr 1, th⟩
      ∧ (cpu_sim power_isa b).ram_instruction th 0x7c1543a6 sc = ⟨0, th.hw.gpr 0, th⟩
      ∧ (cpu_sim power_isa b).ram_instruction th 0x7c2802a6 sc
          = ⟨0, sc, { th with hw := { th.hw with
              gpr := Function.update th.hw.gpr 1 (th.hw.spr 8) } }⟩
      ∧ (cpu_sim power_isa b).ram_instruction th 0x7c1542a6 sc
          = ⟨0, sc, { th with hw := { th.hw with gpr := Function.update th.hw.gpr 0 sc } }⟩
      ∧ (cpu_sim power_isa b).ram_instruction th 0x7c0803a6 sc
          = ⟨0, sc, { th with hw := { th.hw with
              spr := Function.update th.hw.spr 8 (th.hw.gpr 0) } }⟩
      ∧ (cpu_sim power_isa b).ram_instruction th 0x00000002 sc
          = ⟨0, sc, { th with hw := { th.hw with
              nia := if b = true then th.hw.spr 8 else th.hw.gpr 0 } }⟩
      ∧ (cpu_sim power_isa b).ram_instruction th 0x7c2803a6 sc
          = ⟨0, sc, { th with hw := { th.hw with
              spr := Function.update th.hw.spr 8 (th.hw.gpr 1) } }⟩
      ∧ (cpu_sim power_isa b).ram_instruction th 0x7c3542a6 sc
          = ⟨0, sc, { th with hw := { th.hw with gpr := Function.update th.hw.gpr 1 sc } }⟩ := by
  have r1 : opcode_reg 0x7c3543a6 = 1 := by decide
  have s1 : opcode_spr 0x7c3543a6 = 277 := by decide
  have r2 : opcode_reg 0x7c1543a6 = 0 := by decide
  have s2 : opcode_spr 0x7c1543a6 = 277 := by decide
  have r3 : opcode_reg 0x7c2802a6 = 1 := by decide
  have s3 : opcode_spr 0x7c2802a6 = 8 := by decide
  have r4 : opcode_reg 0x7c1542a6 = 0 := by decide
  have s4 : opcode_spr 0x7c1542a6 = 277 := by decide
  have r5 : opcode_reg 0x7c0803a6 = 0 := by decide
  have s5 : opcode_spr 0x7c0803a6 = 8 := by decide
  have r6 : opcode_reg 0x00000002 = 0 := by decide
  have s6 : opcode_spr 0x00000002 = 0 := by decide
  have r7 : opcode_reg 0x7c2803a6 = 1 := by decide
  have s7 : opcode_spr 0x7c2803a6 = 8 := by decide
  have r8 : opcode_reg 0x7c3542a6 = 1 := by decide
  have s8 : opcode_spr 0x7c3542a6 = 277 := by decide
  have m1 : mtspr power_isa 8 1 = 0x7c2803a6 := by decide
  have m2 : mtspr power_isa 8 0 = 0x7c0803a6 := by decide
  have m3 : mfspr power_isa 1 8 = 0x7c2802a6 := by decide
  have m4 : mtspr power_isa 0 0 = 0x7c0003a6 := by decide
  have m5 : mfspr power_isa 0 0 = 0x7c0002a6 := by decide
  have m6 : mtnia power_isa 0 = 0x00000002 := by decide
  have m7 : mtspr power_isa 277 1 = 0x7c3543a6 := by decide
  have m8 : mtspr power_isa 277 0 = 0x7c1543a6 := by decide
  have m9 : mfspr power_isa 1 277 = 0x7c3542a6 := by decide
  have m10 : mfspr power_isa 0 277 = 0x7c1542a6 := by decide
  refine ⟨?_, ?_, ?_, ?_, ?_, ?_, ?_, ?_⟩ <;>
    simp [cpu_sim, r1, s1, r2, s2, r3, s3, r4, s4, r5, s5, r6, s6, r7, s7, r8, s8,
      m1, m2, m3, m4, m5, m6, m7, m8, m9, m10]

/-- C20: on the simulated thread, whichever of r0 and the link register
`mtnia` loads from, `ram_putnia(thread, v)` returns 0 and changes nothing but
the next-instruction address, which becomes `v`: the link register, r0, r1 and
all other registers hold their values of before the call. -/
theorem ram_putnia_sets_nia_only (from_lr : Bool) (th : thread cpu) (v : Nat) :
    (ram_putnia power_isa (cpu_sim power_isa from_lr) th v).rc = 0
      ∧ (ram_putnia power_isa (cpu_sim power_isa from_lr) th v).thread
          = { th with hw := { th.hw with nia := v } } := by
  obtain ⟨h1, h2, h3, h4, h5, h6, h7, h8⟩ :
      (∀ th sc, (cpu_sim power_isa from_lr).ram_instruction th 0x7c3543a6 sc = _)
      ∧ (∀ th sc, (cpu_sim power_isa from_lr).ram_instruction th 0x7c1543a6 sc = _)
      ∧ (∀ th sc, (cpu_sim power_isa from_lr).ram_instruction th 0x7c2802a6 sc = _)
      ∧ (∀ th sc, (cpu_sim power_isa from_lr).ram_instruction th 0x7c1542a6 sc = _)
      ∧ (∀ th sc, (cpu_sim power_isa from_lr).ram_instruction th 0x7c0803a6 sc = _)
      ∧ (∀ th sc, (cpu_sim power_isa from_lr).ram_instruction th 0x00000002 sc = _)
      ∧ (∀ th sc, (cpu_sim power_isa from_lr).ram_instruction th 0x7c2803a6 sc = _)
      ∧ (∀ th sc, (cpu_sim power_isa from_lr).ram_instruction th 0x7c3542a6 sc = _) :=
    ⟨fun th sc => (cpu_sim_steps from_lr th sc).1,
     fun th sc => (cpu_sim_steps from_lr th sc).2.1,
     fun th sc => (cpu_sim_steps from_lr th sc).2.2.1,
     fun th sc => (cpu_sim_steps from_lr th sc).2.2.2.1,
     fun th sc => (cpu_sim_steps from_lr th sc).2.2.2.2.1,
     fun th sc => (cpu_sim_steps from_lr th sc).2.2.2.2.2.1,
     fun th sc => (cpu_sim_steps from_lr th sc).2.2.2.2.2.2.1,
     fun th sc => (cpu_sim_steps from_lr th sc).2.2.2.2.2.2.2⟩
  have hsu : ∀ t, (cpu_sim power_isa from_lr).ram_setup t = ⟨0, { t with ram_is_setup := true }⟩ :=
    fun _ => rfl
  have hde : ∀ t, (cpu_sim power_isa from_lr).ram_destroy t
      = ⟨0, { t with ram_is_setup := false }⟩ := fun _ => rfl
  obtain ⟨id, st, su, ⟨g, s, n⟩⟩ := th
  have hg : Function.update (Function.update (Function.update (Function.update g 1 (s 8)) 0 v)
      0 (g 0)) 1 (g 1) = g := by
    funext k
    by_cases k1 : k = 1
    · subst k1; simp
    · by_cases k0 : k = 0
      · subst k0; simp
      · simp [Function.update, k0, k1]
  have hg2 : ∀ x, Function.update (Function.update (Function.update g 1 x) 0 (g 0)) 1 (g 1)
      = g := by
    intro x; funext k
    by_cases k1 : k = 1
    · subst k1; simp
    · by_cases k0 : k = 0
      · subst k0; simp
      · simp [Function.update, k0, k1]
  have hs : ∀ x, Function.update (Function.update s 8 x) 8 (s 8) = s := by
    intro x; funext k
    by_cases k8 : k = 8
    · subst k8; simp
    · simp [Function.update, k8]
  cases su <;> cases from_lr <;>
    simp [ram_putnia, ram_instructions, ram_entry, ram_loop_eq, ram_issue, ram_select, ram_store,
      mtspr_277_0, mtspr_277_1, mfspr_0_277, mfspr_1_277, mfspr_1_8, mtspr_8_0, mtspr_8_1,
      mtnia_0, h1, h2, h3, h4, h5, h6, h7, h8, hsu, hde, hg, hg2, hs]

/-! ## The SBE FIFO operation -/

/-- C16: when the request is written, the reply of `L` bytes is read into the
buffer, the allocations succeed and the trailer word `w` has `3 <= w <= L/4`,
`sbefifo_operation` returns; it returns 0 exactly if `L >= 12`, the word at
byte offset `L - 4w` is `0xC0DE0000 | cmd` and the next word is 0; and then
`*out_len` is `L - 4w` and `*out` holds the first `L - 4w` bytes of the reply,
or is NULL if there are none. -/
theorem sbefifo_operation_success_iff (E : errno_h) (env : fifo_env)
    (msg_len cmd out_len : Nat) (reply : List Nat) (w : Nat)
    (hproto : E.EPROTO ≠ 0) (hcmd : cmd < 2 ^ 16)
    (halloc : env.buf_alloc = true) (hout : env.out_alloc = true)
    (hwrite : sbefifo_write E env.write msg_len = some 0)
    (hread : env.read = sys_result.ok reply)
    (hfit : reply.length ≤ fifo_buflen out_len)
    (htrailer : be32_at reply (reply.length - 4) = some w)
    (h3 : 3 ≤ w) (hwL : w ≤ reply.length / 4) :
    ∃ o, sbefifo_operation E env msg_len cmd out_len = fifo_run.returned o
      ∧ (o.rc = 0 ↔ 12 ≤ reply.length
          ∧ be32_at reply (reply.length - 4 * w) = some (0xC0DE0000 ||| cmd)
          ∧ be32_at reply (reply.length - 4 * w + 4) = some 0)
      ∧ (o.rc = 0 → o.out_len = reply.length - 4 * w
          ∧ o.out = if reply.length - 4 * w = 0 then out_ptr.null
              else out_ptr.bytes (reply.take (reply.length - 4 * w))) := by
  have hL12 : 12 ≤ reply.length := by omega
  have hcap : fifo_buflen out_len < 2 ^ 32 := by
    unfold fifo_buflen
    exact lt_of_le_of_lt Nat.and_le_right (by norm_num)
  have hmsg : msg_len ≠ 0 := by
    intro h; rw [h] at hwrite; simp [sbefifo_write] at hwrite
  have hcap0 : fifo_buflen out_len ≠ 0 := by omega
  have htake : reply.take (fifo_buflen out_len) = reply := List.take_of_length_le hfit
  have hoff : u32 (u64 (reply.length + 2 ^ 64 - u32 (w * 4))) = reply.length - 4 * w := by
    have h1 : u32 (w * 4) = w * 4 := by unfold u32; exact Nat.mod_eq_of_lt (by omega)
    rw [h1]
    have h2 : reply.length + 2 ^ 64 - w * 4 = (reply.length - 4 * w) + 2 ^ 64 := by omega
    rw [h2]
    unfold u64 u32
    rw [Nat.add_mod_right, Nat.mod_eq_of_lt (by omega), Nat.mod_eq_of_lt (by omega)]
  have hoff4 : u32 (reply.length - 4 * w + 4) = reply.length - 4 * w + 4 := by
    unfold u32; exact Nat.mod_eq_of_lt (by omega)
  have hh : ∃ hd, be32_at reply (reply.length - 4 * w) = some hd := by
    unfold be32_at; rw [if_pos (by omega)]; exact ⟨_, rfl⟩
  have hs : ∃ sw, be32_at reply (reply.length - 4 * w + 4) = some sw := by
    unfold be32_at; rw [if_pos (by omega)]; exact ⟨_, rfl⟩
  obtain ⟨hd, hhd⟩ := hh
  obtain ⟨sw, hsw⟩ := hs
  have hcmd16 : cmd % 2 ^ 16 = cmd := Nat.mod_eq_of_lt hcmd
  unfold sbefifo_operation
  rw [if_neg hmsg, halloc, if_neg (by simp), hwrite]
  simp only [ne_eq, not_true_eq_false, if_false, hread, sbefifo_read, if_neg hcap0, htake]
  unfold sbefifo_reply
  rw [if_neg (by omega), htrailer]
  simp only [hoff, hhd, hoff4, hsw, hcmd16, hout]
  by_cases c1 : hd = 0xc0de0000 ||| cmd
  · by_cases c2 : sw = 0
    · subst c1 c2
      by_cases c3 : reply.length - 4 * w > 0
      · simp [c3]
        exact ⟨hL12, by rw [if_neg (by omega)]⟩
      · simp [c3]
        exact ⟨hL12, by rw [if_pos (by omega)]⟩
    · subst c1
      simp [c2, hL12]
  · simp [c1, hproto, hL12]

/-- C16 on a reply of 16 bytes with trailer 3: the call returns 0 and gives
the first four bytes. -/
theorem sbefifo_operation_success_iff_witness :
    ∃ o, sbefifo_operation linux_errno good_env 8 0xA101 0 = fifo_run.returned o
      ∧ (o.rc = 0 ↔ 12 ≤ 16
          ∧ be32_at [0xAA, 0xBB, 0xCC, 0xDD, 0xC0, 0xDE, 0xA1, 0x01, 0, 0, 0, 0, 0, 0, 0, 3]
              (16 - 4 * 3) = some (0xC0DE0000 ||| 0xA101)
          ∧ be32_at [0xAA, 0xBB, 0xCC, 0xDD, 0xC0, 0xDE, 0xA1, 0x01, 0, 0, 0, 0, 0, 0, 0, 3]
              (16 - 4 * 3 + 4) = some 0)
      ∧ (o.rc = 0 → o.out_len = 16 - 4 * 3
          ∧ o.out = if 16 - 4 * 3 = 0 then out_ptr.null
              else out_ptr.bytes
                (([0xAA, 0xBB, 0xCC, 0xDD, 0xC0, 0xDE, 0xA1, 0x01, 0, 0, 0, 0, 0, 0, 0, 3] :
                  List Nat).take (16 - 4 * 3))) :=
  sbefifo_operation_success_iff linux_errno good_env 8 0xA101 0
    [0xAA, 0xBB, 0xCC, 0xDD, 0xC0, 0xDE, 0xA1, 0x01, 0, 0, 0, 0, 0, 0, 0, 3] 3
    (by decide) (by decide) rfl rfl (by decide) rfl (by decide) (by decide) (by decide)
    (by decide)

/-! ## Release of a POWER10 core -/

/-- The flag after the loop: it is still set exactly if it was set before and
no child released by the loop had a quiesced cached status. -/
theorem p10_core_sweep_flag {σ : Type} (probe : σ → thread_target → thread_target × σ)
    (l : List thread_target) :
    ∀ (f : Bool) (hw : σ),
      ((p10_core_sweep probe l f hw).release_spwkup = true
        ↔ f = true ∧ ∀ t, sweep_event.released t ∈ (p10_core_sweep probe l f hw).events →
            t.status.quiesced = false) := by
  induction l with
  | nil => intro f hw; simp [p10_core_sweep]
  | cons child rest ih =>
    intro f hw
    unfold p10_core_sweep
    by_cases h1 : child.target_status = pdbg_target_status.PDBG_TARGET_RELEASED
    · simp only [h1, if_true]
      rw [ih f hw]
      simp
    · simp only [h1, if_false]
      by_cases h2 : (probe hw child).1.target_status = pdbg_target_status.PDBG_TARGET_ENABLED
      · simp only [h2, ne_eq, not_true_eq_false, if_false]
        rw [ih]
        simp only [pdbg_target_release, h2, if_true, p10_thread_release, List.mem_cons,
          sweep_event.released.injEq]
        constructor
        · rintro ⟨hf, hr⟩
          by_cases hq : (probe hw child).1.status.quiesced = true
          · simp [hq] at hf
          · simp only [hq, if_false] at hf
            refine ⟨hf, ?_⟩
            rintro t (rfl | ht)
            · simpa using hq
            · exact hr t ht
        · rintro ⟨hf, hr⟩
          have hq := hr _ (Or.inl rfl)
          refine ⟨by simp [hq, hf], fun t ht => hr t (Or.inr ht)⟩
      · simp only [h2, ne_eq, not_false_eq_true, if_true]
        rw [ih]
        simp

/-- The children that the loop found released are the children released on
entry. -/
theorem p10_core_sweep_was_released {σ : Type}
    (probe : σ → thread_target → thread_target × σ) (l : List thread_target) :
    ∀ (f : Bool) (hw : σ) (t : thread_target),
      (sweep_event.was_released t ∈ (p10_core_sweep probe l f hw).events
        ↔ t ∈ l ∧ t.target_status = pdbg_target_status.PDBG_TARGET_RELEASED) := by
  induction l with
  | nil => intro f hw t; simp [p10_core_sweep]
  | cons child rest ih =>
    intro f hw t
    unfold p10_core_sweep
    by_cases h1 : child.target_status = pdbg_target_status.PDBG_TARGET_RELEASED
    · simp only [h1, if_true, List.mem_cons, sweep_event.was_released.injEq, ih]
      constructor
      · rintro (rfl | ⟨h, h'⟩)
        · exact ⟨Or.inl rfl, h1⟩
        · exact ⟨Or.inr h, h'⟩
      · rintro ⟨rfl | h, h'⟩
        · exact Or.inl rfl
        · exact Or.inr ⟨h, h'⟩
    · simp only [h1, if_false]
      by_cases h2 : (probe hw child).1.target_status = pdbg_target_status.PDBG_TARGET_ENABLED
      · simp only [h2, ne_eq, not_true_eq_false, if_false, List.mem_cons, ih, reduceCtorEq,
          false_or]
        constructor
        · rintro ⟨h, h'⟩; exact ⟨Or.inr h, h'⟩
        · rintro ⟨rfl | h, h'⟩
          · exact absurd h' h1
          · exact ⟨h, h'⟩
      · simp only [h2, ne_eq, not_false_eq_true, if_true, List.mem_cons, ih, reduceCtorEq,
          false_or]
        constructor
        · rintro ⟨h, h'⟩; exact ⟨Or.inr h, h'⟩
        · rintro ⟨rfl | h, h'⟩
          · exact absurd h' h1
          · exact ⟨h, h'⟩

/-- The loop visits every child once. -/
theorem p10_core_sweep_length {σ : Type} (probe : σ → thread_target → thread_target × σ)
    (l : List thread_target) :
    ∀ (f : Bool) (hw : σ), (p10_core_sweep probe l f hw).events.length = l.length := by
  induction l with
  | nil => intro f hw; simp [p10_core_sweep]
  | cons child rest ih =>
    intro f hw
    unfold p10_core_sweep
    by_cases h1 : child.target_status = pdbg_target_status.PDBG_TARGET_RELEASED
    · simp [h1, ih]
    · by_cases h2 : (probe hw child).1.target_status = pdbg_target_status.PDBG_TARGET_ENABLED
      · simp [h1, h2, ih]
      · simp [h1, h2, ih]

/-- C13 as the code has it: for a probed core whose flag `release_spwkup` is
still set exactly if no child released before had a quiesced cached status,
`p10_core_release` visits every child once and writes 0 to `QME_SPWU_FSP`
(its only bus access) if and only if every child was either released before
with a non-quiesced cached status, or released by the loop with a non-quiesced
cached status, or skipped by the loop because its probe did not give
`PDBG_TARGET_ENABLED`; a skipped child never keeps the write back. -/
theorem p10_core_release_write_iff {σ : Type} (B : pib σ)
    (probe : σ → thread_target → thread_target × σ) (c : core σ)
    (hentry : c.release_spwkup = true ↔
      ∀ t ∈ c.threads, t.target_status = pdbg_target_status.PDBG_TARGET_RELEASED →
        t.status.quiesced = false) :
    (p10_core_release B probe c).events.length = c.threads.length
      ∧ ((p10_core_release B probe c).ops ≠ [] ↔
          ∀ e ∈ (p10_core_release B probe c).events, e.quiesced = false)
      ∧ ((p10_core_release B probe c).ops ≠ [] →
          ∃ rc, (p10_core_release B probe c).ops = [bus_op.write QME_SPWU_FSP 0 rc])
      ∧ ((∃ t, sweep_event.released t ∈ (p10_core_release B probe c).events
            ∧ t.status.quiesced = true) → (p10_core_release B probe c).ops = []) := by
  have hev : (p10_core_release B probe c).events
      = (p10_core_sweep probe c.threads c.release_spwkup c.hw).events := by
    unfold p10_core_release; simp only; split_ifs <;> rfl
  have hops : ((p10_core_release B probe c).ops ≠ [] ↔
      (p10_core_sweep probe c.threads c.release_spwkup c.hw).release_spwkup = true) := by
    unfold p10_core_release; simp only; split_ifs with h <;> simp [h]
  have hflag := p10_core_sweep_flag probe c.threads c.release_spwkup c.hw
  have hwas := p10_core_sweep_was_released probe c.threads c.release_spwkup c.hw
  have hiff : ((p10_core_release B probe c).ops ≠ [] ↔
      ∀ e ∈ (p10_core_release B probe c).events, e.quiesced = false) := by
    rw [hops, hflag, hev, hentry]
    constructor
    · rintro ⟨h1, h2⟩ e he
      cases e with
      | was_released t =>
        have := (hwas t).mp he
        exact h1 t this.1 this.2
      | skipped t => rfl
      | released t => exact h2 t he
    · intro h
      refine ⟨fun t ht hr => ?_, fun t ht => h _ ht⟩
      exact h _ ((hwas t).mpr ⟨ht, hr⟩)
  refine ⟨by rw [hev, p10_core_sweep_length], hiff, ?_, ?_⟩
  · unfold p10_core_release; simp only; split_ifs with h
    · simp
    · intro _; exact ⟨_, rfl⟩
  · rintro ⟨t, ht, hq⟩
    by_contra hne
    have := hiff.mp hne _ ht
    simp [sweep_event.quiesced, hq] at this

/-- C13 on a core with four threads, none of them quiesced when released: the
write is made. -/
theorem p10_core_release_write_iff_witness :
    (core_with_four_threads.release_spwkup = true ↔
      ∀ t ∈ core_with_four_threads.threads,
        t.target_status = pdbg_target_status.PDBG_TARGET_RELEASED →
          t.status.quiesced = false)
      ∧ (p10_core_release echo_bus enabling_probe core_with_four_threads).events.length
          = core_with_four_threads.threads.length
      ∧ ((p10_core_release echo_bus enabling_probe core_with_four_threads).ops ≠ [] ↔
          ∀ e ∈ (p10_core_release echo_bus enabling_probe core_with_four_threads).events,
            e.quiesced = false)
      ∧ ((p10_core_release echo_bus enabling_probe core_with_four_threads).ops ≠ [] →
          ∃ rc, (p10_core_release echo_bus enabling_probe core_with_four_threads).ops
            = [bus_op.write QME_SPWU_FSP 0 rc])
      ∧ ((∃ t, sweep_event.released t
              ∈ (p10_core_release echo_bus enabling_probe core_with_four_threads).events
            ∧ t.status.quiesced = true) →
          (p10_core_release echo_bus enabling_probe core_with_four_threads).ops = []) :=
  ⟨by decide, p10_core_release_write_iff echo_bus enabling_probe core_with_four_threads
    (by decide)⟩

/-- C13 fails on a probed core whose only thread could not be enabled: the
thread was not released before and is not released by the loop (it is skipped
and stays disabled), and yet 0 is written to `QME_SPWU_FSP`. -/
theorem p10_core_release_counterexample :
    (p10_core_release echo_bus enabling_probe core_with_disabled_thread).ops
        = [bus_op.write QME_SPWU_FSP 0 0]
      ∧ (p10_core_release echo_bus enabling_probe core_with_disabled_thread).events
        = [sweep_event.skipped ⟨pdbg_target_status.PDBG_TARGET_DISABLED, 0, idle_status⟩]
      ∧ (p10_core_release echo_bus enabling_probe core_with_disabled_thread).core.threads
        = [⟨pdbg_target_status.PDBG_TARGET_DISABLED, 0, idle_status⟩] := by
  decide

/-! ## The result slots after a failed user step -/

section
variable {σ : Type} (K : chip_h) (H : thread_hooks σ) (opcodes : List Nat) (len : Int)

/-- From the restore iterations on the loop does not touch the result array. -/
theorem ram_loop_tail_results (h0 : 0 ≤ len) (i : Int) (st : ram_locals σ) :
    len ≤ i → (ram_loop K H opcodes len i st).results = st.results := by
  induction i, st using ram_loop.induct K H opcodes len with
  | case1 i st h r hrc h2 ih =>
    intro hi; omega
  | case2 i st h r hrc h2 =>
    intro hi
    rw [ram_loop_break K H opcodes len i st h (by omega) hrc]
    simp
  | case3 i st h r hrc ih =>
    intro hi
    have hrc0 : (ram_issue H i (ram_select K opcodes len i st)).1 = 0 := by
      simpa [r] using hrc
    rw [ram_loop_ok K H opcodes len i st h hrc0, ih (by omega),
      ram_store_restore len i _ h0 hi]
    simp [r]
  | case4 i st h =>
    intro _
    rw [ram_loop_done K H opcodes len i st h]

/-- The result array keeps its length through the loop. -/
theorem ram_loop_results_length (i : Int) (st : ram_locals σ) :
    (ram_loop K H opcodes len i st).results.length = st.results.length := by
  induction i, st using ram_loop.induct K H opcodes len with
  | case1 i st h r hrc h2 ih =>
    have e : len - 1 + 1 = len := by omega
    rw [e] at ih
    rw [ram_loop_user_fail K H opcodes len i st h2.1 h2.2 hrc, ih]
    unfold ram_store; split_ifs <;> simp [r]
  | case2 i st h r hrc h2 =>
    rw [ram_loop_break K H opcodes len i st h (by omega) hrc]
    simp
  | case3 i st h r hrc ih =>
    have hrc0 : (ram_issue H i (ram_select K opcodes len i st)).1 = 0 := by
      simpa [r] using hrc
    rw [ram_loop_ok K H opcodes len i st h hrc0, ih]
    unfold ram_store; split_ifs <;> simp [r]
  | case4 i st h =>
    rw [ram_loop_done K H opcodes len i st h]

/-- The loop entered at an iteration `i <= k` in which a call of the user
iteration `k` is made and fails: that call is the one that ends the user
steps; its scratch value is in the last slot, the slots from `k` to the last
but one are as they were, the slots below `k` and below `i` too, and the
slots from `i` to `k - 1` hold what their own successful steps left. -/
theorem ram_loop_failed_step (k : Nat) (hk : (k : Int) < len) (i : Int) (st : ram_locals σ) :
    -2 ≤ i → i ≤ k → st.results.length = len.toNat →
    (∀ c, hook_call.instruction c ∈ st.log → c.iter < i) →
    ∀ c, hook_call.instruction c ∈ (ram_loop K H opcodes len i st).log →
      c.iter = k → c.rc ≠ 0 →
      (ram_loop K H opcodes len i st).results[(len - 1).toNat]? = some c.scratch_out
        ∧ (∀ t : Nat, k ≤ t → (t : Int) < len - 1 →
            (ram_loop K H opcodes len i st).results[t]? = st.results[t]?)
        ∧ (∀ t : Nat, (t : Int) < i → t < k →
            (ram_loop K H opcodes len i st).results[t]? = st.results[t]?)
        ∧ (∀ t : Nat, i ≤ (t : Int) → t < k →
            ∃ d, hook_call.instruction d ∈ (ram_loop K H opcodes len i st).log
              ∧ d.iter = t ∧ d.rc = 0
              ∧ (ram_loop K H opcodes len i st).results[t]? = some d.scratch_out) := by
  have h0 : 0 ≤ len := by omega
  induction i, st using ram_loop.induct K H opcodes len with
  | case1 i st h r hrc h2 ih =>
    intro hi2 hik hlen hlog c hc hiter hcrc
    have hrc1 : (ram_made K H opcodes len i st).rc ≠ 0 := by simpa [r] using hrc
    have hab := ram_loop_abort K H opcodes len i st h2.1 h2.2 hrc1
    obtain ⟨l, hl, hq⟩ := ram_loop_iters K H opcodes len len
      ({ (ram_issue H i (ram_select K opcodes len i st)).2 with
          exception := 1
          results := st.results.set (len - 1).toNat
            (ram_made K H opcodes len i st).scratch_out } : ram_locals σ)
    have hres := ram_loop_tail_results K H opcodes len h0 len
      ({ (ram_issue H i (ram_select K opcodes len i st)).2 with
          exception := 1
          results := st.results.set (len - 1).toNat
            (ram_made K H opcodes len i st).scratch_out } : ram_locals σ) (le_refl _)
    rw [hab] at hc ⊢
    rw [hres]
    rw [hl] at hc
    simp only [ram_issue_log, List.mem_append, List.mem_singleton, List.mem_map,
      hook_call.instruction.injEq, exists_eq_right] at hc
    have hcm : c = ram_made K H opcodes len i st := by
      rcases hc with (hc | hc) | hc
      · have := hlog c hc; omega
      · exact hc
      · have := hq c hc; omega
    have hi : i = k := by rw [← hiter, hcm]; rfl
    subst hcm
    refine ⟨?_, ?_, ?_, ?_⟩
    · simp only
      rw [List.getElem?_set_self (by omega)]
    · intro t h1 h2
      simp only
      rw [List.getElem?_set_ne (by omega)]
    · intro t h1 h2
      simp only
      rw [List.getElem?_set_ne (by omega)]
    · intro t h1 h2; omega
  | case2 i st h r hrc h2 =>
    intro hi2 hik hlen hlog c hc hiter hcrc
    rw [ram_loop_break K H opcodes len i st h (by omega) hrc] at hc
    simp only [ram_issue_log, List.mem_append, List.mem_singleton,
      hook_call.instruction.injEq] at hc
    rcases hc with hc | hc
    · have := hlog c hc; omega
    · have : c.iter = i := by rw [hc]; rfl
      omega
  | case3 i st h r hrc ih =>
    intro hi2 hik hlen hlog c hc hiter hcrc
    have hrc0 : (ram_issue H i (ram_select K opcodes len i st)).1 = 0 := by
      simpa [r] using hrc
    have hnext := ram_loop_ok K H opcodes len i st h hrc0
    simp only [r] at ih
    have hmrc : (ram_made K H opcodes len i st).rc = 0 := by simpa using hrc0
    -- the failing call of iteration `k` is a later one
    have hlt : i < k := by
      by_contra hge
      have hik2 : i = k := by omega
      obtain ⟨l, hl, hq⟩ := ram_loop_iters K H opcodes len (i + 1)
        (ram_store len i (ram_issue H i (ram_select K opcodes len i st)).2)
      rw [hnext, hl] at hc
      simp only [ram_store_log, ram_issue_log, List.mem_append, List.mem_singleton,
        List.mem_map, hook_call.instruction.injEq, exists_eq_right] at hc
      rcases hc with (hc | hc) | hc
      · have := hlog c hc; omega
      · rw [hc] at hcrc; exact hcrc hmrc
      · have := hq c hc; omega
    have hlen2 : (ram_store len i (ram_issue H i (ram_select K opcodes len i st)).2).results.length
        = len.toNat := by
      unfold ram_store; split_ifs <;> simp [hlen]
    have hlog2 : ∀ c, hook_call.instruction c
        ∈ (ram_store len i (ram_issue H i (ram_select K opcodes len i st)).2).log →
        c.iter < i + 1 := by
      intro c hc
      simp only [ram_store_log, ram_issue_log, List.mem_append, List.mem_singleton,
        hook_call.instruction.injEq] at hc
      rcases hc with hc | hc
      · have := hlog c hc; omega
      · have : c.iter = i := by rw [hc]; rfl
        omega
    rw [hnext] at hc ⊢
    obtain ⟨b1, b2, b3, b4⟩ := ih (by omega) (by omega) hlen2 hlog2 c hc hiter hcrc
    -- what the store of this iteration did to a slot other than `i`
    have hother : ∀ t : Nat, (t : Int) ≠ i →
        (ram_store len i (ram_issue H i (ram_select K opcodes len i st)).2).results[t]?
          = st.results[t]? := by
      intro t ht
      unfold ram_store
      split_ifs
      · simp
      · simp
      · simp only [ram_issue_results]
        rw [List.getElem?_set_ne (by omega)]
      · simp
    refine ⟨b1, ?_, ?_, ?_⟩
    · intro t h1 h2
      rw [b2 t h1 h2, hother t (by omega)]
    · intro t h1 h2
      rw [b3 t (by omega) h2, hother t (by omega)]
    · intro t h1 h2
      by_cases hti : (t : Int) = i
      · refine ⟨ram_made K H opcodes len i st, ?_, by rw [hti]; rfl, hmrc, ?_⟩
        · obtain ⟨l, hl⟩ := ram_loop_log_ext K H opcodes len (i + 1)
            (ram_store len i (ram_issue H i (ram_select K opcodes len i st)).2)
          rw [hl]
          simp
        · rw [b3 t (by omega) h2]
          have a : ¬ i = -2 := by omega
          have b : ¬ i = -1 := by omega
          have c3 : i < len := by omega
          have e : i.toNat = t := by omega
          simp only [ram_store, a, b, c3, if_false, if_true, ram_issue_results,
            ram_issue_scratch, e]
          rw [List.getElem?_set_self (by omega)]
      · exact b4 t (by omega) h2
  | case4 i st h =>
    intro _ hik; omega

end

section
variable {σ : Type} (K : chip_h) (H : thread_hooks σ) (th : thread σ)
  (opcodes results : List Nat)

/-- C21: when the transport call of user opcode `k` fails in a run of
`ram_instructions` (a call of iteration `k` is in the log with a return code
other than 0), the last slot `results[N-1]` holds the scratch value left by
that call, every slot `j` with `k <= j < N-1` holds the value the caller
supplied, and every slot below `k` holds the scratch value stored by its own
successful step; the array keeps its length. -/
theorem ram_instructions_failed_step_slots (k : Nat) (hk : k < opcodes.length)
    (hres : results.length = opcodes.length) (c : ram_call)
    (hc : c ∈ ram_calls (ram_instructions K H th opcodes results opcodes.length).log)
    (hiter : c.iter = k) (hrc : c.rc ≠ 0) :
    (ram_instructions K H th opcodes results opcodes.length).results.length = opcodes.length
      ∧ (ram_instructions K H th opcodes results opcodes.length).results[opcodes.length - 1]?
          = some c.scratch_out
      ∧ (∀ j, k ≤ j → j < opcodes.length - 1 →
          (ram_instructions K H th opcodes results opcodes.length).results[j]? = results[j]?)
      ∧ (∀ j, j < k →
          ∃ d ∈ ram_calls (ram_instructions K H th opcodes results opcodes.length).log,
            d.iter = j ∧ d.rc = 0
              ∧ (ram_instructions K H th opcodes results opcodes.length).results[j]?
                = some d.scratch_out) := by
  have hkl : (k : Int) < (opcodes.length : Int) := by omega
  have hN : ((opcodes.length : Int) - 1).toNat = opcodes.length - 1 := by omega
  have key : ∀ (t0 : thread σ) (log0 : List hook_call),
      (∀ c, hook_call.instruction c ∈ log0 → c.iter < -2) →
      hook_call.instruction c
        ∈ (ram_loop K H opcodes opcodes.length (-2) (ram_entry t0 results log0)).log →
      (ram_loop K H opcodes opcodes.length (-2) (ram_entry t0 results log0)).results.length
          = opcodes.length
        ∧ (ram_loop K H opcodes opcodes.length (-2)
            (ram_entry t0 results log0)).results[opcodes.length - 1]? = some c.scratch_out
        ∧ (∀ j, k ≤ j → j < opcodes.length - 1 →
            (ram_loop K H opcodes opcodes.length (-2)
              (ram_entry t0 results log0)).results[j]? = results[j]?)
        ∧ (∀ j, j < k →
            ∃ d, hook_call.instruction d
                ∈ (ram_loop K H opcodes opcodes.length (-2) (ram_entry t0 results log0)).log
              ∧ d.iter = j ∧ d.rc = 0
              ∧ (ram_loop K H opcodes opcodes.length (-2)
                  (ram_entry t0 results log0)).results[j]? = some d.scratch_out) := by
    intro t0 log0 hlog0 hmem
    obtain ⟨b1, b2, b3, b4⟩ := ram_loop_failed_step K H opcodes opcodes.length k hkl (-2)
      (ram_entry t0 results log0) (by omega) (by omega) (by simp [ram_entry, hres])
      (by simpa [ram_entry] using hlog0) c hmem hiter hrc
    refine ⟨?_, ?_, ?_, ?_⟩
    · rw [ram_loop_results_length]; simp [ram_entry, hres]
    · rw [← hN]; exact b1
    · intro j h1 h2
      have := b2 j h1 (by omega)
      simpa [ram_entry] using this
    · intro j h1
      exact b4 j (by omega) h1
  by_cases h : th.ram_is_setup = true
  · rw [ram_instructions_open K H th opcodes results _ h] at hc ⊢
    simp only at hc ⊢
    obtain ⟨a1, a2, a3, a4⟩ := key th [] (by simp) ((mem_ram_calls c _).1 hc)
    refine ⟨a1, a2, a3, ?_⟩
    intro j hj
    obtain ⟨d, d1, d2, d3, d4⟩ := a4 j hj
    exact ⟨d, (mem_ram_calls d _).2 d1, d2, d3, d4⟩
  · have h : th.ram_is_setup = false := by simpa using h
    have hs : (H.ram_setup th).rc = 0 := by
      by_contra hs
      rw [ram_instructions_refused K H th opcodes results _ h hs] at hc
      simp [ram_calls] at hc
    obtain ⟨e1, e2, -⟩ := ram_instructions_fresh K H th opcodes results opcodes.length h hs
    rw [e1] at hc ⊢
    rw [e2]
    have hc2 : hook_call.instruction c
        ∈ (ram_loop K H opcodes opcodes.length (-2)
            (ram_entry (H.ram_setup th).thread results [hook_call.setup 0])).log := by
      have := (mem_ram_calls c _).1 hc
      simpa using this
    obtain ⟨a1, a2, a3, a4⟩ := key (H.ram_setup th).thread [hook_call.setup 0] (by simp) hc2
    refine ⟨a1, a2, a3, ?_⟩
    intro j hj
    obtain ⟨d, d1, d2, d3, d4⟩ := a4 j hj
    exact ⟨d, (mem_ram_calls d _).2 (List.mem_append_left _ d1), d2, d3, d4⟩

end

/-- Witness of C21: three opcodes with the slots 100, 200, 300; the scripted
transport fails on the second (`k = 1`) and leaves 51 in the scratch: the
slots become 50, 200, 51. -/
theorem ram_instructions_failed_step_slots_witness :
    (ram_instructions power_isa
        (scripted_hooks 0 0 [(0, 11), (0, 10), (0, 50), (5, 51)]) fresh_thread
        [5, 6, 7] [100, 200, 300] 3).results = [50, 200, 51]
      ∧ (ram_instructions power_isa
          (scripted_hooks 0 0 [(0, 11), (0, 10), (0, 50), (5, 51)]) fresh_thread
          [5, 6, 7] [100, 200, 300] ([5, 6, 7] : List Nat).length).results.length
          = ([5, 6, 7] : List Nat).length
      ∧ (ram_instructions power_isa
          (scripted_hooks 0 0 [(0, 11), (0, 10), (0, 50), (5, 51)]) fresh_thread
          [5, 6, 7] [100, 200, 300] ([5, 6, 7] : List Nat).length).results[
            ([5, 6, 7] : List Nat).length - 1]?
          = some (⟨1, 6, 200, 5, 51⟩ : ram_call).scratch_out
      ∧ (∀ j : Nat, 1 ≤ j → j < ([5, 6, 7] : List Nat).length - 1 →
          (ram_instructions power_isa
            (scripted_hooks 0 0 [(0, 11), (0, 10), (0, 50), (5, 51)]) fresh_thread
            [5, 6, 7] [100, 200, 300] ([5, 6, 7] : List Nat).length).results[j]?
            = ([100, 200, 300] : List Nat)[j]?)
      ∧ (∀ j : Nat, j < 1 →
          ∃ d ∈ ram_calls (ram_instructions power_isa
            (scripted_hooks 0 0 [(0, 11), (0, 10), (0, 50), (5, 51)]) fresh_thread
            [5, 6, 7] [100, 200, 300] ([5, 6, 7] : List Nat).length).log,
            d.iter = j ∧ d.rc = 0
              ∧ (ram_instructions power_isa
                  (scripted_hooks 0 0 [(0, 11), (0, 10), (0, 50), (5, 51)]) fresh_thread
                  [5, 6, 7] [100, 200, 300] ([5, 6, 7] : List Nat).length).results[j]?
                = some d.scratch_out) :=
  ⟨by
      simp [ram_instructions, scripted_hooks, fresh_thread, ram_entry, ram_loop_eq, ram_issue,
        ram_select, ram_store],
    ram_instructions_failed_step_slots power_isa
      (scripted_hooks 0 0 [(0, 11), (0, 10), (0, 50), (5, 51)]) fresh_thread
      [5, 6, 7] [100, 200, 300] 1 (by decide) rfl ⟨1, 6, 200, 5, 51⟩
      (by
        simp [ram_instructions, scripted_hooks, fresh_thread, ram_entry, ram_loop_eq, ram_issue,
          ram_select, ram_store, ram_calls])
      rfl (by decide)⟩

/-! ## The trailer of the SBE FIFO reply is not checked -/

/-- C22 on three replies of 12 bytes: `sbefifo_operation` uses the trailer word
`w` as it comes. With `w = 0` the header word is read at byte 12, past the 12
received bytes; with `w = 4` the 32-bit offset wraps and the header word is
read at byte 4294967292; with `w = 2` and a matching header the trailer itself
is taken as the status word, and `sbefifo_ffdc_set` is called with the start
offset 12 and the length `12 - 12 - 4`, that is 2^64 - 4 as a `size_t`. -/
theorem sbefifo_operation_trailer_unchecked :
    sbefifo_operation linux_errno
        (reply_env [0xC0, 0xDE, 0xA1, 0x01, 0, 0, 0, 0, 0, 0, 0, 0]) 8 0xA101 0
        = fifo_run.outside 12
      ∧ sbefifo_operation linux_errno
        (reply_env [0xC0, 0xDE, 0xA1, 0x01, 0, 0, 0, 0, 0, 0, 0, 4]) 8 0xA101 0
        = fifo_run.outside 4294967292
      ∧ sbefifo_operation linux_errno
        (reply_env [0, 0, 0, 0, 0xC0, 0xDE, 0xA1, 0x01, 0, 0, 0, 2]) 8 0xA101 0
        = fifo_run.returned ⟨201, out_ptr.untouched, 4, some ⟨2, 12, 18446744073709551612⟩⟩ := by
  refine ⟨?_, ?_, ?_⟩ <;> decide

end Pdbg
